import Mathlib

/-!
# Circular buffer: a shallow embedding of `lib/circular_buffer*.h`

Pointers are integer offsets measured from `container_begin_` of the buffer
under consideration, so `container_begin_` is the origin `0` and a pointer
before the slab is a negative offset.  The allocation is a list of slots; a
slot holds `some v` when an element of value `v` is constructed in it and
`none` when it is raw memory.  An access that leaves the allocation is
undefined behaviour in C++; the embedding records it in the flag `ub` and
keeps the cursor arithmetic exactly as the source computes it.  The flag is
also set by a read through a reference to an object that is not there, and by
the assignment of `erase(q1, q2)` to an element it has destroyed; the value
read is then `none`.

`int` and `std::ptrdiff_t` values are integers, `size_type` values are
naturals, and a conversion from a signed difference to `size_type` is taken
modulo `2 ^ 64`.  The iterator operators `operator+(int)`, `operator-(int)` and
`operator[]` take an `int`; where the source passes them a `size_type`, the
value is converted by `to_int`, modulo `2 ^ 32` into `[-2 ^ 31, 2 ^ 31)`.
Copying and moving an element both copy its value.

An iterator is written in the offsets of the buffer it is handed to.  An
iterator made by another buffer points into another allocation, so its
`current_` lies outside `[0, container_end_)` of this one and its
`container_begin_` is not `0`.

A parameter of type `const T&` is a `Ref`: the functions named `..._ref` read it
where the source reads it.  The functions of the same name without `_ref` take
the value itself; they are the calls whose argument is an object outside the
buffer, and `..._ref` at `Ref.value v` is equal to them.
-/

namespace CB

/-- The exception type thrown by the sources: `std::out_of_range`. -/
inductive Exception where
  | out_of_range
  deriving DecidableEq, Repr

/-- An exception thrown by a constructor of the element type `T`. -/
inductive ElementException where
  | thrown
  deriving DecidableEq, Repr

/-- Conversion of a signed value to the unsigned 64-bit `size_type`. -/
def to_size_type (x : Int) : Nat := (x % 2 ^ 64).toNat

/-- Conversion of a `size_type` value to the 32-bit `int` parameter of
`operator+(int)` and `operator-(int)`: the value modulo `2 ^ 32` that lies in
`[-2 ^ 31, 2 ^ 31)`. -/
def to_int (x : Int) : Int := (x + 2 ^ 31) % 2 ^ 32 - 2 ^ 31

/-- The object a `const T&` parameter is bound to: an object outside the buffer,
given by its value; the element in the slot at offset `p` of the slab the
buffer owns, as `cb[i]` and `*it` name it; or an object of an allocation that
has been released. -/
inductive Ref (α : Type) where
  | value (v : α)
  | slot (p : Int)
  | freed
  deriving DecidableEq, Repr

/-- The reference after a call of `reserve`: when the call has moved the elements
to a new slab and released the old one, a reference to a slot of the old slab
dangles. -/
def Ref.after_reserve {α : Type} (reallocated : Bool) : Ref α → Ref α
  | Ref.value v => Ref.value v
  | Ref.slot p => if reallocated then Ref.freed else Ref.slot p
  | Ref.freed => Ref.freed

/-! ## `lib/iterator/random_access_iterator.h` -/

/-- The five pointer members of `Iterator<T>`, as offsets from `container_begin_`
of the buffer the iterator is used with. -/
structure Iterator where
  current_ : Int
  container_begin_ : Int
  container_end_ : Int
  data_begin_ : Int
  data_end_ : Int
  deriving DecidableEq, Repr

namespace Iterator

/-- `Iterator& operator++()`. -/
def inc (it : Iterator) : Iterator :=
  if it.container_begin_ + 1 = it.container_end_ then it
  else if it.current_ + 1 ≠ it.container_end_ then { it with current_ := it.current_ + 1 }
  else { it with current_ := it.container_begin_ }

/-- `Iterator& operator--()`. -/
def dec (it : Iterator) : Iterator :=
  if it.container_begin_ + 1 = it.container_end_ then it
  else if it.current_ ≠ it.container_begin_ then { it with current_ := it.current_ - 1 }
  else { it with current_ := it.container_end_ - 1 }

/-- The part of `operator+(int n)` reached with `n > 0` (source lines 105-114).
The C++ `%` truncates, which is `Int.tmod`. -/
def plus_body (it : Iterator) (n : Int) : Iterator :=
  let to_end := it.container_end_ - it.current_
  if n < to_end then { it with current_ := it.current_ + n }
  else { it with current_ := it.container_begin_ +
          (n - to_end).tmod (it.container_end_ - it.container_begin_) }

/-- The part of `operator-(int n)` reached with `n > 0` (source lines 146-155). -/
def minus_body (it : Iterator) (n : Int) : Iterator :=
  let to_begin := it.current_ - it.container_begin_
  if n ≤ to_begin then { it with current_ := it.current_ - n }
  else { it with current_ := it.container_end_ -
          (n - to_begin).tmod (it.container_end_ - it.container_begin_) }

/-- `Iterator operator+(int n) const`.  For `n < 0` the source calls
`operator-(-n)`, whose three guards are then false, leaving its body. -/
def plus (it : Iterator) (n : Int) : Iterator :=
  if it.container_begin_ + 1 = it.container_end_ then it
  else if n = 0 then it
  else if n < 0 then it.minus_body (-n)
  else it.plus_body n

/-- `Iterator operator-(int n) const`.  For `n < 0` the source calls
`operator+(-n)`, whose three guards are then false, leaving its body. -/
def minus (it : Iterator) (n : Int) : Iterator :=
  if it.container_begin_ + 1 = it.container_end_ then it
  else if n = 0 then it
  else if n < 0 then it.plus_body (-n)
  else it.minus_body n

/-- The value computed by `operator-(const Iterator& rhs)` once the bounds
check has passed (source lines 182-193). -/
def distance (it rhs : Iterator) : Int :=
  if it.current_ ≥ it.data_begin_ ∧ rhs.current_ ≥ it.data_begin_ then
    it.current_ - rhs.current_
  else if it.current_ ≥ it.data_begin_ ∧ rhs.current_ < it.data_begin_ then
    (rhs.current_ - it.container_begin_) - (it.container_end_ - it.current_)
  else if rhs.current_ > it.data_end_ then
    (it.container_end_ - rhs.current_) + (it.current_ - it.container_begin_)
  else it.current_ - rhs.current_

/-- `difference_type operator-(const Iterator& rhs) const`. -/
def difference (it rhs : Iterator) : Except Exception Int :=
  if it.container_begin_ ≠ rhs.container_begin_ ∨ it.container_end_ ≠ rhs.container_end_ then
    Except.error Exception.out_of_range
  else Except.ok (it.distance rhs)

/-- `bool operator==(const Iterator& rhs) const noexcept`. -/
def equal (it rhs : Iterator) : Bool := decide (it.current_ = rhs.current_)

/-- `bool operator!=(const Iterator& rhs) const noexcept`. -/
def not_equal (it rhs : Iterator) : Bool := !(it.equal rhs)

/-- `bool operator>(const Iterator& rhs) const noexcept`:
`this->operator!=(rhs) && this->operator-(rhs) > 0`.  A throw of `operator-`
inside this `noexcept` function ends the program; it is rendered as the error. -/
def greater (it rhs : Iterator) : Except Exception Bool :=
  if it.not_equal rhs then (it.difference rhs).map (fun d => decide (d > 0))
  else Except.ok false

/-- `bool operator<(const Iterator& rhs) const noexcept`:
`this->operator!=(rhs) && this->operator-(rhs) < 0`. -/
def less (it rhs : Iterator) : Except Exception Bool :=
  if it.not_equal rhs then (it.difference rhs).map (fun d => decide (d < 0))
  else Except.ok false

/-- `bool operator>=(const Iterator& rhs) const noexcept`: `!(this->operator<(rhs))`. -/
def greater_equal (it rhs : Iterator) : Except Exception Bool :=
  (it.less rhs).map (fun b => !b)

/-- `bool operator<=(const Iterator& rhs) const noexcept`: `!(this->operator>(rhs))`. -/
def less_equal (it rhs : Iterator) : Except Exception Bool :=
  (it.greater rhs).map (fun b => !b)

end Iterator

/-! ## `lib/circular_buffer_common.h` -/

/-- The state of `CircularBufferCommon<T>`: the owned allocation and the
pointer members as offsets from `container_begin_`.  `ub` is set once an
access has left the allocation or has gone to an object that is not there. -/
structure CircularBufferCommon (α : Type) where
  slab : List (Option α)
  container_end_ : Int
  data_begin_ : Int
  data_end_ : Int
  ub : Bool
  deriving DecidableEq, Repr

namespace CircularBufferCommon

variable {α : Type}

/-- The pointer `container_begin_`, the origin of all offsets. -/
def container_begin_ (_s : CircularBufferCommon α) : Int := 0

/-- Reading `*p`: the slot content, `none` for raw memory or outside the allocation. -/
def deref (s : CircularBufferCommon α) (p : Int) : Option α :=
  if 0 ≤ p then (s.slab[p.toNat]?).getD none else none

/-- Writing the slot at `p`: inside the allocation the slot is replaced, outside
it the write is undefined behaviour and only sets `ub`. -/
def store (s : CircularBufferCommon α) (p : Int) (x : Option α) : CircularBufferCommon α :=
  { s with
    slab := if 0 ≤ p ∧ p < s.slab.length then s.slab.set p.toNat x else s.slab
    ub := if 0 ≤ p ∧ p < s.slab.length then s.ub else true }

/-- `allocator_traits::construct(allocator_, p, value)`. -/
def construct (s : CircularBufferCommon α) (p : Int) (value : α) : CircularBufferCommon α :=
  s.store p (some value)

/-- `allocator_traits::destroy(allocator_, p)`. -/
def destroy (s : CircularBufferCommon α) (p : Int) : CircularBufferCommon α :=
  s.store p none

/-- The assignment `*dst = std::move_if_noexcept(*src)` between two slots; reading
`*src` outside the allocation is undefined behaviour as well. -/
def move_assign (s : CircularBufferCommon α) (dst src : Int) : CircularBufferCommon α :=
  let s1 := s.store dst (s.deref src)
  { s1 with ub := if 0 ≤ src ∧ src < s.slab.length then s1.ub else true }

/-- The assignment `*dst = std::move_if_noexcept(*src)` where the source has just
run `destroy` on a range of slots: when `dst` holds no constructed element the
assignment is made to a destroyed object, which is undefined behaviour; the
value is stored all the same and `ub` is set. -/
def move_assign_checked (s : CircularBufferCommon α) (dst src : Int) :
    CircularBufferCommon α :=
  let s1 := s.move_assign dst src
  { s1 with ub := if (s.deref dst).isSome then s1.ub else true }

/-- Reading through a `const T&` parameter in state `s`: the value read, and
whether the read is undefined behaviour, which it is when the slot holds no
constructed element or the allocation has been released. -/
def read_ref (s : CircularBufferCommon α) : Ref α → Option α × Bool
  | Ref.value v => (some v, false)
  | Ref.slot p => (s.deref p, (s.deref p).isNone)
  | Ref.freed => (none, true)

/-- Writing the slot at `p` with what is read through `value`, as
`allocator_traits::construct(allocator_, p, value)` and `*p = value` do. -/
def store_ref (s : CircularBufferCommon α) (p : Int) (value : Ref α) : CircularBufferCommon α :=
  let r := s.read_ref value
  let s1 := s.store p r.1
  { s1 with ub := r.2 || s1.ub }

/-- `cbegin()`; `begin()` builds the same five pointers. -/
def cbegin (s : CircularBufferCommon α) : Iterator :=
  ⟨s.data_begin_, s.container_begin_, s.container_end_, s.data_begin_, s.data_end_⟩

/-- `cend()`; `end()` builds the same five pointers. -/
def cend (s : CircularBufferCommon α) : Iterator :=
  ⟨s.data_end_, s.container_begin_, s.container_end_, s.data_begin_, s.data_end_⟩

/-- `size()`: `std::distance(cbegin(), cend())`, which for a random access
iterator is `cend() - cbegin()`; both carry the bounds of this buffer. -/
def size (s : CircularBufferCommon α) : Nat :=
  to_size_type (s.cend.distance s.cbegin)

/-- `capacity()`: `std::distance(container_begin_, container_end_) - 1`. -/
def capacity (s : CircularBufferCommon α) : Nat :=
  to_size_type ((s.container_end_ - s.container_begin_) - 1)

/-- `empty()`. -/
def empty (s : CircularBufferCommon α) : Bool := s.size == 0

/-- The element at logical index `i`: the slot `i` steps after `begin()` in the
circular order, `*(begin() + i)` with `i` taken as it is.  This is the read the
logical contents are made of; the member `operator[]` is `op_index`. -/
def index (s : CircularBufferCommon α) (i : Nat) : Option α :=
  s.deref (s.cbegin.plus i).current_

/-- `operator[](size_type i)` of both variants: `*(begin() + i)`, where
`operator+(int)` receives `i` converted to `int`. -/
def op_index (s : CircularBufferCommon α) (i : Nat) : Option α :=
  s.deref (s.cbegin.plus (to_int i)).current_

/-- The reference `operator[](size_type i)` returns: the slot `op_index` reads. -/
def op_index_ref (s : CircularBufferCommon α) (i : Nat) : Ref α :=
  Ref.slot (s.cbegin.plus (to_int i)).current_

/-- `at(int n)`: the comparison `n >= size()` converts `n` to `size_type`. -/
def at_ (s : CircularBufferCommon α) (n : Int) : Except Exception (Option α) :=
  if to_size_type n ≥ s.size then Except.error Exception.out_of_range
  else Except.ok (s.deref (s.cbegin.plus n).current_)

/-- The logical contents: the elements at the logical indices `0 .. size()-1`. -/
def contents (s : CircularBufferCommon α) : List (Option α) :=
  (List.range s.size).map s.index

/-- `CircularBufferCommon(const Alloc&)`: the default constructor. -/
def mk_default : CircularBufferCommon α :=
  { slab := [none], container_end_ := 1, data_begin_ := 0, data_end_ := 0, ub := false }

/-- `CircularBufferCommon(size_type size, const Alloc&)`. -/
def mk_sized (size : Nat) : CircularBufferCommon α :=
  { slab := List.replicate (size + 1) none, container_end_ := size + 1,
    data_begin_ := 0, data_end_ := 0, ub := false }

/-- `CircularBufferCommon(const std::initializer_list<value_type>&, const Alloc&)`:
`copy_data` constructs the elements from the first slot on. -/
def mk_list (il : List α) : CircularBufferCommon α :=
  { slab := il.map some ++ [none], container_end_ := il.length + 1,
    data_begin_ := 0, data_end_ := (il.length + 1 : Int) - 1, ub := false }

/-- The loop `for (it = first; it != last; ++it) destroy(addressof(*it))`, used by
`clear()` and `erase(q1, q2)`.  An iterator inside the slab visits every slot
within `container_end_ - container_begin_` increments, so a loop that has not
met `last` after that many steps never ends; `fuel` is that bound and running
out of it is recorded in `ub`. -/
def destroy_range (last : Iterator) :
    Nat → Iterator → CircularBufferCommon α → CircularBufferCommon α
  | 0, it, s => if it.current_ = last.current_ then s else { s with ub := true }
  | fuel + 1, it, s =>
    if it.current_ = last.current_ then s
    else destroy_range last fuel it.inc (s.destroy it.current_)

/-- `clear()`. -/
def clear (s : CircularBufferCommon α) : CircularBufferCommon α :=
  let s1 := destroy_range s.cend s.container_end_.toNat s.cbegin s
  { s1 with data_begin_ := s1.container_begin_, data_end_ := s1.container_begin_ }

/-- `move_data(start, end, out, allocator)` with `out` the first slot of a fresh
allocation that has `room` slots: the result lists the values constructed at
`out[0], out[1], ...`.  It is `none` when the loop reads outside the source
allocation or constructs past the last slot of the destination, which is where
a traversal that never meets `end` arrives. -/
def move_data (s : CircularBufferCommon α) (last : Iterator) :
    Nat → Iterator → Option (List (Option α))
  | 0, start => if start.current_ = last.current_ then some [] else none
  | room + 1, start =>
    if start.current_ = last.current_ then some []
    else if 0 ≤ start.current_ ∧ start.current_ < s.slab.length then
      (move_data s last room start.inc).map (fun out => s.deref start.current_ :: out)
    else none

/-- `reserve(size_type n)`. -/
def reserve (s : CircularBufferCommon α) (n : Nat) : CircularBufferCommon α :=
  if s.capacity ≥ n then s
  else
    match move_data s s.cend (n + 1) s.cbegin with
    | none => { s with ub := true }
    | some out =>
      let old_n := s.size
      let s1 := s.clear
      { slab := out ++ List.replicate (n + 1 - out.length) none,
        container_end_ := (n : Int) + 1,
        data_begin_ := 0,
        data_end_ := (0 : Int) + old_n,
        ub := s1.ub }

/-- Whether `reserve(n)` allocates a new slab and releases the old one. -/
def reserve_reallocates (s : CircularBufferCommon α) (n : Nat) : Bool :=
  decide (s.capacity < n)

/-- `pop_back()`: the value returned and the state left. -/
def pop_back (s : CircularBufferCommon α) :
    Except Exception (Option α × CircularBufferCommon α) :=
  if s.empty then Except.error Exception.out_of_range
  else
    let s1 :=
      if s.container_begin_ = s.data_end_ then { s with data_end_ := s.container_begin_ - 1 }
      else { s with data_end_ := s.data_end_ - 1 }
    let to_return := s1.deref s1.data_end_
    Except.ok (to_return, s1.destroy s1.data_end_)

/-- `pop_front()`: the value returned and the state left. -/
def pop_front (s : CircularBufferCommon α) :
    Except Exception (Option α × CircularBufferCommon α) :=
  if s.empty then Except.error Exception.out_of_range
  else
    let to_return := s.deref s.data_begin_
    let s1 := s.destroy s.data_begin_
    if s1.data_begin_ + 1 = s1.container_end_ then
      Except.ok (to_return, { s1 with data_begin_ := s1.container_begin_ })
    else Except.ok (to_return, { s1 with data_begin_ := s1.data_begin_ + 1 })

/-- `reference front()`: the slot the returned reference names, read. -/
def front (s : CircularBufferCommon α) : Except Exception (Option α) :=
  if s.empty then Except.error Exception.out_of_range
  else Except.ok (s.deref s.data_begin_)

/-- `const_reference front() const`. -/
def front_const (s : CircularBufferCommon α) : Except Exception (Option α) :=
  if s.empty then Except.error Exception.out_of_range
  else Except.ok (s.deref s.data_begin_)

/-- `reference back()` (source lines 358-364): the slot the returned reference
names, read.  The body starts with the test `container_begin_ == data_end_`. -/
def back (s : CircularBufferCommon α) : Except Exception (Option α) :=
  if s.container_begin_ = s.data_end_ then Except.ok (s.deref (s.container_end_ - 1))
  else Except.ok (s.deref (s.data_end_ - 1))

/-- `const_reference back() const` (source lines 366-375). -/
def back_const (s : CircularBufferCommon α) : Except Exception (Option α) :=
  if s.empty then Except.error Exception.out_of_range
  else if s.container_begin_ = s.data_end_ then Except.ok (s.deref (s.container_end_ - 1))
  else Except.ok (s.deref (s.data_end_ - 1))

/-- The loop of `erase(q)`:
`for (it = begin() + index; index < size() - 1; ++index, ++it) *it = move(*(it + 1))`,
with `size() - 1` computed in `size_type`; the caller passes `begin() + index`.
It is entered with `index < size()`, so it makes fewer than `size()` rounds;
`fuel` is `size()`.  The result carries the final `index`. -/
def erase_loop : Nat → Nat → Iterator → CircularBufferCommon α → Nat × CircularBufferCommon α
  | 0, index, _, s => (index, s)
  | fuel + 1, index, it, s =>
    if index < to_size_type ((s.size : Int) - 1) then
      erase_loop fuel (index + 1) it.inc (s.move_assign it.current_ (it.plus 1).current_)
    else (index, s)

/-- `erase(const_iterator q)`: the iterator returned and the state left.  Both
`begin() + index` pass the `size_type` value `index` to `operator+(int)`. -/
def erase (s : CircularBufferCommon α) (q : Iterator) :
    Except Exception (Iterator × CircularBufferCommon α) :=
  if q.current_ < s.container_begin_ ∨ q.current_ ≥ s.container_end_ then
    Except.error Exception.out_of_range
  else
    match q.difference s.cbegin with
    | Except.error e => Except.error e
    | Except.ok d =>
      let index := to_size_type d
      if index ≥ s.size then Except.error Exception.out_of_range
      else
        let r := erase_loop s.size index (s.cbegin.plus (to_int index)) s
        let s1 := r.2
        let s2 :=
          if s1.container_begin_ = s1.data_end_ then { s1 with data_end_ := s1.container_end_ - 1 }
          else { s1 with data_end_ := s1.data_end_ - 1 }
        let s3 := s2.destroy s2.data_end_
        Except.ok (s3.cbegin.plus (to_int r.1), s3)

/-- The second loop of `erase(q1, q2)`:
`for (it = begin() + it_end + 1; it != end(); ++it) *(it - n) = move(*it)`,
with the same bound on its rounds as `destroy_range`.  `operator-(int)` receives
the `size_type` value `n` converted to `int`, and the first loop has destroyed
the elements of `[q1, q2)`, so the assignment is a `move_assign_checked`. -/
def shift_range (n : Nat) (last : Iterator) :
    Nat → Iterator → CircularBufferCommon α → CircularBufferCommon α
  | 0, it, s => if it.current_ = last.current_ then s else { s with ub := true }
  | fuel + 1, it, s =>
    if it.current_ = last.current_ then s
    else shift_range n last fuel it.inc
      (s.move_assign_checked (it.minus (to_int n)).current_ it.current_)

/-- `erase(const_iterator q1, const_iterator q2)`: the iterator returned and the
state left.  `it_end` and `n` are `size_type` values, computed modulo `2 ^ 64`,
and converted to `int` where `operator+(int)` and `operator-(int)` receive them.
The slots vacated at the end of the live range are not destroyed. -/
def erase_range (s : CircularBufferCommon α) (q1 q2 : Iterator) :
    Except Exception (Iterator × CircularBufferCommon α) :=
  if q1.current_ < s.container_begin_ ∨ q1.current_ ≥ s.container_end_ ∨
      q2.current_ < s.container_begin_ ∨ q2.current_ ≥ s.container_end_ then
    Except.error Exception.out_of_range
  else
    match q1.difference s.cbegin with
    | Except.error e => Except.error e
    | Except.ok d1 =>
      match q2.difference s.cbegin with
      | Except.error e => Except.error e
      | Except.ok d2 =>
        let it_begin := to_size_type d1
        let it_end := to_size_type (d2 - 1)
        let n := to_size_type ((it_end : Int) - it_begin + 1)
        if it_begin ≥ s.size ∨ it_end ≥ s.size then Except.error Exception.out_of_range
        else
          let s1 := destroy_range q2 s.container_end_.toNat q1 s
          let s2 := shift_range n s1.cend s1.container_end_.toNat
            ((s1.cbegin.plus (to_int it_end)).plus 1) s1
          let s3 := { s2 with data_end_ := (s2.cend.minus (to_int n)).current_ }
          Except.ok (s3.cbegin.plus (to_int it_begin), s3)

/-- `copy_data(start, end, out, allocator)` read through iterators of a buffer: the
loop of `move_data`, with a copy where `move_data` has `std::move_if_noexcept`. -/
def copy_data (s : CircularBufferCommon α) (last : Iterator) (room : Nat) (start : Iterator) :
    Option (List (Option α)) :=
  move_data s last room start

/-- `CircularBufferCommon(const CircularBufferCommon& other)`: a slab of
`other.size() + 1` slots filled by `copy_data` from its first slot on. -/
def mk_copy (other : CircularBufferCommon α) : CircularBufferCommon α :=
  match copy_data other other.cend (other.size + 1) other.cbegin with
  | none =>
    { slab := List.replicate (other.size + 1) none,
      container_end_ := (other.size : Int) + 1,
      data_begin_ := 0,
      data_end_ := (0 : Int) + other.size,
      ub := true }
  | some out =>
    { slab := out ++ List.replicate (other.size + 1 - out.length) none,
      container_end_ := (other.size : Int) + 1,
      data_begin_ := 0,
      data_end_ := (0 : Int) + other.size,
      ub := false }

/-- The loop of `resize` that constructs `n_for_new_values` copies of `value` at
`data_end_` (source lines 415-423). -/
def resize_grow (value : α) : Nat → CircularBufferCommon α → CircularBufferCommon α
  | 0, s => s
  | k + 1, s =>
    let s1 := s.construct s.data_end_ value
    resize_grow value k
      (if s1.data_end_ + 1 = s1.container_end_ then { s1 with data_end_ := s1.container_begin_ }
       else { s1 with data_end_ := s1.data_end_ + 1 })

/-- The loop of `resize` that destroys `n_for_del_values` elements from the end
(source lines 440-448). -/
def resize_shrink : Nat → CircularBufferCommon α → CircularBufferCommon α
  | 0, s => s
  | k + 1, s =>
    let s1 :=
      if s.container_begin_ = s.data_end_ then { s with data_end_ := s.container_end_ - 1 }
      else { s with data_end_ := s.data_end_ - 1 }
    resize_shrink k (s1.destroy s1.data_end_)

/-- `resize(size_type n, const value_type& value)` with an argument that is an
object outside the buffer, among them the default argument `value_type()`. -/
def resize (s : CircularBufferCommon α) (n : Nat) (value : α) : CircularBufferCommon α :=
  let s1 := if n > s.capacity then s.reserve n else s
  if n = s1.size then s1
  else if n > s1.size then resize_grow value (n - s1.size) s1
  else resize_shrink (s1.size - n) s1

/-- The loop of `resize` that constructs `n_for_new_values` copies of `value` at
`data_end_` (source lines 415-423), `value` read through the reference at each
construction. -/
def resize_grow_ref (value : Ref α) : Nat → CircularBufferCommon α → CircularBufferCommon α
  | 0, s => s
  | k + 1, s =>
    let s1 := s.store_ref s.data_end_ value
    resize_grow_ref value k
      (if s1.data_end_ + 1 = s1.container_end_ then { s1 with data_end_ := s1.container_begin_ }
       else { s1 with data_end_ := s1.data_end_ + 1 })

/-- `resize(size_type n, const value_type& value)`: `reserve(n)` runs before the
first copy of `value` is made. -/
def resize_ref (s : CircularBufferCommon α) (n : Nat) (value : Ref α) : CircularBufferCommon α :=
  let s1 := if n > s.capacity then s.reserve n else s
  let value1 := if n > s.capacity then value.after_reserve (s.reserve_reallocates n) else value
  if n = s1.size then s1
  else if n > s1.size then resize_grow_ref value1 (n - s1.size) s1
  else resize_shrink (s1.size - n) s1

/-- `move_data(start, end, out, allocator)` when the constructor of the element
type throws at its call number `fault`, counted from 0; `k` is the number of
constructions made so far.  The result is the error once that call is reached:
the `catch` block has then destroyed the constructed prefix of the new slab and
rethrown.  `std::move_if_noexcept` gives a copy whenever the construction can
throw, so the source slots are only read. -/
def move_data_fault (s : CircularBufferCommon α) (last : Iterator) (fault : Nat) :
    Nat → Nat → Iterator → Option (Except ElementException (List (Option α)))
  | 0, _, start => if start.current_ = last.current_ then some (Except.ok []) else none
  | room + 1, k, start =>
    if start.current_ = last.current_ then some (Except.ok [])
    else if 0 ≤ start.current_ ∧ start.current_ < s.slab.length then
      if k = fault then some (Except.error ElementException.thrown)
      else (move_data_fault s last fault room (k + 1) start.inc).map
        (fun r => r.map (fun out => s.deref start.current_ :: out))
    else none

/-- `reserve(size_type n)` when the constructor of the element type throws at its
call number `fault`: how the call ends and the state it leaves.  In the `catch`
block of `reserve` the new slab is deallocated and the exception rethrown; no
member has been written before `move_data` returns. -/
def reserve_fault (s : CircularBufferCommon α) (n fault : Nat) :
    Except ElementException Unit × CircularBufferCommon α :=
  if s.capacity ≥ n then (Except.ok (), s)
  else
    match move_data_fault s s.cend fault (n + 1) 0 s.cbegin with
    | none => (Except.ok (), { s with ub := true })
    | some (Except.error e) => (Except.error e, s)
    | some (Except.ok out) =>
      let old_n := s.size
      let s1 := s.clear
      (Except.ok (),
        { slab := out ++ List.replicate (n + 1 - out.length) none,
          container_end_ := (n : Int) + 1,
          data_begin_ := 0,
          data_end_ := (0 : Int) + old_n,
          ub := s1.ub })

/-- The `catch` block of `resize` (source lines 424-434): `rest` more rounds, the
next one with counter `j`, of stepping `data_end_` back and
`destroy(data_end_ + j)`. -/
def resize_unwind : Nat → Nat → CircularBufferCommon α → CircularBufferCommon α
  | 0, _, s => s
  | rest + 1, j, s =>
    let s1 :=
      if s.container_begin_ = s.data_end_ then { s with data_end_ := s.container_end_ - 1 }
      else { s with data_end_ := s.data_end_ - 1 }
    resize_unwind rest (j + 1) (s1.destroy (s1.data_end_ + j))

/-- The `try` block of `resize` (source lines 414-423) when the construction of
the copy number `fault` of `value` throws: `k` rounds are left and `i` copies
have been constructed. -/
def resize_grow_fault (value : α) (fault : Nat) :
    Nat → Nat → CircularBufferCommon α → Except ElementException Unit × CircularBufferCommon α
  | 0, _, s => (Except.ok (), s)
  | k + 1, i, s =>
    if i = fault then (Except.error ElementException.thrown, resize_unwind i 0 s)
    else
      let s1 := s.construct s.data_end_ value
      resize_grow_fault value fault k (i + 1)
        (if s1.data_end_ + 1 = s1.container_end_ then { s1 with data_end_ := s1.container_begin_ }
         else { s1 with data_end_ := s1.data_end_ + 1 })

/-- `resize(size_type n, const value_type& value)` when the construction of the
copy number `fault` of `value` throws: how the call ends and the state it
leaves.  The call of `reserve` at the head of `resize` is taken to succeed. -/
def resize_fault (s : CircularBufferCommon α) (n : Nat) (value : α) (fault : Nat) :
    Except ElementException Unit × CircularBufferCommon α :=
  let s1 := if n > s.capacity then s.reserve n else s
  if n = s1.size then (Except.ok (), s1)
  else if n > s1.size then resize_grow_fault value fault (n - s1.size) 0 s1
  else (Except.ok (), resize_shrink (s1.size - n) s1)

/-- The loop of the three-iterator `std::equal`:
`for (; first1 != last1; ++first1, ++first2) if (!(*first1 == *first2)) return false;`
with the bound on its rounds of `destroy_range`; `none` when it does not end. -/
def equal_loop [DecidableEq α] (s other : CircularBufferCommon α) (last1 : Iterator) :
    Nat → Iterator → Iterator → Option Bool
  | 0, first1, _ => if first1.current_ = last1.current_ then some true else none
  | fuel + 1, first1, first2 =>
    if first1.current_ = last1.current_ then some true
    else if s.deref first1.current_ ≠ other.deref first2.current_ then some false
    else equal_loop s other last1 fuel first1.inc first2.inc

/-- `operator==` on two buffers: `std::equal(cbegin(), cend(), other.cbegin(),
other.cend())`, which for random access iterators compares the two distances
first.  The shortcut for `this == &other` returns what this comparison returns
on a buffer and itself. -/
def op_eq [DecidableEq α] (s other : CircularBufferCommon α) : Option Bool :=
  if s.cend.distance s.cbegin ≠ other.cend.distance other.cbegin then some false
  else equal_loop s other s.cend s.container_end_.toNat s.cbegin other.cbegin

/-- `operator!=`. -/
def op_ne [DecidableEq α] (s other : CircularBufferCommon α) : Option Bool :=
  (op_eq s other).map (fun b => !b)

/-- `swap(CircularBufferCommon& other)` on two distinct buffers with an allocator
that does not propagate on swap (as `std::allocator`): the states left in
`*this` and in `other`.  The slab given to `other` is allocated with
`this_old_size + 1` slots. -/
def swap (s other : CircularBufferCommon α) : CircularBufferCommon α × CircularBufferCommon α :=
  let this_old_size := s.size
  let this_old_capacity := s.capacity
  let other_old_size := other.size
  let other_old_capacity := other.capacity
  match move_data s s.cend (this_old_size + 1) s.cbegin,
      move_data other other.cend (other_old_capacity + 1) other.cbegin with
  | some new_other, some new_this =>
    ({ slab := new_this ++ List.replicate (other_old_capacity + 1 - new_this.length) none,
       container_end_ := (other_old_capacity : Int) + 1,
       data_begin_ := 0,
       data_end_ := (0 : Int) + other_old_size,
       ub := s.clear.ub },
     { slab := new_other ++ List.replicate (this_old_size + 1 - new_other.length) none,
       container_end_ := (this_old_capacity : Int) + 1,
       data_begin_ := 0,
       data_end_ := (0 : Int) + this_old_size,
       ub := other.clear.ub })
  | _, _ => ({ s with ub := true }, { other with ub := true })

/-- `a.swap(a)`: the call returns at once. -/
def swap_self (s : CircularBufferCommon α) : CircularBufferCommon α := s

/-- The loop `for (; last != it; --last) *last = move(*(last - 1))` of the
single-value `insert`, with the bound on its rounds of `destroy_range`. -/
def insert_shift (it : Iterator) :
    Nat → Iterator → CircularBufferCommon α → CircularBufferCommon α
  | 0, last, s => if last.current_ = it.current_ then s else { s with ub := true }
  | fuel + 1, last, s =>
    if last.current_ = it.current_ then s
    else insert_shift it fuel last.dec (s.move_assign last.current_ (last.minus 1).current_)

/-- The end of the single-value `insert` of both variants, for a position strictly
inside the live range (circular_buffer.h lines 152-167, circular_buffer_ext.h
lines 135-151, equal up to the order of the operands of `==`), with a value
that is an object outside the buffer.  `begin() + index` passes the
`size_type` value `index` to `operator+(int)`. -/
def insert_middle (s : CircularBufferCommon α) (index : Nat) (value : α) :
    Iterator × CircularBufferCommon α :=
  let last := s.cend.dec
  let it := s.cbegin.plus (to_int index)
  let s1 := s.move_assign s.data_end_ last.current_
  let s2 :=
    if s1.data_end_ + 1 = s1.container_end_ then { s1 with data_end_ := s1.container_begin_ }
    else { s1 with data_end_ := s1.data_end_ + 1 }
  let s3 := insert_shift it s2.container_end_.toNat last s2
  (it, s3.store it.current_ (some value))

/-- The end of the single-value `insert` of both variants with the value read
through the reference: `*it = value` comes after the loop that has shifted the
elements from `it` on. -/
def insert_middle_ref (s : CircularBufferCommon α) (index : Nat) (value : Ref α) :
    Iterator × CircularBufferCommon α :=
  let last := s.cend.dec
  let it := s.cbegin.plus (to_int index)
  let s1 := s.move_assign s.data_end_ last.current_
  let s2 :=
    if s1.data_end_ + 1 = s1.container_end_ then { s1 with data_end_ := s1.container_begin_ }
    else { s1 with data_end_ := s1.data_end_ + 1 }
  let s3 := insert_shift it s2.container_end_.toNat last s2
  (it, s3.store_ref it.current_ value)

/-- The loop `for (it = end() - n; it != to_insert; --it)
construct(addressof(*(it + n - 1)), move(*(it - 1)))` of the bulk inserts;
`it + n` passes the `size_type` value `n` to `operator+(int)`. -/
def insert_open_gap (n : Nat) (to_insert : Iterator) :
    Nat → Iterator → CircularBufferCommon α → CircularBufferCommon α
  | 0, it, s => if it.current_ = to_insert.current_ then s else { s with ub := true }
  | fuel + 1, it, s =>
    if it.current_ = to_insert.current_ then s
    else insert_open_gap n to_insert fuel it.dec
      (s.move_assign ((it.plus (to_int n)).minus 1).current_ (it.minus 1).current_)

/-- The loop `for (k = 0; k < n; ++i, ++k) construct(addressof(to_insert[k]), *i)`
over the source elements `il`, objects outside the buffer, starting at `k`; with
`il` made of `n` copies of `value` it is the loop of `insert(p, n, value)`.
`to_insert[k]` is `*(to_insert + k)` with `k` converted to `int`. -/
def insert_fill (to_insert : Iterator) :
    List α → Nat → CircularBufferCommon α → CircularBufferCommon α
  | [], _, s => s
  | v :: il, k, s =>
    insert_fill to_insert il (k + 1) (s.construct (to_insert.plus (to_int k)).current_ v)

/-- The loop `for (k = 0; k < n; ++i, ++k) construct(addressof(to_insert[k]), *i)`
with each source element read through its reference when its turn comes; for
`insert(p, n, value)` the list holds `n` times the reference `value`. -/
def insert_fill_ref (to_insert : Iterator) :
    List (Ref α) → Nat → CircularBufferCommon α → CircularBufferCommon α
  | [], _, s => s
  | v :: il, k, s =>
    insert_fill_ref to_insert il (k + 1) (s.store_ref (to_insert.plus (to_int k)).current_ v)

/-- The end of the bulk inserts of both variants, for a position strictly inside
the live range (circular_buffer.h lines 196-213 and 250-268,
circular_buffer_ext.h lines 186-203 and 243-260), the source elements being
objects outside the buffer.  `begin() + index` and `end() - n` pass `size_type`
values to `operator+(int)` and `operator-(int)`. -/
def insert_bulk_middle (s : CircularBufferCommon α) (index : Nat) (il : List α) :
    Iterator × CircularBufferCommon α :=
  let n := il.length
  let s1 :=
    if s.data_end_ + n ≥ s.container_end_ then
      { s with data_end_ := s.container_begin_ + ((s.data_end_ + n) - s.container_end_) }
    else { s with data_end_ := s.data_end_ + n }
  let to_insert := s1.cbegin.plus (to_int index)
  let s2 := insert_open_gap n to_insert s1.container_end_.toNat (s1.cend.minus (to_int n)) s1
  (to_insert, insert_fill to_insert il 0 s2)

/-- The end of the bulk inserts of both variants with the source elements read
through their references, after the loop that has opened the gap. -/
def insert_bulk_middle_ref (s : CircularBufferCommon α) (index : Nat) (il : List (Ref α)) :
    Iterator × CircularBufferCommon α :=
  let n := il.length
  let s1 :=
    if s.data_end_ + n ≥ s.container_end_ then
      { s with data_end_ := s.container_begin_ + ((s.data_end_ + n) - s.container_end_) }
    else { s with data_end_ := s.data_end_ + n }
  let to_insert := s1.cbegin.plus (to_int index)
  let s2 := insert_open_gap n to_insert s1.container_end_.toNat (s1.cend.minus (to_int n)) s1
  (to_insert, insert_fill_ref to_insert il 0 s2)

end CircularBufferCommon

/-! ## `lib/circular_buffer.h` -/

namespace CircularBuffer

variable {α : Type}

/-- `CircularBuffer::push_back(const T& value)`.  `value` is read by `construct`
before anything is changed, so the argument is given by the value it has when
the call is made. -/
def push_back (s : CircularBufferCommon α) (value : α) : CircularBufferCommon α :=
  if s.capacity = 0 then s
  else
    let s1 := s.construct s.data_end_ value
    let next : Int :=
      if s1.data_end_ + 1 = s1.container_end_ then s1.container_begin_ else s1.data_end_ + 1
    let s2 :=
      if next = s1.data_begin_ then
        let s3 := s1.destroy s1.data_begin_
        if s3.data_begin_ + 1 = s3.container_end_ then
          { s3 with data_begin_ := s3.container_begin_ }
        else { s3 with data_begin_ := s3.data_begin_ + 1 }
      else s1
    if s2.data_end_ + 1 = s2.container_end_ then { s2 with data_end_ := s2.container_begin_ }
    else { s2 with data_end_ := s2.data_end_ + 1 }

/-- `CircularBuffer::push_front(const T& value)`.  `value` is read by `construct`
before anything is changed, so the argument is given by the value it has when
the call is made. -/
def push_front (s : CircularBufferCommon α) (value : α) : CircularBufferCommon α :=
  if s.capacity = 0 then s
  else
    let new_data_begin : Int :=
      if s.container_begin_ = s.data_begin_ then s.container_end_ - 1 else s.data_begin_ - 1
    let s1 := s.construct new_data_begin value
    let s2 :=
      if new_data_begin = s1.data_end_ then
        let s3 :=
          if s1.container_begin_ = s1.data_end_ then { s1 with data_end_ := s1.container_end_ - 1 }
          else { s1 with data_end_ := s1.data_end_ - 1 }
        s3.destroy s3.data_end_
      else s1
    { s2 with data_begin_ := new_data_begin }

/-- `CircularBuffer::push_back(const T& value)` with the value read through the
reference, which `construct` does before any element is destroyed. -/
def push_back_ref (s : CircularBufferCommon α) (value : Ref α) : CircularBufferCommon α :=
  if s.capacity = 0 then s
  else
    let s1 := s.store_ref s.data_end_ value
    let next : Int :=
      if s1.data_end_ + 1 = s1.container_end_ then s1.container_begin_ else s1.data_end_ + 1
    let s2 :=
      if next = s1.data_begin_ then
        let s3 := s1.destroy s1.data_begin_
        if s3.data_begin_ + 1 = s3.container_end_ then
          { s3 with data_begin_ := s3.container_begin_ }
        else { s3 with data_begin_ := s3.data_begin_ + 1 }
      else s1
    if s2.data_end_ + 1 = s2.container_end_ then { s2 with data_end_ := s2.container_begin_ }
    else { s2 with data_end_ := s2.data_end_ + 1 }

/-- `CircularBuffer::push_front(const T& value)` with the value read through the
reference. -/
def push_front_ref (s : CircularBufferCommon α) (value : Ref α) : CircularBufferCommon α :=
  if s.capacity = 0 then s
  else
    let new_data_begin : Int :=
      if s.container_begin_ = s.data_begin_ then s.container_end_ - 1 else s.data_begin_ - 1
    let s1 := s.store_ref new_data_begin value
    let s2 :=
      if new_data_begin = s1.data_end_ then
        let s3 :=
          if s1.container_begin_ = s1.data_end_ then { s1 with data_end_ := s1.container_end_ - 1 }
          else { s1 with data_end_ := s1.data_end_ - 1 }
        s3.destroy s3.data_end_
      else s1
    { s2 with data_begin_ := new_data_begin }

/-- `CircularBuffer::insert(const_iterator p, const_reference value)` with a value
that is an object outside the buffer. -/
def insert (s : CircularBufferCommon α) (p : Iterator) (value : α) :
    Except Exception (Iterator × CircularBufferCommon α) :=
  if p.current_ < s.container_begin_ ∨ p.current_ ≥ s.container_end_ then
    Except.error Exception.out_of_range
  else
    match p.difference s.cbegin with
    | Except.error e => Except.error e
    | Except.ok d =>
      let index := to_size_type d
      if index > s.size then Except.error Exception.out_of_range
      else
        let s1 := s.reserve ((s.size + 1) % 2 ^ 64)
        if index = s1.size then
          let s2 := push_back s1 value
          Except.ok (s2.cend.dec, s2)
        else if index = 0 then
          let s2 := push_front s1 value
          Except.ok (s2.cbegin, s2)
        else Except.ok (s1.insert_middle index value)

/-- `CircularBuffer::insert(const_iterator p, const_reference value)`: `value` is
read after `reserve(size() + 1)`, and in the middle of the live range after the
elements have been shifted. -/
def insert_ref (s : CircularBufferCommon α) (p : Iterator) (value : Ref α) :
    Except Exception (Iterator × CircularBufferCommon α) :=
  if p.current_ < s.container_begin_ ∨ p.current_ ≥ s.container_end_ then
    Except.error Exception.out_of_range
  else
    match p.difference s.cbegin with
    | Except.error e => Except.error e
    | Except.ok d =>
      let index := to_size_type d
      if index > s.size then Except.error Exception.out_of_range
      else
        let s1 := s.reserve ((s.size + 1) % 2 ^ 64)
        let value1 := value.after_reserve (s.reserve_reallocates ((s.size + 1) % 2 ^ 64))
        if index = s1.size then
          let s2 := push_back_ref s1 value1
          Except.ok (s2.cend.dec, s2)
        else if index = 0 then
          let s2 := push_front_ref s1 value1
          Except.ok (s2.cbegin, s2)
        else Except.ok (s1.insert_middle_ref index value1)

/-- The part shared by `CircularBuffer::insert(p, n, value)` and
`CircularBuffer::insert(p, i, j)` after the checks: `il` lists the `n` elements
to insert, `n ≥ 1`, objects outside the buffer. -/
def insert_bulk (s : CircularBufferCommon α) (index : Nat) (il : List α) :
    Iterator × CircularBufferCommon α :=
  let s1 := s.reserve ((s.size + il.length) % 2 ^ 64)
  if index = s1.size then
    let it := s1.cend
    (it, il.foldl push_back s1)
  else if index = 0 then
    let s2 := il.foldl push_front s1
    (s2.cbegin, s2)
  else s1.insert_bulk_middle index il

/-- The part of `CircularBuffer::insert(p, n, value)` after the checks with the
source elements read through their references, `il` holding `n` times the
reference `value`: each is read after `reserve(size() + n)`, when its turn
comes. -/
def insert_bulk_ref (s : CircularBufferCommon α) (index : Nat) (il : List (Ref α)) :
    Iterator × CircularBufferCommon α :=
  let s1 := s.reserve ((s.size + il.length) % 2 ^ 64)
  let il1 := il.map
    (Ref.after_reserve (s.reserve_reallocates ((s.size + il.length) % 2 ^ 64)))
  if index = s1.size then
    let it := s1.cend
    (it, il1.foldl push_back_ref s1)
  else if index = 0 then
    let s2 := il1.foldl push_front_ref s1
    (s2.cbegin, s2)
  else s1.insert_bulk_middle_ref index il1

/-- `CircularBuffer::insert(const_iterator p, size_type n, const_reference value)`
with a value that is an object outside the buffer.  With `n == 0` the source
returns `begin() + index`, `index` converted to `int`. -/
def insert_n (s : CircularBufferCommon α) (p : Iterator) (n : Nat) (value : α) :
    Except Exception (Iterator × CircularBufferCommon α) :=
  if p.current_ < s.container_begin_ ∨ p.current_ ≥ s.container_end_ then
    Except.error Exception.out_of_range
  else
    match p.difference s.cbegin with
    | Except.error e => Except.error e
    | Except.ok d =>
      let index := to_size_type d
      if n = 0 then Except.ok (s.cbegin.plus (to_int index), s)
      else if index > s.size then Except.error Exception.out_of_range
      else Except.ok (insert_bulk s index (List.replicate n value))

/-- `CircularBuffer::insert(const_iterator p, size_type n, const_reference value)`
with the value read through the reference. -/
def insert_n_ref (s : CircularBufferCommon α) (p : Iterator) (n : Nat) (value : Ref α) :
    Except Exception (Iterator × CircularBufferCommon α) :=
  if p.current_ < s.container_begin_ ∨ p.current_ ≥ s.container_end_ then
    Except.error Exception.out_of_range
  else
    match p.difference s.cbegin with
    | Except.error e => Except.error e
    | Except.ok d =>
      let index := to_size_type d
      if n = 0 then Except.ok (s.cbegin.plus (to_int index), s)
      else if index > s.size then Except.error Exception.out_of_range
      else Except.ok (insert_bulk_ref s index (List.replicate n value))

/-- `CircularBuffer::insert(const_iterator p, LegacyInputIterator i,
LegacyInputIterator j)` and `insert(p, initializer list)`, the source sequence,
which lies outside the buffer, given as the list `il` of its elements. -/
def insert_range (s : CircularBufferCommon α) (p : Iterator) (il : List α) :
    Except Exception (Iterator × CircularBufferCommon α) :=
  if p.current_ < s.container_begin_ ∨ p.current_ ≥ s.container_end_ then
    Except.error Exception.out_of_range
  else
    match p.difference s.cbegin with
    | Except.error e => Except.error e
    | Except.ok d =>
      let index := to_size_type d
      if il.length = 0 then Except.ok (s.cbegin.plus (to_int index), s)
      else if index > s.size then Except.error Exception.out_of_range
      else Except.ok (insert_bulk s index il)

end CircularBuffer


/-! ## `lib/circular_buffer_ext.h` -/

namespace CircularBufferExt

variable {α : Type}

/-- `CircularBufferExt::expansion(size_type capacity)`. -/
def expansion (s : CircularBufferCommon α) (capacity : Nat) : CircularBufferCommon α :=
  let s1 := if capacity = 0 then s.reserve 1 else s
  s1.reserve (capacity * 2)

/-- The reference after `expansion(capacity)`: each of its two calls of `reserve`
that allocates releases the slab the reference may name. -/
def expansion_ref (s : CircularBufferCommon α) (capacity : Nat) (value : Ref α) : Ref α :=
  let value1 := if capacity = 0 then value.after_reserve (s.reserve_reallocates 1) else value
  let s1 := if capacity = 0 then s.reserve 1 else s
  value1.after_reserve (s1.reserve_reallocates (capacity * 2))

/-- `CircularBufferExt::push_back(const T& value)` with a value that is an object
outside the buffer. -/
def push_back (s : CircularBufferCommon α) (value : α) : CircularBufferCommon α :=
  let s1 := if s.size = s.capacity then expansion s s.capacity else s
  let s2 := s1.construct s1.data_end_ value
  if s2.container_end_ = s2.data_end_ + 1 then { s2 with data_end_ := s2.container_begin_ }
  else { s2 with data_end_ := s2.data_end_ + 1 }

/-- `CircularBufferExt::push_back(const T& value)`: `value` is read by `construct`,
after `expansion` has run on a full buffer. -/
def push_back_ref (s : CircularBufferCommon α) (value : Ref α) : CircularBufferCommon α :=
  let s1 := if s.size = s.capacity then expansion s s.capacity else s
  let value1 := if s.size = s.capacity then expansion_ref s s.capacity value else value
  let s2 := s1.store_ref s1.data_end_ value1
  if s2.container_end_ = s2.data_end_ + 1 then { s2 with data_end_ := s2.container_begin_ }
  else { s2 with data_end_ := s2.data_end_ + 1 }

/-- `CircularBufferExt::push_front(const T& value)` with a value that is an object
outside the buffer. -/
def push_front (s : CircularBufferCommon α) (value : α) : CircularBufferCommon α :=
  let s1 := if s.size = s.capacity then expansion s s.capacity else s
  let new_data_begin : Int :=
    if s1.container_begin_ = s1.data_begin_ then s1.container_end_ - 1 else s1.data_begin_ - 1
  let s2 := s1.construct new_data_begin value
  { s2 with data_begin_ := new_data_begin }

/-- `CircularBufferExt::push_front(const T& value)`: `value` is read by
`construct`, after `expansion` has run on a full buffer. -/
def push_front_ref (s : CircularBufferCommon α) (value : Ref α) : CircularBufferCommon α :=
  let s1 := if s.size = s.capacity then expansion s s.capacity else s
  let value1 := if s.size = s.capacity then expansion_ref s s.capacity value else value
  let new_data_begin : Int :=
    if s1.container_begin_ = s1.data_begin_ then s1.container_end_ - 1 else s1.data_begin_ - 1
  let s2 := s1.store_ref new_data_begin value1
  { s2 with data_begin_ := new_data_begin }

/-- `CircularBufferExt::insert(const_iterator p, const_reference value)` with a
value that is an object outside the buffer. -/
def insert (s : CircularBufferCommon α) (p : Iterator) (value : α) :
    Except Exception (Iterator × CircularBufferCommon α) :=
  if p.current_ < s.container_begin_ ∨ p.current_ ≥ s.container_end_ then
    Except.error Exception.out_of_range
  else
    match p.difference s.cbegin with
    | Except.error e => Except.error e
    | Except.ok d =>
      let index := to_size_type d
      if index > s.size then Except.error Exception.out_of_range
      else
        let s1 := if s.size = s.capacity then expansion s s.capacity else s
        if index = s1.size then
          let s2 := push_back s1 value
          Except.ok (s2.cend.dec, s2)
        else if index = 0 then
          let s2 := push_front s1 value
          Except.ok (s2.cbegin, s2)
        else Except.ok (s1.insert_middle index value)

/-- `CircularBufferExt::insert(const_iterator p, const_reference value)`: `value`
is read after `expansion` has run on a full buffer, and in the middle of the
live range after the elements have been shifted. -/
def insert_ref (s : CircularBufferCommon α) (p : Iterator) (value : Ref α) :
    Except Exception (Iterator × CircularBufferCommon α) :=
  if p.current_ < s.container_begin_ ∨ p.current_ ≥ s.container_end_ then
    Except.error Exception.out_of_range
  else
    match p.difference s.cbegin with
    | Except.error e => Except.error e
    | Except.ok d =>
      let index := to_size_type d
      if index > s.size then Except.error Exception.out_of_range
      else
        let s1 := if s.size = s.capacity then expansion s s.capacity else s
        let value1 := if s.size = s.capacity then expansion_ref s s.capacity value else value
        if index = s1.size then
          let s2 := push_back_ref s1 value1
          Except.ok (s2.cend.dec, s2)
        else if index = 0 then
          let s2 := push_front_ref s1 value1
          Except.ok (s2.cbegin, s2)
        else Except.ok (s1.insert_middle_ref index value1)

/-- The loop `while (target_capacity < size() + n) target_capacity *= 2;` in
`size_type` arithmetic.  After 64 doublings every value is `0` modulo `2 ^ 64`
and stays so; with `fuel` 64 the result `none` says that the loop never ends. -/
def grow_target (need : Nat) : Nat → Nat → Option Nat
  | 0, target_capacity => if target_capacity < need then none else some target_capacity
  | fuel + 1, target_capacity =>
    if target_capacity < need then grow_target need fuel ((target_capacity * 2) % 2 ^ 64)
    else some target_capacity

/-- The part shared by `CircularBufferExt::insert(p, n, value)` and
`CircularBufferExt::insert(p, i, j)` after the checks: `il` lists the `n`
elements to insert, `n ≥ 1`, objects outside the buffer; `none` when the call
does not return. -/
def insert_bulk (s : CircularBufferCommon α) (index : Nat) (il : List α) :
    Option (Iterator × CircularBufferCommon α) :=
  match grow_target ((s.size + il.length) % 2 ^ 64) 64 s.capacity with
  | none => none
  | some target_capacity =>
    let s1 := s.reserve target_capacity
    if index = s1.size then
      let it := s1.cend
      some (it, il.foldl push_back s1)
    else if index = 0 then
      let s2 := il.foldl push_front s1
      some (s2.cbegin, s2)
    else some (s1.insert_bulk_middle index il)

/-- The part of `CircularBufferExt::insert(p, n, value)` after the checks with the
source elements read through their references, `il` holding `n` times the
reference `value`: each is read after `reserve(target_capacity)`, when its turn
comes; `none` when the call does not return. -/
def insert_bulk_ref (s : CircularBufferCommon α) (index : Nat) (il : List (Ref α)) :
    Option (Iterator × CircularBufferCommon α) :=
  match grow_target ((s.size + il.length) % 2 ^ 64) 64 s.capacity with
  | none => none
  | some target_capacity =>
    let s1 := s.reserve target_capacity
    let il1 := il.map (Ref.after_reserve (s.reserve_reallocates target_capacity))
    if index = s1.size then
      let it := s1.cend
      some (it, il1.foldl push_back_ref s1)
    else if index = 0 then
      let s2 := il1.foldl push_front_ref s1
      some (s2.cbegin, s2)
    else some (s1.insert_bulk_middle_ref index il1)

/-- `CircularBufferExt::insert(const_iterator p, size_type n, const_reference
value)` with a value that is an object outside the buffer; `none` when the call
does not return.  With `n == 0` the source returns `begin() + index`, `index`
converted to `int`. -/
def insert_n (s : CircularBufferCommon α) (p : Iterator) (n : Nat) (value : α) :
    Option (Except Exception (Iterator × CircularBufferCommon α)) :=
  if p.current_ < s.container_begin_ ∨ p.current_ ≥ s.container_end_ then
    some (Except.error Exception.out_of_range)
  else
    match p.difference s.cbegin with
    | Except.error e => some (Except.error e)
    | Except.ok d =>
      let index := to_size_type d
      if n = 0 then some (Except.ok (s.cbegin.plus (to_int index), s))
      else if index > s.size then some (Except.error Exception.out_of_range)
      else (insert_bulk s index (List.replicate n value)).map Except.ok

/-- `CircularBufferExt::insert(const_iterator p, size_type n, const_reference
value)` with the value read through the reference; `none` when the call does
not return. -/
def insert_n_ref (s : CircularBufferCommon α) (p : Iterator) (n : Nat) (value : Ref α) :
    Option (Except Exception (Iterator × CircularBufferCommon α)) :=
  if p.current_ < s.container_begin_ ∨ p.current_ ≥ s.container_end_ then
    some (Except.error Exception.out_of_range)
  else
    match p.difference s.cbegin with
    | Except.error e => some (Except.error e)
    | Except.ok d =>
      let index := to_size_type d
      if n = 0 then some (Except.ok (s.cbegin.plus (to_int index), s))
      else if index > s.size then some (Except.error Exception.out_of_range)
      else (insert_bulk_ref s index (List.replicate n value)).map Except.ok

/-- `CircularBufferExt::insert(const_iterator p, LegacyInputIterator i,
LegacyInputIterator j)` and `insert(p, initializer list)`, the source sequence,
which lies outside the buffer, given as the list `il` of its elements; `none`
when the call does not return. -/
def insert_range (s : CircularBufferCommon α) (p : Iterator) (il : List α) :
    Option (Except Exception (Iterator × CircularBufferCommon α)) :=
  if p.current_ < s.container_begin_ ∨ p.current_ ≥ s.container_end_ then
    some (Except.error Exception.out_of_range)
  else
    match p.difference s.cbegin with
    | Except.error e => some (Except.error e)
    | Except.ok d =>
      let index := to_size_type d
      if il.length = 0 then some (Except.ok (s.cbegin.plus (to_int index), s))
      else if index > s.size then some (Except.error Exception.out_of_range)
      else (insert_bulk s index il).map Except.ok

end CircularBufferExt

/-! ## Calls of the push interface and their meaning on lists -/

/-- One call of the push interface: `push_back(v)` or `push_front(v)`. -/
inductive PushCall (α : Type) where
  | back (v : α)
  | front (v : α)
  deriving DecidableEq, Repr

/-- The list after a call: `push_back` appends its value, `push_front` prepends it. -/
def PushCall.apply {α : Type} (xs : List α) : PushCall α → List α
  | PushCall.back v => xs ++ [v]
  | PushCall.front v => v :: xs

/-- A call applied to a bounded `CircularBuffer`. -/
def CircularBuffer.push {α : Type} (s : CircularBufferCommon α) :
    PushCall α → CircularBufferCommon α
  | PushCall.back v => CircularBuffer.push_back s v
  | PushCall.front v => CircularBuffer.push_front s v

/-- A call applied to a `CircularBufferExt`. -/
def CircularBufferExt.push {α : Type} (s : CircularBufferCommon α) :
    PushCall α → CircularBufferCommon α
  | PushCall.back v => CircularBufferExt.push_back s v
  | PushCall.front v => CircularBufferExt.push_front s v

/-- A call whose argument is an object outside the buffer, as a call with a
reference. -/
def PushCall.by_value {α : Type} : PushCall α → PushCall (Ref α)
  | PushCall.back v => PushCall.back (Ref.value v)
  | PushCall.front v => PushCall.front (Ref.value v)

/-- A call applied to a `CircularBufferExt`, the argument read through its
reference. -/
def CircularBufferExt.push_ref {α : Type} (s : CircularBufferCommon α) :
    PushCall (Ref α) → CircularBufferCommon α
  | PushCall.back v => CircularBufferExt.push_back_ref s v
  | PushCall.front v => CircularBufferExt.push_front_ref s v

/-- The calls of the test `ALTERNATING_PUSH`: even values go to the back, odd
values to the front. -/
def alternating_calls (vs : List Nat) : List (PushCall Nat) :=
  vs.map (fun v => if v % 2 = 0 then PushCall.back v else PushCall.front v)

/-- The state left by `pop_back()` when it returns, the unchanged state when it throws. -/
def after_pop_back {α : Type} (s : CircularBufferCommon α) : CircularBufferCommon α :=
  match s.pop_back with
  | Except.ok r => r.2
  | Except.error _ => s

/-- The state left by `pop_front()` when it returns, the unchanged state when it
throws. -/
def after_pop_front {α : Type} (s : CircularBufferCommon α) : CircularBufferCommon α :=
  match s.pop_front with
  | Except.ok r => r.2
  | Except.error _ => s

/-! ## The representation invariant and basic facts -/

section Facts

variable {α : Type}

/-- The slab offset reached from offset `b` by `i` steps forward in a slab of `L`
slots, `0 ≤ i < L`. -/
def phys (L b i : Int) : Int := if b + i < L then b + i else b + i - L

/-- The representation invariant of the data model: no access has left the
allocation, the allocation has `container_end_ - container_begin_` slots, at
least one and fewer than `2 ^ 63`, and both cursors lie in
`[container_begin_, container_end_)`. -/
def WF (s : CircularBufferCommon α) : Prop :=
  s.ub = false ∧ s.container_end_ = s.slab.length ∧ 1 ≤ s.container_end_ ∧
  s.container_end_ < 2 ^ 63 ∧
  0 ≤ s.data_begin_ ∧ s.data_begin_ < s.container_end_ ∧
  0 ≤ s.data_end_ ∧ s.data_end_ < s.container_end_

instance (s : CircularBufferCommon α) : Decidable (WF s) := by unfold WF; infer_instance

/-- The cursor part of the invariant alone: at least one and fewer than `2 ^ 63`
slots between `container_begin_` and `container_end_`, and both cursors in
`[container_begin_, container_end_)`.  Nothing is said of the allocation. -/
def CursorsOK (s : CircularBufferCommon α) : Prop :=
  1 ≤ s.container_end_ ∧ s.container_end_ < 2 ^ 63 ∧
  0 ≤ s.data_begin_ ∧ s.data_begin_ < s.container_end_ ∧
  0 ≤ s.data_end_ ∧ s.data_end_ < s.container_end_

/-- The buffer `t` has the cursors, the bounds, the allocation length and the
`ub` flag of `s`: only slot contents may differ. -/
def SameFrame (s t : CircularBufferCommon α) : Prop :=
  t.container_end_ = s.container_end_ ∧ t.data_begin_ = s.data_begin_ ∧
  t.data_end_ = s.data_end_ ∧ t.slab.length = s.slab.length ∧ t.ub = s.ub

namespace CircularBufferCommon

theorem size_eq {s : CircularBufferCommon α} (h : WF s) :
    (s.size : Int) = if s.data_begin_ ≤ s.data_end_ then s.data_end_ - s.data_begin_
      else s.container_end_ - s.data_begin_ + s.data_end_ := by
  obtain ⟨-, -, h1, h2, h3, h4, h5, h6⟩ := h
  simp only [size, cend, cbegin, Iterator.distance, to_size_type, container_begin_]
  split_ifs <;> omega

theorem capacity_eq {s : CircularBufferCommon α} (h : WF s) :
    (s.capacity : Int) = s.container_end_ - 1 := by
  obtain ⟨-, -, h1, h2, h3, h4, h5, h6⟩ := h
  simp only [capacity, to_size_type, container_begin_]
  omega

theorem plus_current (it : Iterator) (n : Int) (hb : it.container_begin_ = 0)
    (hc1 : it.current_ < it.container_end_)
    (hn0 : 0 ≤ n) (hn1 : n < it.container_end_) :
    (it.plus n).current_ = phys it.container_end_ it.current_ n := by
  unfold Iterator.plus Iterator.plus_body phys
  by_cases h1 : it.container_begin_ + 1 = it.container_end_
  · rw [if_pos h1]; split_ifs <;> omega
  · rw [if_neg h1]
    by_cases h2 : n = 0
    · rw [if_pos h2]; split_ifs <;> omega
    · rw [if_neg h2, if_neg (by omega)]
      by_cases h3 : n < it.container_end_ - it.current_
      · simp only [h3, if_true]; split_ifs <;> omega
      · simp only [h3, if_false]
        rw [hb, Int.tmod_eq_of_lt (by omega) (by omega)]
        split_ifs <;> omega

theorem index_eq {s : CircularBufferCommon α} (h : WF s) (i : Nat) (hi : (i : Int) < s.container_end_) :
    s.index i = s.deref (phys s.container_end_ s.data_begin_ i) := by
  obtain ⟨-, -, h1, h2, h3, h4, h5, h6⟩ := h
  unfold index
  rw [plus_current s.cbegin i rfl h4 (by omega) hi]
  rfl


@[simp] theorem store_container_end (s : CircularBufferCommon α) (p : Int) (x : Option α) :
    (s.store p x).container_end_ = s.container_end_ := rfl

@[simp] theorem store_data_begin (s : CircularBufferCommon α) (p : Int) (x : Option α) :
    (s.store p x).data_begin_ = s.data_begin_ := rfl

@[simp] theorem store_data_end (s : CircularBufferCommon α) (p : Int) (x : Option α) :
    (s.store p x).data_end_ = s.data_end_ := rfl

@[simp] theorem store_length (s : CircularBufferCommon α) (p : Int) (x : Option α) :
    (s.store p x).slab.length = s.slab.length := by
  unfold store; dsimp only; split_ifs <;> simp

theorem store_ub (s : CircularBufferCommon α) (p : Int) (x : Option α)
    (h0 : 0 ≤ p) (h1 : p < s.slab.length) : (s.store p x).ub = s.ub := by
  have h : 0 ≤ p ∧ p < (s.slab.length : Int) := ⟨h0, h1⟩
  unfold store; dsimp only; rw [if_pos h]

theorem deref_store (s : CircularBufferCommon α) (p q : Int) (x : Option α)
    (h0 : 0 ≤ p) (h1 : p < s.slab.length) :
    (s.store p x).deref q = if q = p then x else s.deref q := by
  have h : 0 ≤ p ∧ p < (s.slab.length : Int) := ⟨h0, h1⟩
  unfold store deref
  dsimp only
  rw [if_pos h]
  by_cases hq : 0 ≤ q
  · simp only [hq, if_true, List.getElem?_set]
    by_cases hpq : q = p
    · subst hpq
      have : q.toNat < s.slab.length := by omega
      simp [this]
    · have : p.toNat ≠ q.toNat := by omega
      simp [this, hpq]
  · have hpq : q ≠ p := by omega
    simp only [hq, if_false, hpq]

theorem contents_eq_iff (s : CircularBufferCommon α) (xs : List α) :
    s.contents = xs.map some ↔
      s.size = xs.length ∧ ∀ i : Nat, i < xs.length → s.index i = xs[i]? := by
  constructor
  · intro h
    have hl : s.size = xs.length := by
      have := congrArg List.length h
      simpa [contents] using this
    refine ⟨hl, fun i hi => ?_⟩
    have := congrArg (fun l => l[i]?) h
    simp only [contents, List.getElem?_map, List.getElem?_range (hl ▸ hi), Option.map_some'] at this
    rw [List.getElem?_eq_getElem hi] at this ⊢
    simpa using this
  · rintro ⟨hl, h⟩
    apply List.ext_getElem?
    intro n
    by_cases hn : n < xs.length
    · simp only [contents, List.getElem?_map, List.getElem?_range (hl ▸ hn), Option.map_some', h n hn]
      rw [List.getElem?_eq_getElem hn]; rfl
    · have h1 : (List.range s.size)[n]? = none := by
        apply List.getElem?_eq_none; simp; omega
      have h2 : xs[n]? = none := List.getElem?_eq_none (by omega)
      simp [contents, h1, h2]

end CircularBufferCommon

open CircularBufferCommon

theorem phys_bounds (L b i : Int) (hb0 : 0 ≤ b) (hb1 : b < L) (hi0 : 0 ≤ i) (hi1 : i < L) :
    0 ≤ phys L b i ∧ phys L b i < L := by
  unfold phys; split_ifs <;> omega

theorem phys_eq_end {s : CircularBufferCommon α} (h : WF s) (i : Nat) (hi : i ≤ s.size) :
    phys s.container_end_ s.data_begin_ i = s.data_end_ ↔ i = s.size := by
  have hs := size_eq h
  obtain ⟨-, -, h1, h2, h3, h4, h5, h6⟩ := h
  unfold phys
  split_ifs at hs ⊢ <;> omega

theorem deref_congr {s t : CircularBufferCommon α} (h : s.slab = t.slab) (q : Int) :
    s.deref q = t.deref q := by
  unfold deref; rw [h]

theorem size_lt {s : CircularBufferCommon α} (h : WF s) : (s.size : Int) < s.container_end_ := by
  have hs := size_eq h
  obtain ⟨-, -, h1, h2, h3, h4, h5, h6⟩ := h
  split_ifs at hs <;> omega

theorem index_of {s t : CircularBufferCommon α} (h : WF s) {L b : Int}
    (hL : s.container_end_ = L) (hb : s.data_begin_ = b) (hslab : s.slab = t.slab)
    (i : Nat) (hi : (i : Int) < L) : s.index i = t.deref (phys L b i) := by
  rw [index_eq h i (by rw [hL]; exact hi), deref_congr hslab, hL, hb]

/-- Pushing to the back of a bounded buffer that is not full. -/
theorem CircularBuffer.push_back_not_full {s : CircularBufferCommon α} (v : α) (xs : List α)
    (h : WF s) (hc : s.contents = xs.map some) (hnf : s.size < s.capacity) :
    WF (CircularBuffer.push_back s v) ∧
      (CircularBuffer.push_back s v).contents = (xs ++ [v]).map some ∧
      (CircularBuffer.push_back s v).container_end_ = s.container_end_ := by
  have hs := size_eq h
  have hcap := capacity_eq h
  have hslt := size_lt h
  have hwf := h
  obtain ⟨hub, hlen, h1, h2, h3, h4, h5, h6⟩ := h
  rw [contents_eq_iff] at hc
  obtain ⟨hsz, hidx⟩ := hc
  have hcap0 : s.capacity ≠ 0 := by omega
  have hnext : (if s.data_end_ + 1 = s.container_end_ then (0 : Int) else s.data_end_ + 1)
      ≠ s.data_begin_ := by
    split_ifs at hs ⊢ <;> omega
  have hpb : CircularBuffer.push_back s v =
      ⟨(s.store s.data_end_ (some v)).slab, s.container_end_, s.data_begin_,
        (if s.data_end_ + 1 = s.container_end_ then 0 else s.data_end_ + 1),
        (s.store s.data_end_ (some v)).ub⟩ := by
    simp only [CircularBuffer.push_back, if_neg hcap0, construct, store_data_end,
      store_container_end, store_data_begin, container_begin_, if_neg hnext]
    split_ifs <;> rfl
  have hwf' : WF (CircularBuffer.push_back s v) := by
    rw [hpb]
    refine ⟨?_, ?_, ?_, ?_, ?_, ?_, ?_, ?_⟩ <;> dsimp only <;>
      first
        | assumption
        | (rw [store_ub _ _ _ h5 (by omega)]; exact hub)
        | (rw [store_length]; exact hlen)
        | (split_ifs <;> omega)
  have e1 : (CircularBuffer.push_back s v).container_end_ = s.container_end_ := by rw [hpb]
  have e2 : (CircularBuffer.push_back s v).data_begin_ = s.data_begin_ := by rw [hpb]
  have e3 : (CircularBuffer.push_back s v).data_end_ =
      if s.data_end_ + 1 = s.container_end_ then 0 else s.data_end_ + 1 := by rw [hpb]
  have e4 : (CircularBuffer.push_back s v).slab = (s.store s.data_end_ (some v)).slab := by
    rw [hpb]
  refine ⟨hwf', ?_, e1⟩
  have hs' := size_eq hwf'
  rw [e1, e2, e3] at hs'
  rw [contents_eq_iff]
  have hsize' : (CircularBuffer.push_back s v).size = xs.length + 1 := by
    split_ifs at hs hs' <;> omega
  refine ⟨by simpa using hsize', fun i hi => ?_⟩
  have hi' : i ≤ s.size := by simp at hi; omega
  rw [index_eq hwf' i (by rw [e1]; omega), deref_congr e4, e1, e2,
    deref_store _ _ _ _ h5 (by omega)]
  by_cases hie : i = s.size
  · rw [if_pos ((phys_eq_end hwf i hi').2 hie)]
    subst hie
    simp [hsz]
  · rw [if_neg (fun hh => hie ((phys_eq_end hwf i hi').1 hh))]
    have hlt : i < xs.length := by omega
    rw [← index_eq hwf i (by omega), hidx i hlt]
    simp [List.getElem?_append_left, hlt]

/-- Pushing to the back of a full bounded buffer evicts the front element. -/
theorem CircularBuffer.push_back_full {s : CircularBufferCommon α} (v x : α) (xs : List α)
    (h : WF s) (hc : s.contents = (x :: xs).map some) (hfull : s.size = s.capacity) :
    WF (CircularBuffer.push_back s v) ∧
      (CircularBuffer.push_back s v).contents = (xs ++ [v]).map some ∧
      (CircularBuffer.push_back s v).container_end_ = s.container_end_ := by
  have hs := size_eq h
  have hcap := capacity_eq h
  have hwf := h
  obtain ⟨hub, hlen, h1, h2, h3, h4, h5, h6⟩ := h
  rw [contents_eq_iff] at hc
  obtain ⟨hsz, hidx⟩ := hc
  simp only [List.length_cons] at hsz hidx
  have hcap0 : s.capacity ≠ 0 := by omega
  have hnext : (if s.data_end_ + 1 = s.container_end_ then (0 : Int) else s.data_end_ + 1)
      = s.data_begin_ := by
    split_ifs at hs ⊢ <;> omega
  have hpb : CircularBuffer.push_back s v =
      ⟨((s.store s.data_end_ (some v)).store s.data_begin_ none).slab, s.container_end_,
        (if s.data_begin_ + 1 = s.container_end_ then 0 else s.data_begin_ + 1),
        (if s.data_end_ + 1 = s.container_end_ then 0 else s.data_end_ + 1),
        ((s.store s.data_end_ (some v)).store s.data_begin_ none).ub⟩ := by
    simp only [CircularBuffer.push_back, if_neg hcap0, construct, destroy, store_data_end,
      store_container_end, store_data_begin, container_begin_, if_pos hnext]
    split_ifs <;> rfl
  have hwf' : WF (CircularBuffer.push_back s v) := by
    rw [hpb]
    refine ⟨?_, ?_, ?_, ?_, ?_, ?_, ?_, ?_⟩ <;> dsimp only <;>
      first
        | assumption
        | (rw [store_ub _ _ _ h3 (by rw [store_length]; omega),
            store_ub _ _ _ h5 (by omega)]; exact hub)
        | (rw [store_length, store_length]; exact hlen)
        | (split_ifs <;> omega)
  have e1 : (CircularBuffer.push_back s v).container_end_ = s.container_end_ := by rw [hpb]
  have e2 : (CircularBuffer.push_back s v).data_begin_ =
      if s.data_begin_ + 1 = s.container_end_ then 0 else s.data_begin_ + 1 := by rw [hpb]
  have e3 : (CircularBuffer.push_back s v).data_end_ =
      if s.data_end_ + 1 = s.container_end_ then 0 else s.data_end_ + 1 := by rw [hpb]
  have e4 : (CircularBuffer.push_back s v).slab =
      ((s.store s.data_end_ (some v)).store s.data_begin_ none).slab := by rw [hpb]
  refine ⟨hwf', ?_, e1⟩
  have hs' := size_eq hwf'
  rw [e1, e2, e3] at hs'
  rw [contents_eq_iff]
  have hsize' : (CircularBuffer.push_back s v).size = xs.length + 1 := by
    split_ifs at hs hs' <;> omega
  refine ⟨by simpa using hsize', fun i hi => ?_⟩
  have hi' : i < xs.length + 1 := by simpa using hi
  rw [index_of hwf' e1 e2 e4 i (by omega),
    deref_store _ _ _ _ h3 (by rw [store_length]; omega), deref_store _ _ _ _ h5 (by omega)]
  have hq : phys s.container_end_
      (if s.data_begin_ + 1 = s.container_end_ then 0 else s.data_begin_ + 1) i =
      phys s.container_end_ s.data_begin_ ((i + 1 : Nat) : Int) := by
    unfold phys; push_cast; split_ifs <;> omega
  rw [hq]
  have hne : phys s.container_end_ s.data_begin_ ((i + 1 : Nat) : Int) ≠ s.data_begin_ := by
    unfold phys; push_cast; split_ifs <;> omega
  rw [if_neg hne]
  by_cases hie : i + 1 = s.size
  · rw [if_pos ((phys_eq_end hwf (i + 1) (by omega)).2 hie)]
    have : i = xs.length := by omega
    subst this
    simp
  · rw [if_neg (fun hh => hie ((phys_eq_end hwf (i + 1) (by omega)).1 hh))]
    have hlt : i < xs.length := by omega
    rw [← index_eq hwf (i + 1) (by push_cast; omega), hidx (i + 1) (by omega)]
    simp [List.getElem?_append_left, hlt]

/-- Pushing to the front of a bounded buffer that is not full. -/
theorem CircularBuffer.push_front_not_full {s : CircularBufferCommon α} (v : α) (xs : List α)
    (h : WF s) (hc : s.contents = xs.map some) (hnf : s.size < s.capacity) :
    WF (CircularBuffer.push_front s v) ∧
      (CircularBuffer.push_front s v).contents = (v :: xs).map some ∧
      (CircularBuffer.push_front s v).container_end_ = s.container_end_ := by
  have hs := size_eq h
  have hcap := capacity_eq h
  have hwf := h
  obtain ⟨hub, hlen, h1, h2, h3, h4, h5, h6⟩ := h
  rw [contents_eq_iff] at hc
  obtain ⟨hsz, hidx⟩ := hc
  have hcap0 : s.capacity ≠ 0 := by omega
  generalize hnb : (if (0 : Int) = s.data_begin_ then s.container_end_ - 1 else s.data_begin_ - 1)
    = nb
  have hnb0 : 0 ≤ nb := by rw [← hnb]; split_ifs <;> omega
  have hnb1 : nb < s.container_end_ := by rw [← hnb]; split_ifs <;> omega
  have hne : nb ≠ s.data_end_ := by
    rw [← hnb]; split_ifs at hs ⊢ <;> omega
  have hpb : CircularBuffer.push_front s v =
      ⟨(s.store nb (some v)).slab, s.container_end_, nb, s.data_end_,
        (s.store nb (some v)).ub⟩ := by
    simp only [CircularBuffer.push_front, if_neg hcap0, construct, destroy, store_data_end,
      store_container_end, store_data_begin, container_begin_, hnb, if_neg hne]
  have hwf' : WF (CircularBuffer.push_front s v) := by
    rw [hpb]
    refine ⟨?_, ?_, ?_, ?_, ?_, ?_, ?_, ?_⟩ <;> dsimp only <;>
      first
        | assumption
        | (rw [store_ub _ _ _ hnb0 (by omega)]; exact hub)
        | (rw [store_length]; exact hlen)
  have e1 : (CircularBuffer.push_front s v).container_end_ = s.container_end_ := by rw [hpb]
  have e2 : (CircularBuffer.push_front s v).data_begin_ = nb := by rw [hpb]
  have e3 : (CircularBuffer.push_front s v).data_end_ = s.data_end_ := by rw [hpb]
  have e4 : (CircularBuffer.push_front s v).slab = (s.store nb (some v)).slab := by rw [hpb]
  refine ⟨hwf', ?_, e1⟩
  have hs' := size_eq hwf'
  rw [e1, e2, e3] at hs'
  rw [contents_eq_iff]
  have hsize' : (CircularBuffer.push_front s v).size = xs.length + 1 := by
    rw [← hnb] at hs'
    split_ifs at hs hs' <;> omega
  refine ⟨by simpa using hsize', fun i hi => ?_⟩
  have hi' : i < xs.length + 1 := by simpa using hi
  rw [index_of hwf' e1 e2 e4 i (by omega), deref_store _ _ _ _ hnb0 (by omega)]
  rcases Nat.eq_zero_or_pos i with h0 | hpos
  · subst h0
    have : phys s.container_end_ nb ((0 : Nat) : Int) = nb := by
      unfold phys; push_cast; split_ifs <;> omega
    rw [if_pos this]; simp
  · obtain ⟨j, rfl⟩ : ∃ j, i = j + 1 := ⟨i - 1, by omega⟩
    have hq : phys s.container_end_ nb ((j + 1 : Nat) : Int) =
        phys s.container_end_ s.data_begin_ (j : Int) := by
      rw [← hnb]; unfold phys; push_cast; split_ifs <;> omega
    have hq2 : phys s.container_end_ s.data_begin_ (j : Int) ≠ nb := by
      rw [← hnb]; unfold phys; split_ifs at hs ⊢ <;> omega
    rw [hq, if_neg hq2, ← index_eq hwf j (by omega), hidx j (by omega)]
    simp

/-- Pushing to the front of a full bounded buffer evicts the back element. -/
theorem CircularBuffer.push_front_full {s : CircularBufferCommon α} (v x : α) (xs : List α)
    (h : WF s) (hc : s.contents = (xs ++ [x]).map some) (hfull : s.size = s.capacity) :
    WF (CircularBuffer.push_front s v) ∧
      (CircularBuffer.push_front s v).contents = (v :: xs).map some ∧
      (CircularBuffer.push_front s v).container_end_ = s.container_end_ := by
  have hs := size_eq h
  have hcap := capacity_eq h
  have hwf := h
  obtain ⟨hub, hlen, h1, h2, h3, h4, h5, h6⟩ := h
  rw [contents_eq_iff] at hc
  obtain ⟨hsz, hidx⟩ := hc
  simp only [List.length_append, List.length_singleton] at hsz hidx
  have hcap0 : s.capacity ≠ 0 := by omega
  have hnb : (if (0 : Int) = s.data_begin_ then s.container_end_ - 1 else s.data_begin_ - 1)
      = s.data_end_ := by
    split_ifs at hs ⊢ <;> omega
  generalize hne : (if (0 : Int) = s.data_end_ then s.container_end_ - 1 else s.data_end_ - 1)
    = ne
  have hne0 : 0 ≤ ne := by rw [← hne]; split_ifs <;> omega
  have hne1 : ne < s.container_end_ := by rw [← hne]; split_ifs <;> omega
  have hpb : CircularBuffer.push_front s v =
      ⟨((s.store s.data_end_ (some v)).store ne none).slab, s.container_end_, s.data_end_, ne,
        ((s.store s.data_end_ (some v)).store ne none).ub⟩ := by
    simp only [CircularBuffer.push_front, if_neg hcap0, construct, destroy, store_data_end,
      store_container_end, store_data_begin, container_begin_, hnb, if_true]
    rw [← hne]
    split_ifs <;> rfl
  have hwf' : WF (CircularBuffer.push_front s v) := by
    rw [hpb]
    refine ⟨?_, ?_, ?_, ?_, ?_, ?_, ?_, ?_⟩ <;> dsimp only <;>
      first
        | assumption
        | (rw [store_ub _ _ _ hne0 (by rw [store_length]; omega),
            store_ub _ _ _ h5 (by omega)]; exact hub)
        | (rw [store_length, store_length]; exact hlen)
  have e1 : (CircularBuffer.push_front s v).container_end_ = s.container_end_ := by rw [hpb]
  have e2 : (CircularBuffer.push_front s v).data_begin_ = s.data_end_ := by rw [hpb]
  have e3 : (CircularBuffer.push_front s v).data_end_ = ne := by rw [hpb]
  have e4 : (CircularBuffer.push_front s v).slab =
      ((s.store s.data_end_ (some v)).store ne none).slab := by rw [hpb]
  refine ⟨hwf', ?_, e1⟩
  have hs' := size_eq hwf'
  rw [e1, e2, e3] at hs'
  rw [contents_eq_iff]
  have hsize' : (CircularBuffer.push_front s v).size = xs.length + 1 := by
    rw [← hne] at hs'
    split_ifs at hs hs' <;> omega
  refine ⟨by simpa using hsize', fun i hi => ?_⟩
  have hi' : i < xs.length + 1 := by simpa using hi
  rw [index_of hwf' e1 e2 e4 i (by omega),
    deref_store _ _ _ _ hne0 (by rw [store_length]; omega), deref_store _ _ _ _ h5 (by omega)]
  rcases Nat.eq_zero_or_pos i with h0 | hpos
  · subst h0
    have h1 : phys s.container_end_ s.data_end_ ((0 : Nat) : Int) = s.data_end_ := by
      unfold phys; push_cast; split_ifs <;> omega
    have h2 : s.data_end_ ≠ ne := by rw [← hne]; split_ifs <;> omega
    rw [h1, if_neg h2, if_pos rfl]; simp
  · obtain ⟨j, rfl⟩ : ∃ j, i = j + 1 := ⟨i - 1, by omega⟩
    have hq : phys s.container_end_ s.data_end_ ((j + 1 : Nat) : Int) =
        phys s.container_end_ s.data_begin_ (j : Int) := by
      unfold phys; push_cast; split_ifs at hs ⊢ <;> omega
    have hq2 : phys s.container_end_ s.data_begin_ (j : Int) ≠ ne := by
      rw [← hne]; unfold phys; split_ifs at hs ⊢ <;> omega
    have hq3 : phys s.container_end_ s.data_begin_ (j : Int) ≠ s.data_end_ := by
      unfold phys; split_ifs at hs ⊢ <;> omega
    rw [hq, if_neg hq2, if_neg hq3, ← index_eq hwf j (by omega), hidx j (by omega)]
    simp [List.getElem?_append_left, (by omega : j < xs.length)]


theorem capacity_congr {s t : CircularBufferCommon α} (h : s.container_end_ = t.container_end_) :
    s.capacity = t.capacity := by
  unfold capacity container_begin_; rw [h]

theorem contents_of_size_zero {s : CircularBufferCommon α} (h : s.size = 0) :
    s.contents = ([] : List α).map some := by
  simp [contents, h]

theorem size_of_contents {s : CircularBufferCommon α} {xs : List α}
    (h : s.contents = xs.map some) : s.size = xs.length :=
  ((contents_eq_iff s xs).1 h).1

/-- A run of pushes that never exceeds the capacity of a bounded buffer. -/
theorem CircularBuffer.push_run (calls : List (PushCall α)) :
    ∀ (s : CircularBufferCommon α) (xs : List α), WF s → s.contents = xs.map some →
      xs.length + calls.length ≤ s.capacity →
      WF (calls.foldl CircularBuffer.push s) ∧
        (calls.foldl CircularBuffer.push s).contents = (calls.foldl PushCall.apply xs).map some ∧
        (calls.foldl CircularBuffer.push s).container_end_ = s.container_end_ := by
  induction calls with
  | nil => intro s xs h hc _; exact ⟨h, hc, rfl⟩
  | cons c cs ih =>
    intro s xs h hc hn
    simp only [List.length_cons] at hn
    have hsz := size_of_contents hc
    simp only [List.foldl_cons]
    cases c with
    | back v =>
      obtain ⟨h1, h2, h3⟩ := CircularBuffer.push_back_not_full v xs h hc (by omega)
      have := ih (CircularBuffer.push_back s v) (xs ++ [v]) h1 h2
        (by rw [capacity_congr h3]; simp; omega)
      exact ⟨this.1, this.2.1, this.2.2.trans h3⟩
    | front v =>
      obtain ⟨h1, h2, h3⟩ := CircularBuffer.push_front_not_full v xs h hc (by omega)
      have := ih (CircularBuffer.push_front s v) (v :: xs) h1 h2
        (by rw [capacity_congr h3]; simp; omega)
      exact ⟨this.1, this.2.1, this.2.2.trans h3⟩

theorem at_eq_index {s : CircularBufferCommon α} (h : WF s) (i : Nat) (hi : i < s.size) :
    s.at_ i = Except.ok (s.index i) := by
  have hlt := size_lt h
  obtain ⟨-, -, h1, h2, -⟩ := h
  have : to_size_type (i : Int) = i := by unfold to_size_type; omega
  unfold at_
  rw [this, if_neg (by omega)]
  rfl

theorem empty_eq_false {s : CircularBufferCommon α} (h : s.size ≠ 0) : s.empty = false := by
  unfold empty; simpa using h

/-- `pop_front()` on a non-empty well-formed buffer. -/
theorem pop_front_spec {s : CircularBufferCommon α} (x : α) (xs : List α)
    (h : WF s) (hc : s.contents = (x :: xs).map some) :
    ∃ s', s.pop_front = Except.ok (some x, s') ∧ WF s' ∧ s'.contents = xs.map some ∧
      s'.container_end_ = s.container_end_ := by
  have hs := size_eq h
  have hwf := h
  obtain ⟨hub, hlen, h1, h2, h3, h4, h5, h6⟩ := h
  rw [contents_eq_iff] at hc
  obtain ⟨hsz, hidx⟩ := hc
  simp only [List.length_cons] at hsz hidx
  have hx : s.deref s.data_begin_ = some x := by
    have := hidx 0 (by omega)
    rw [index_eq hwf 0 (by omega)] at this
    have hp : phys s.container_end_ s.data_begin_ ((0 : Nat) : Int) = s.data_begin_ := by
      unfold phys; push_cast; split_ifs <;> omega
    rw [hp] at this
    simpa using this
  refine ⟨⟨(s.store s.data_begin_ none).slab, s.container_end_,
      (if s.data_begin_ + 1 = s.container_end_ then 0 else s.data_begin_ + 1), s.data_end_,
      (s.store s.data_begin_ none).ub⟩, ?_, ?_⟩
  · simp only [pop_front, empty_eq_false (by omega : s.size ≠ 0), destroy, hx,
      store_data_begin, store_container_end, container_begin_, Bool.false_eq_true, if_false]
    by_cases hb : s.data_begin_ + 1 = s.container_end_
    · simp only [hb, if_true]; rfl
    · simp only [hb, if_false]; rfl
  generalize hs'def : (⟨(s.store s.data_begin_ none).slab, s.container_end_,
      (if s.data_begin_ + 1 = s.container_end_ then 0 else s.data_begin_ + 1), s.data_end_,
      (s.store s.data_begin_ none).ub⟩ : CircularBufferCommon α) = s'
  have e1 : s'.container_end_ = s.container_end_ := by rw [← hs'def]
  have e2 : s'.data_begin_ =
      if s.data_begin_ + 1 = s.container_end_ then 0 else s.data_begin_ + 1 := by rw [← hs'def]
  have e3 : s'.data_end_ = s.data_end_ := by rw [← hs'def]
  have e4 : s'.slab = (s.store s.data_begin_ none).slab := by rw [← hs'def]
  have e5 : s'.ub = (s.store s.data_begin_ none).ub := by rw [← hs'def]
  have hwf' : WF s' := by
    refine ⟨?_, ?_, ?_, ?_, ?_, ?_, ?_, ?_⟩
    · rw [e5, store_ub _ _ _ h3 (by omega)]; exact hub
    · rw [e1, e4, store_length]; exact hlen
    · rw [e1]; exact h1
    · rw [e1]; exact h2
    · rw [e2]; split_ifs <;> omega
    · rw [e1, e2]; split_ifs <;> omega
    · rw [e3]; exact h5
    · rw [e1, e3]; exact h6
  refine ⟨hwf', ?_, e1⟩
  have hs' := size_eq hwf'
  rw [e1, e2, e3] at hs'
  rw [contents_eq_iff]
  have hsize' : s'.size = xs.length := by
    split_ifs at hs hs' <;> omega
  refine ⟨hsize', fun i hi => ?_⟩
  rw [index_of hwf' e1 e2 e4 i (by split_ifs at hs <;> omega),
    deref_store _ _ _ _ h3 (by omega)]
  have hq : phys s.container_end_
      (if s.data_begin_ + 1 = s.container_end_ then 0 else s.data_begin_ + 1) i =
      phys s.container_end_ s.data_begin_ ((i + 1 : Nat) : Int) := by
    unfold phys; push_cast; split_ifs at hs ⊢ <;> omega
  have hne : phys s.container_end_ s.data_begin_ ((i + 1 : Nat) : Int) ≠ s.data_begin_ := by
    unfold phys; push_cast; split_ifs at hs ⊢ <;> omega
  rw [hq, if_neg hne, ← index_eq hwf (i + 1) (by push_cast; split_ifs at hs <;> omega),
    hidx (i + 1) (by omega)]
  simp

theorem inc_fields (it : Iterator) :
    it.inc.container_begin_ = it.container_begin_ ∧ it.inc.container_end_ = it.container_end_ ∧
      it.inc.data_begin_ = it.data_begin_ ∧ it.inc.data_end_ = it.data_end_ := by
  unfold Iterator.inc; split_ifs <;> exact ⟨rfl, rfl, rfl, rfl⟩

theorem inc_current (it : Iterator) (hb : it.container_begin_ = 0)
    (hc0 : 0 ≤ it.current_) (hc1 : it.current_ < it.container_end_) :
    it.inc.current_ = phys it.container_end_ it.current_ 1 := by
  unfold Iterator.inc phys
  split_ifs <;> (try dsimp only) <;> (try omega)

/-- The traversal of `move_data` from a slot inside the slab to `last`. -/
theorem move_data_spec (s : CircularBufferCommon α) (last : Iterator) (L : Int)
    (hl0 : 0 ≤ last.current_) (hl1 : last.current_ < L) (hlen : L = s.slab.length) :
    ∀ (d room : Nat) (it : Iterator), it.container_begin_ = 0 → it.container_end_ = L →
      0 ≤ it.current_ → it.current_ < L →
      (d : Int) = (if it.current_ ≤ last.current_ then last.current_ - it.current_
        else L - it.current_ + last.current_) →
      d ≤ room →
      move_data s last room it =
        some ((List.range d).map (fun k : Nat => s.deref (phys L it.current_ k))) := by
  intro d
  induction d with
  | zero =>
    intro room it _ _ h0 h1 hd _
    have heq : it.current_ = last.current_ := by split_ifs at hd <;> omega
    cases room <;> simp [move_data, heq]
  | succ d ih =>
    intro room it hb he h0 h1 hd hroom
    have hne : it.current_ ≠ last.current_ := by split_ifs at hd <;> omega
    obtain ⟨room', rfl⟩ : ∃ r, room = r + 1 := ⟨room - 1, by omega⟩
    have hin : 0 ≤ it.current_ ∧ it.current_ < (s.slab.length : Int) := ⟨h0, by omega⟩
    obtain ⟨f1, f2, -, -⟩ := inc_fields it
    have hcur := inc_current it hb h0 (by omega)
    rw [he] at hcur f2
    have hpb := phys_bounds L it.current_ 1 h0 h1 (by omega) (by omega)
    have hd' : (d : Int) = (if it.inc.current_ ≤ last.current_ then last.current_ - it.inc.current_
        else L - it.inc.current_ + last.current_) := by
      rw [hcur]; unfold phys; push_cast at hd; split_ifs at hd ⊢ <;> omega
    have := ih room' it.inc (f1.trans hb) f2 (by rw [hcur]; exact hpb.1)
      (by rw [hcur]; exact hpb.2) hd' (by omega)
    simp only [move_data, if_neg hne, if_pos hin, this, Option.map_some']
    rw [List.range_succ_eq_map, List.map_cons, List.map_map]
    congr 2
    · have : phys L it.current_ ((0 : Nat) : Int) = it.current_ := by
        unfold phys; push_cast; split_ifs <;> omega
      rw [this]
    · apply List.map_congr_left
      intro k hk
      have hk' : k < d := List.mem_range.1 hk
      simp only [Function.comp, Nat.succ_eq_add_one]
      congr 1
      rw [hcur]
      unfold phys; push_cast; push_cast at hd; split_ifs at hd ⊢ <;> omega

/-- The loop of `clear()` started inside the slab ends and stays inside the allocation. -/
theorem destroy_range_spec (last : Iterator) (L : Int) (hl0 : 0 ≤ last.current_)
    (hl1 : last.current_ < L) :
    ∀ (d fuel : Nat) (it : Iterator) (s : CircularBufferCommon α), it.container_begin_ = 0 →
      it.container_end_ = L → 0 ≤ it.current_ → it.current_ < L → L = s.slab.length →
      (d : Int) = (if it.current_ ≤ last.current_ then last.current_ - it.current_
        else L - it.current_ + last.current_) →
      d ≤ fuel →
      (destroy_range last fuel it s).ub = s.ub ∧
        (destroy_range last fuel it s).slab.length = s.slab.length ∧
        (destroy_range last fuel it s).container_end_ = s.container_end_ ∧
        (destroy_range last fuel it s).data_begin_ = s.data_begin_ ∧
        (destroy_range last fuel it s).data_end_ = s.data_end_ := by
  intro d
  induction d with
  | zero =>
    intro fuel it s _ _ h0 h1 _ hd _
    have heq : it.current_ = last.current_ := by split_ifs at hd <;> omega
    cases fuel <;> simp [destroy_range, heq]
  | succ d ih =>
    intro fuel it s hb he h0 h1 hlen hd hfuel
    have hne : it.current_ ≠ last.current_ := by split_ifs at hd <;> omega
    obtain ⟨fuel', rfl⟩ : ∃ r, fuel = r + 1 := ⟨fuel - 1, by omega⟩
    obtain ⟨f1, f2, -, -⟩ := inc_fields it
    have hcur := inc_current it hb h0 (by omega)
    rw [he] at hcur f2
    have hpb := phys_bounds L it.current_ 1 h0 h1 (by omega) (by omega)
    have hd' : (d : Int) = (if it.inc.current_ ≤ last.current_ then last.current_ - it.inc.current_
        else L - it.inc.current_ + last.current_) := by
      rw [hcur]; unfold phys; push_cast at hd; split_ifs at hd ⊢ <;> omega
    have := ih fuel' it.inc (s.destroy it.current_) (f1.trans hb) f2 (by rw [hcur]; exact hpb.1)
      (by rw [hcur]; exact hpb.2) (by unfold destroy; rw [store_length]; exact hlen) hd' (by omega)
    simp only [destroy_range, if_neg hne]
    obtain ⟨t1, t2, t3, t4, t5⟩ := this
    refine ⟨?_, ?_, t3, t4, t5⟩
    · rw [t1]; unfold destroy; exact store_ub _ _ _ h0 (by omega)
    · rw [t2]; unfold destroy; exact store_length _ _ _

/-- A buffer whose live range starts at the first slot reads the front of its slab. -/
theorem contents_front {t : CircularBufferCommon α} (h : WF t) (ys pad : List (Option α))
    (hb : t.data_begin_ = 0) (he : t.data_end_ = ys.length) (hslab : t.slab = ys ++ pad) :
    t.contents = ys := by
  have hs := size_eq h
  have hlt := size_lt h
  have hwf := h
  obtain ⟨-, hlen, h1, h2, h3, h4, h5, h6⟩ := h
  rw [hb, he] at hs
  have hsz : t.size = ys.length := by split_ifs at hs <;> omega
  apply List.ext_getElem?
  intro i
  by_cases hi : i < ys.length
  · have hidx : t.index i = ys[i] := by
      rw [index_eq hwf i (by omega), hb]
      have hp : phys t.container_end_ 0 (i : Int) = i := by
        unfold phys; split_ifs <;> omega
      rw [hp]
      unfold deref
      rw [if_pos (by omega), hslab]
      simp [List.getElem?_append_left, hi]
    simp only [contents, List.getElem?_map, List.getElem?_range (hsz ▸ hi), Option.map_some',
      hidx, List.getElem?_eq_getElem hi]
  · have h1 : (List.range t.size)[i]? = none := by
      apply List.getElem?_eq_none; simp; omega
    have h2 : ys[i]? = none := List.getElem?_eq_none (by omega)
    simp [contents, h1, h2]

theorem contents_length (s : CircularBufferCommon α) : s.contents.length = s.size := by
  simp [contents]

theorem move_data_all {s : CircularBufferCommon α} (h : WF s) (room : Nat)
    (hroom : s.size ≤ room) : move_data s s.cend room s.cbegin = some s.contents := by
  have hs := size_eq h
  have hlt := size_lt h
  have hwf := h
  obtain ⟨-, hlen, h1, h2, h3, h4, h5, h6⟩ := h
  rw [move_data_spec s s.cend s.container_end_ h5 h6 hlen s.size room s.cbegin rfl rfl h3 h4
    hs hroom]
  congr 1
  apply List.map_congr_left
  intro k hk
  have hk' : k < s.size := List.mem_range.1 hk
  rw [index_eq hwf k (by omega)]
  rfl

theorem clear_ub {s : CircularBufferCommon α} (h : WF s) : s.clear.ub = false := by
  have hs := size_eq h
  have hlt := size_lt h
  obtain ⟨hub, hlen, h1, h2, h3, h4, h5, h6⟩ := h
  have := (destroy_range_spec s.cend s.container_end_ h5 h6 s.size s.container_end_.toNat
    s.cbegin s rfl rfl h3 h4 hlen hs (by omega)).1
  unfold clear
  dsimp only
  rw [this]; exact hub

/-- `reserve(n)` with `n > capacity()`: the state it leaves. -/
theorem reserve_grow {s : CircularBufferCommon α} (h : WF s) (n : Nat) (hn : s.capacity < n) :
    s.reserve n = ⟨s.contents ++ List.replicate (n + 1 - s.size) none, (n : Int) + 1, 0,
      (s.size : Int), false⟩ := by
  unfold reserve
  rw [if_neg (by omega), move_data_all h (n + 1) (by
    have := size_lt h; have := capacity_eq h; omega)]
  simp only [clear_ub h, contents_length, zero_add]

theorem reserve_noop (s : CircularBufferCommon α) (n : Nat) (hn : n ≤ s.capacity) :
    s.reserve n = s := by
  unfold reserve; rw [if_pos hn]

/-- `reserve(n)` keeps the invariant and the logical contents. -/
theorem reserve_spec {s : CircularBufferCommon α} (h : WF s) (n : Nat) (hn : s.capacity < n)
    (hbound : (n : Int) + 1 < 2 ^ 63) :
    WF (s.reserve n) ∧ (s.reserve n).contents = s.contents ∧
      (s.reserve n).container_end_ = (n : Int) + 1 := by
  have hlt := size_lt h
  have hcap := capacity_eq h
  have hw : WF (s.reserve n) := by
    rw [reserve_grow h n hn]
    refine ⟨rfl, ?_, ?_, ?_, ?_, ?_, ?_, ?_⟩ <;> dsimp only
    · simp only [List.length_append, contents_length, List.length_replicate]
      omega
    all_goals omega
  refine ⟨hw, ?_, by rw [reserve_grow h n hn]⟩
  apply contents_front hw s.contents (List.replicate (n + 1 - s.size) none)
  · rw [reserve_grow h n hn]
  · rw [reserve_grow h n hn, contents_length]
  · rw [reserve_grow h n hn]

/-- `expansion(capacity())` keeps the contents and leaves capacity `max(1, 2 * capacity())`. -/
theorem expansion_spec {s : CircularBufferCommon α} (h : WF s)
    (hbound : 2 * (s.capacity : Int) + 2 < 2 ^ 63) :
    WF (CircularBufferExt.expansion s s.capacity) ∧
      (CircularBufferExt.expansion s s.capacity).contents = s.contents ∧
      (CircularBufferExt.expansion s s.capacity).capacity = max 1 (2 * s.capacity) := by
  unfold CircularBufferExt.expansion
  by_cases hc : s.capacity = 0
  · obtain ⟨w1, w2, w3⟩ := reserve_spec h 1 (by omega) (by norm_num)
    have hcap1 : (s.reserve 1).capacity = 1 := by
      have := capacity_eq w1; rw [w3] at this; omega
    simp only [hc, if_true, Nat.zero_mul]
    rw [reserve_noop _ 0 (by omega)]
    exact ⟨w1, w2, by rw [hcap1]; rfl⟩
  · simp only [hc, if_false]
    obtain ⟨w1, w2, w3⟩ := reserve_spec h (s.capacity * 2) (by omega) (by push_cast; omega)
    refine ⟨w1, w2, ?_⟩
    have := capacity_eq w1
    rw [w3] at this
    have hm : max 1 (2 * s.capacity) = 2 * s.capacity := by omega
    rw [hm]; omega

/-- After the growth check the tail of `CircularBufferExt::push_back` acts on a
buffer that is not full, where it does what the bounded `push_back` does. -/
theorem ext_push_back_tail {s s1 : CircularBufferCommon α} (v : α)
    (hs1 : (if s.size = s.capacity then CircularBufferExt.expansion s s.capacity else s) = s1)
    (h : WF s1) (hnf : s1.size < s1.capacity) :
    CircularBufferExt.push_back s v = CircularBuffer.push_back s1 v := by
  have hs := size_eq h
  have hcap := capacity_eq h
  obtain ⟨hub, hlen, h1, h2, h3, h4, h5, h6⟩ := h
  have hcap0 : s1.capacity ≠ 0 := by omega
  have hnext : (if s1.data_end_ + 1 = s1.container_end_ then (0 : Int) else s1.data_end_ + 1)
      ≠ s1.data_begin_ := by
    split_ifs at hs ⊢ <;> omega
  simp only [CircularBufferExt.push_back, hs1, CircularBuffer.push_back, if_neg hcap0, construct,
    store_data_end, store_container_end, store_data_begin, container_begin_, if_neg hnext]
  by_cases he : s1.data_end_ + 1 = s1.container_end_
  · rw [if_pos he.symm, if_pos he]
  · rw [if_neg (fun hh => he hh.symm), if_neg he]

/-- The same for `CircularBufferExt::push_front`. -/
theorem ext_push_front_tail {s s1 : CircularBufferCommon α} (v : α)
    (hs1 : (if s.size = s.capacity then CircularBufferExt.expansion s s.capacity else s) = s1)
    (h : WF s1) (hnf : s1.size < s1.capacity) :
    CircularBufferExt.push_front s v = CircularBuffer.push_front s1 v := by
  have hs := size_eq h
  have hcap := capacity_eq h
  obtain ⟨hub, hlen, h1, h2, h3, h4, h5, h6⟩ := h
  have hcap0 : s1.capacity ≠ 0 := by omega
  have hne : (if (0 : Int) = s1.data_begin_ then s1.container_end_ - 1 else s1.data_begin_ - 1)
      ≠ s1.data_end_ := by
    split_ifs at hs ⊢ <;> omega
  simp only [CircularBufferExt.push_front, hs1, CircularBuffer.push_front, if_neg hcap0,
    construct, store_data_end, store_container_end, store_data_begin, container_begin_,
    if_neg hne]

/-- One call on a `CircularBufferExt`: nothing is evicted, and a full buffer grows
to capacity `max(1, 2 * capacity())`. -/
theorem CircularBufferExt.ext_push_spec {s : CircularBufferCommon α} (c : PushCall α) (xs : List α)
    (h : WF s) (hc : s.contents = xs.map some) (hbound : 2 * (xs.length : Int) + 2 < 2 ^ 63) :
    WF (CircularBufferExt.push s c) ∧
      (CircularBufferExt.push s c).contents = (PushCall.apply xs c).map some ∧
      (CircularBufferExt.push s c).capacity =
        if s.size = s.capacity then max 1 (2 * s.capacity) else s.capacity := by
  have hsz := size_of_contents hc
  have hslt := size_lt h
  have hcapeq := capacity_eq h
  generalize hs1 : (if s.size = s.capacity then CircularBufferExt.expansion s s.capacity else s)
    = s1
  have hs1' : WF s1 ∧ s1.contents = xs.map some ∧
      s1.capacity = (if s.size = s.capacity then max 1 (2 * s.capacity) else s.capacity) ∧
      s1.size < s1.capacity := by
    by_cases hf : s.size = s.capacity
    · rw [if_pos hf] at hs1 ⊢
      obtain ⟨w1, w2, w3⟩ := expansion_spec h (by omega)
      rw [hs1] at w1 w2 w3
      refine ⟨w1, w2.trans hc, w3, ?_⟩
      have := size_of_contents (w2.trans hc)
      omega
    · rw [if_neg hf] at hs1 ⊢
      subst hs1
      exact ⟨h, hc, rfl, by omega⟩
  obtain ⟨w1, w2, w3, w4⟩ := hs1'
  cases c with
  | back v =>
    simp only [CircularBufferExt.push, PushCall.apply]
    rw [ext_push_back_tail v hs1 w1 w4]
    obtain ⟨r1, r2, r3⟩ := CircularBuffer.push_back_not_full v xs w1 w2 w4
    exact ⟨r1, r2, (capacity_congr r3).trans w3⟩
  | front v =>
    simp only [CircularBufferExt.push, PushCall.apply]
    rw [ext_push_front_tail v hs1 w1 w4]
    obtain ⟨r1, r2, r3⟩ := CircularBuffer.push_front_not_full v xs w1 w2 w4
    exact ⟨r1, r2, (capacity_congr r3).trans w3⟩

/-- A run of calls on a `CircularBufferExt`. -/
theorem CircularBufferExt.ext_push_run (calls : List (PushCall α)) :
    ∀ (s : CircularBufferCommon α) (xs : List α), WF s → s.contents = xs.map some →
      2 * ((xs.length : Int) + calls.length) < 2 ^ 63 →
      WF (calls.foldl CircularBufferExt.push s) ∧
        (calls.foldl CircularBufferExt.push s).contents =
          (calls.foldl PushCall.apply xs).map some := by
  induction calls with
  | nil => intro s xs h hc _; exact ⟨h, hc⟩
  | cons c cs ih =>
    intro s xs h hc hn
    simp only [List.length_cons] at hn
    push_cast at hn
    simp only [List.foldl_cons]
    obtain ⟨h1, h2, -⟩ := CircularBufferExt.ext_push_spec c xs h hc (by omega)
    have hl : (PushCall.apply xs c).length = xs.length + 1 := by
      cases c <;> simp [PushCall.apply]
    exact ih _ _ h1 h2 (by rw [hl]; push_cast; omega)

theorem apply_run_length (calls : List (PushCall α)) :
    ∀ xs : List α, (calls.foldl PushCall.apply xs).length = xs.length + calls.length := by
  induction calls with
  | nil => intro xs; simp
  | cons c cs ih =>
    intro xs
    simp only [List.foldl_cons, List.length_cons, ih]
    cases c <;> simp [PushCall.apply] <;> omega

theorem SameFrame.refl (s : CircularBufferCommon α) : SameFrame s s := ⟨rfl, rfl, rfl, rfl, rfl⟩

theorem SameFrame.wf {s t : CircularBufferCommon α} (h : WF s) (f : SameFrame s t) : WF t := by
  obtain ⟨hub, hlen, h1, h2, h3, h4, h5, h6⟩ := h
  obtain ⟨f1, f2, f3, f4, f5⟩ := f
  exact ⟨by rw [f5]; exact hub, by rw [f1, f4]; exact hlen, by rw [f1]; exact h1,
    by rw [f1]; exact h2, by rw [f2]; exact h3, by rw [f1, f2]; exact h4,
    by rw [f3]; exact h5, by rw [f1, f3]; exact h6⟩

theorem SameFrame.size_same {s t : CircularBufferCommon α} (f : SameFrame s t) :
    t.size = s.size := by
  obtain ⟨f1, f2, f3, -, -⟩ := f
  simp only [size, cend, cbegin, container_begin_, f1, f2, f3]

theorem SameFrame.store_frame {s t : CircularBufferCommon α} (f : SameFrame s t) (p : Int)
    (x : Option α) (h0 : 0 ≤ p) (h1 : p < s.slab.length) : SameFrame s (t.store p x) := by
  obtain ⟨f1, f2, f3, f4, f5⟩ := f
  exact ⟨f1, f2, f3, by rw [store_length]; exact f4,
    by rw [store_ub _ _ _ h0 (by rw [f4]; exact h1)]; exact f5⟩

theorem SameFrame.move_assign_frame {s t : CircularBufferCommon α} (f : SameFrame s t) (dst src : Int)
    (h0 : 0 ≤ dst) (h1 : dst < s.slab.length) (h2 : 0 ≤ src) (h3 : src < s.slab.length) :
    SameFrame s (t.move_assign dst src) ∧
      ∀ q : Int, (t.move_assign dst src).deref q = if q = dst then t.deref src else t.deref q := by
  have hsrc : 0 ≤ src ∧ src < (t.slab.length : Int) := ⟨h2, by rw [f.2.2.2.1]; exact h3⟩
  have hf := f.store_frame dst (t.deref src) h0 h1
  obtain ⟨g1, g2, g3, g4, g5⟩ := hf
  refine ⟨⟨g1, g2, g3, g4, ?_⟩, fun q => ?_⟩
  · unfold CircularBufferCommon.move_assign
    dsimp only
    rw [if_pos hsrc]; exact g5
  · rw [← deref_store t dst q (t.deref src) h0 (by rw [f.2.2.2.1]; exact h1)]
    exact deref_congr rfl q

theorem phys_inj (L b : Int) (k k' : Int) (hk0 : 0 ≤ k)
    (hk1 : k < L) (hk0' : 0 ≤ k') (hk1' : k' < L) : phys L b k = phys L b k' ↔ k = k' := by
  unfold phys; split_ifs <;> omega

theorem phys_succ (L b : Int) (k : Int) (hb1 : b < L)
    (hk1 : k + 1 < L) : phys L (phys L b k) 1 = phys L b (k + 1) := by
  unfold phys; split_ifs <;> omega

/-- The loop of `erase(q)` moves every later element one logical place forward. -/
theorem erase_loop_spec {s : CircularBufferCommon α} (h : WF s) :
    ∀ (d fuel idx : Nat) (it : Iterator) (s0 : CircularBufferCommon α), SameFrame s s0 →
      it.container_begin_ = 0 → it.container_end_ = s.container_end_ →
      it.current_ = phys s.container_end_ s.data_begin_ idx →
      idx + d + 1 = s.size → d ≤ fuel →
      (erase_loop fuel idx it s0).1 = s.size - 1 ∧ SameFrame s (erase_loop fuel idx it s0).2 ∧
        ∀ k : Nat, (k : Int) < s.container_end_ →
          (erase_loop fuel idx it s0).2.deref (phys s.container_end_ s.data_begin_ k) =
            if idx ≤ k ∧ k + 1 < s.size
              then s0.deref (phys s.container_end_ s.data_begin_ ((k + 1 : Nat) : Int))
              else s0.deref (phys s.container_end_ s.data_begin_ k) := by
  have hlt := size_lt h
  obtain ⟨hub, hlen, h1, h2, h3, h4, h5, h6⟩ := h
  intro d
  induction d with
  | zero =>
    intro fuel idx it s0 f _ _ _ hd _
    have hsz := f.size_same
    have hts : to_size_type ((s0.size : Int) - 1) = s0.size - 1 := by
      unfold to_size_type; omega
    have hcond : ¬ idx < to_size_type ((s0.size : Int) - 1) := by omega
    have hr : erase_loop fuel idx it s0 = (idx, s0) := by
      cases fuel <;> simp [erase_loop, hcond]
    rw [hr]
    refine ⟨by dsimp only; omega, f, fun k _ => ?_⟩
    rw [if_neg (by omega)]
  | succ d ih =>
    intro fuel idx it s0 f hb he hcur hd hfuel
    have hsz := f.size_same
    have hts : to_size_type ((s0.size : Int) - 1) = s0.size - 1 := by
      unfold to_size_type; omega
    have hcond : idx < to_size_type ((s0.size : Int) - 1) := by omega
    obtain ⟨fuel', rfl⟩ : ∃ r, fuel = r + 1 := ⟨fuel - 1, by omega⟩
    have hpb := phys_bounds s.container_end_ s.data_begin_ idx h3 h4 (by omega) (by omega)
    have hpb1 := phys_bounds s.container_end_ s.data_begin_ ((idx + 1 : Nat) : Int) h3 h4
      (by omega) (by push_cast; omega)
    have hplus : (it.plus 1).current_ =
        phys s.container_end_ s.data_begin_ ((idx + 1 : Nat) : Int) := by
      rw [plus_current it 1 hb (by rw [he, hcur]; exact hpb.2) (by omega) (by rw [he]; omega),
        he, hcur]
      push_cast
      exact phys_succ _ _ _ h4 (by omega)
    have hinc : it.inc.current_ = phys s.container_end_ s.data_begin_ ((idx + 1 : Nat) : Int) := by
      rw [inc_current it hb (by rw [hcur]; exact hpb.1) (by rw [he, hcur]; exact hpb.2), he, hcur]
      push_cast
      exact phys_succ _ _ _ h4 (by omega)
    obtain ⟨i1, i2, -, -⟩ := inc_fields it
    obtain ⟨g, gd⟩ := f.move_assign_frame it.current_ (it.plus 1).current_
      (by rw [hcur]; exact hpb.1) (by rw [hcur]; omega) (by rw [hplus]; exact hpb1.1)
      (by rw [hplus]; omega)
    obtain ⟨r1, r2, r3⟩ := ih fuel' (idx + 1) it.inc _ g (i1.trans hb) (i2.trans he) hinc
      (by omega) (by omega)
    simp only [erase_loop, if_pos hcond]
    refine ⟨r1, r2, fun k hk => ?_⟩
    rw [r3 k hk, gd, gd, hcur, hplus]
    have hne : ∀ m : Nat, (m : Int) < s.container_end_ → m ≠ idx →
        phys s.container_end_ s.data_begin_ (m : Int) ≠
          phys s.container_end_ s.data_begin_ (idx : Int) := by
      intro m hm hmi hp
      have := (phys_inj s.container_end_ s.data_begin_ m idx (by omega) hm (by omega)
        (by omega)).1 hp
      omega
    by_cases hk1 : idx + 1 ≤ k ∧ k + 1 < s.size
    · have hA : idx ≤ k ∧ k + 1 < s.size := by omega
      rw [if_pos hk1, if_pos hA, if_neg (hne (k + 1) (by push_cast; omega) (by omega))]
    · rw [if_neg hk1]
      by_cases hk2 : k = idx
      · subst hk2
        have hA : k ≤ k ∧ k + 1 < s.size := by omega
        rw [if_pos rfl, if_pos hA]
      · have hA : ¬ (idx ≤ k ∧ k + 1 < s.size) := by omega
        rw [if_neg (hne k hk hk2), if_neg hA]

theorem plus_fields (it : Iterator) (n : Int) :
    (it.plus n).container_begin_ = it.container_begin_ ∧
      (it.plus n).container_end_ = it.container_end_ ∧
      (it.plus n).data_begin_ = it.data_begin_ ∧ (it.plus n).data_end_ = it.data_end_ := by
  unfold Iterator.plus Iterator.plus_body Iterator.minus_body
  dsimp only
  split_ifs <;> exact ⟨rfl, rfl, rfl, rfl⟩

/-- The iterator `cbegin() + j` of a well-formed buffer, `j ≤ size()`: its slot and
its distance from `cbegin()`. -/
theorem cbegin_plus {s : CircularBufferCommon α} (h : WF s) (j : Nat) (hj : j ≤ s.size) :
    (s.cbegin.plus j).current_ = phys s.container_end_ s.data_begin_ j ∧
      (s.cbegin.plus j).container_begin_ = 0 ∧
      (s.cbegin.plus j).container_end_ = s.container_end_ ∧
      (s.cbegin.plus j).difference s.cbegin = Except.ok (j : Int) := by
  have hs := size_eq h
  have hlt := size_lt h
  obtain ⟨hub, hlen, h1, h2, h3, h4, h5, h6⟩ := h
  obtain ⟨p1, p2, p3, p4⟩ := plus_fields s.cbegin j
  have hcur : (s.cbegin.plus j).current_ = phys s.container_end_ s.data_begin_ j :=
    plus_current s.cbegin j rfl h4 (by omega) (by change (j : Int) < s.container_end_; omega)
  refine ⟨hcur, p1, p2, ?_⟩
  unfold Iterator.difference
  rw [if_neg (by rw [p1, p2]; simp)]
  congr 1
  unfold Iterator.distance
  rw [p1, p2, p3, p4, hcur]
  simp only [cbegin, container_begin_]
  unfold phys
  split_ifs at hs ⊢ <;> omega


theorem to_size_type_natCast (n : Nat) (h : (n : Int) < 2 ^ 64) : to_size_type (n : Int) = n := by
  unfold to_size_type; omega

theorem to_int_natCast (n : Nat) (h : (n : Int) < 2 ^ 31) : to_int (n : Int) = n := by
  unfold to_int; omega

/-- `erase(q)` at the live element of logical index `i`, in a buffer whose size is
in the range of `int`. -/
theorem erase_spec {s : CircularBufferCommon α} (xs : List α) (i : Nat)
    (h : WF s) (hc : s.contents = xs.map some) (hi : i < s.size)
    (hint : (s.size : Int) ≤ 2 ^ 31) :
    ∃ r, s.erase (s.cbegin.plus i) = Except.ok r ∧ WF r.2 ∧
      r.2.contents = (xs.eraseIdx i).map some ∧ r.2.container_end_ = s.container_end_ ∧
      r.1 = r.2.cbegin.plus ((s.size - 1 : Nat) : Int) := by
  have hs := size_eq h
  have hlt := size_lt h
  have hwf := h
  obtain ⟨q1, q2, q3, q4⟩ := cbegin_plus h i (by omega)
  have hpb := phys_bounds s.container_end_ s.data_begin_ i h.2.2.2.2.1 h.2.2.2.2.2.1
    (by omega) (by omega)
  obtain ⟨r1, r2, r3⟩ := erase_loop_spec h (s.size - 1 - i) s.size i (s.cbegin.plus i) s
    (SameFrame.refl s) q2 q3 q1 (by omega) (by omega)
  obtain ⟨hub, hlen, h1, h2, h3, h4, h5, h6⟩ := h
  rw [contents_eq_iff] at hc
  obtain ⟨hsz, hidx⟩ := hc
  have hchk : ¬ ((s.cbegin.plus i).current_ < s.container_begin_ ∨
      (s.cbegin.plus i).current_ ≥ s.container_end_) := by
    rw [q1]; unfold container_begin_; omega
  have hsize : ¬ (to_size_type (i : Int) ≥ s.size) := by
    rw [to_size_type_natCast i (by omega)]; omega
  generalize hr : erase_loop s.size i (s.cbegin.plus i) s = r at r1 r2 r3
  obtain ⟨f1, f2, f3, f4, f5⟩ := r2
  generalize hne : (if (0 : Int) = s.data_end_ then s.container_end_ - 1 else s.data_end_ - 1)
    = ne
  have hne0 : 0 ≤ ne := by rw [← hne]; split_ifs <;> omega
  have hne1 : ne < s.container_end_ := by rw [← hne]; split_ifs <;> omega
  have hnephys : ne = phys s.container_end_ s.data_begin_ ((s.size - 1 : Nat) : Int) := by
    rw [← hne]; unfold phys; split_ifs at hs ⊢ <;> omega
  refine ⟨((⟨(r.2.store ne none).slab, s.container_end_, s.data_begin_, ne,
      (r.2.store ne none).ub⟩ : CircularBufferCommon α).cbegin.plus (to_int r.1),
    ⟨(r.2.store ne none).slab, s.container_end_, s.data_begin_, ne, (r.2.store ne none).ub⟩),
    ?_, ?_⟩
  · unfold erase
    rw [if_neg hchk, q4]
    dsimp only
    rw [if_neg hsize, to_size_type_natCast i (by omega), to_int_natCast i (by omega), hr]
    simp only [container_begin_, destroy, f1, f3]
    subst hne
    by_cases h0 : (0 : Int) = s.data_end_
    · simp only [if_pos h0, f2]; rfl
    · simp only [if_neg h0, f2]; rfl
  dsimp only
  generalize hs'def : (⟨(r.2.store ne none).slab, s.container_end_, s.data_begin_, ne,
      (r.2.store ne none).ub⟩ : CircularBufferCommon α) = s'
  have e1 : s'.container_end_ = s.container_end_ := by rw [← hs'def]
  have e2 : s'.data_begin_ = s.data_begin_ := by rw [← hs'def]
  have e3 : s'.data_end_ = ne := by rw [← hs'def]
  have e4 : s'.slab = (r.2.store ne none).slab := by rw [← hs'def]
  have e5 : s'.ub = (r.2.store ne none).ub := by rw [← hs'def]
  have hwf' : WF s' := by
    refine ⟨?_, ?_, ?_, ?_, ?_, ?_, ?_, ?_⟩
    · rw [e5, store_ub _ _ _ hne0 (by rw [f4]; omega), f5]; exact hub
    · rw [e1, e4, store_length, f4]; exact hlen
    · rw [e1]; exact h1
    · rw [e1]; exact h2
    · rw [e2]; exact h3
    · rw [e1, e2]; exact h4
    · rw [e3]; exact hne0
    · rw [e1, e3]; exact hne1
  refine ⟨hwf', ?_, rfl, by rw [r1, to_int_natCast _ (by omega)]⟩
  have hs' := size_eq hwf'
  rw [e1, e2, e3] at hs'
  have hsize' : s'.size = s.size - 1 := by
    rw [← hne] at hs'
    split_ifs at hs hs' <;> omega
  rw [contents_eq_iff]
  have hlen' : (xs.eraseIdx i).length = xs.length - 1 := by
    rw [List.length_eraseIdx]; simp [show i < xs.length by omega]
  refine ⟨by rw [hsize', hlen', hsz], fun k hk => ?_⟩
  rw [hlen'] at hk
  rw [index_of hwf' e1 e2 e4 k (by omega), deref_store _ _ _ _ hne0 (by rw [f4]; omega)]
  have hkne : phys s.container_end_ s.data_begin_ (k : Int) ≠ ne := by
    rw [hnephys]
    intro hp
    have := (phys_inj _ _ _ _ (by omega) (by omega) (by omega) (by omega)).1 hp
    omega
  rw [if_neg hkne, r3 k (by omega), List.getElem?_eraseIdx]
  by_cases hki : k < i
  · have hA : ¬ (i ≤ k ∧ k + 1 < s.size) := by omega
    rw [if_neg hA, if_pos hki, ← index_eq hwf k (by omega), hidx k (by omega)]
  · have hA : i ≤ k ∧ k + 1 < s.size := by omega
    rw [if_pos hA, if_neg hki, ← index_eq hwf (k + 1) (by omega), hidx (k + 1) (by omega)]

theorem minus_fields (it : Iterator) (n : Int) :
    (it.minus n).container_begin_ = it.container_begin_ ∧
      (it.minus n).container_end_ = it.container_end_ ∧
      (it.minus n).data_begin_ = it.data_begin_ ∧ (it.minus n).data_end_ = it.data_end_ := by
  unfold Iterator.minus Iterator.plus_body Iterator.minus_body
  dsimp only
  split_ifs <;> exact ⟨rfl, rfl, rfl, rfl⟩

/-- `it - n` from the slot of logical index `k`, `0 ≤ n ≤ k`, is the slot of index `k - n`. -/
theorem minus_current (L b : Int) (it : Iterator) (k n : Nat) (hb : it.container_begin_ = 0)
    (he : it.container_end_ = L) (hb0 : 0 ≤ b) (hb1 : b < L) (hk : (k : Int) < L) (hn : n ≤ k)
    (hcur : it.current_ = phys L b k) :
    (it.minus n).current_ = phys L b ((k - n : Nat) : Int) := by
  unfold Iterator.minus Iterator.minus_body
  dsimp only
  by_cases h1 : it.container_begin_ + 1 = it.container_end_
  · rw [if_pos h1, hcur]; unfold phys; split_ifs <;> omega
  · rw [if_neg h1]
    by_cases h2 : (n : Int) = 0
    · rw [if_pos h2, hcur]
      have : k - n = k := by omega
      rw [this]
    · rw [if_neg h2, if_neg (by omega)]
      by_cases h3 : (n : Int) ≤ it.current_ - it.container_begin_
      · rw [if_pos h3]
        dsimp only
        rw [hcur] at h3 ⊢
        unfold phys at h3 ⊢; split_ifs at h3 ⊢ <;> omega
      · rw [if_neg h3]
        dsimp only
        have hc0 : 0 ≤ it.current_ := by rw [hcur]; unfold phys; split_ifs <;> omega
        rw [Int.tmod_eq_of_lt (by omega) (by rw [he, hb]; omega)]
        rw [hcur] at h3 ⊢
        unfold phys at h3 ⊢; split_ifs at h3 ⊢ <;> omega

theorem size_of_end {t : CircularBufferCommon α} (h : WF t) (m : Nat)
    (hm : (m : Int) < t.container_end_)
    (he : t.data_end_ = phys t.container_end_ t.data_begin_ m) : t.size = m := by
  have hs := size_eq h
  obtain ⟨hub, hlen, h1, h2, h3, h4, h5, h6⟩ := h
  rw [he] at hs
  unfold phys at hs
  split_ifs at hs <;> omega

theorem WF.cursors {s : CircularBufferCommon α} (h : WF s) : CursorsOK s :=
  ⟨h.2.2.1, h.2.2.2.1, h.2.2.2.2.1, h.2.2.2.2.2.1, h.2.2.2.2.2.2.1, h.2.2.2.2.2.2.2⟩

theorem size_eq_c {s : CircularBufferCommon α} (h : CursorsOK s) :
    (s.size : Int) = if s.data_begin_ ≤ s.data_end_ then s.data_end_ - s.data_begin_
      else s.container_end_ - s.data_begin_ + s.data_end_ := by
  obtain ⟨h1, h2, h3, h4, h5, h6⟩ := h
  simp only [size, cend, cbegin, Iterator.distance, to_size_type, container_begin_]
  split_ifs <;> omega

/-- With the live range starting at the first slot and the cursors in order, the
contents are the front of the slab, whatever the length of its tail. -/
theorem contents_front_c {t : CircularBufferCommon α} (h : CursorsOK t) (ys pad : List (Option α))
    (hb : t.data_begin_ = 0) (he : t.data_end_ = ys.length) (hslab : t.slab = ys ++ pad) :
    t.contents = ys := by
  have hs := size_eq_c h
  obtain ⟨h1, h2, h3, h4, h5, h6⟩ := h
  rw [hb, he] at hs
  have hsz : t.size = ys.length := by split_ifs at hs <;> omega
  apply List.ext_getElem?
  intro i
  by_cases hi : i < ys.length
  · have hidx : t.index i = ys[i] := by
      unfold index
      rw [plus_current t.cbegin i rfl h4 (by omega) (by change (i : Int) < t.container_end_; omega)]
      change t.deref (phys t.container_end_ t.data_begin_ i) = _
      rw [hb]
      have hp : phys t.container_end_ 0 (i : Int) = i := by
        unfold phys; split_ifs <;> omega
      rw [hp]
      unfold deref
      rw [if_pos (by omega), hslab]
      simp [List.getElem?_append_left, hi]
    simp only [contents, List.getElem?_map, List.getElem?_range (hsz ▸ hi), Option.map_some',
      hidx, List.getElem?_eq_getElem hi]
  · have h1 : (List.range t.size)[i]? = none := by
      apply List.getElem?_eq_none; simp; omega
    have h2 : ys[i]? = none := List.getElem?_eq_none (by omega)
    simp [contents, h1, h2]

theorem capacity_of_end {s : CircularBufferCommon α} (h : WF s) (c : Nat)
    (he : s.container_end_ = (c : Int) + 1) : s.capacity = c := by
  have := capacity_eq h
  omega

/-- The loop of `std::equal` over two well-formed buffers of equal size, from
logical index `k` on. -/
theorem equal_loop_spec [DecidableEq α] {s t : CircularBufferCommon α} (h : WF s) (ht : WF t)
    (hsz : s.size = t.size) :
    ∀ (d fuel k : Nat) (first1 first2 : Iterator),
      first1.container_begin_ = 0 → first1.container_end_ = s.container_end_ →
      first1.current_ = phys s.container_end_ s.data_begin_ k →
      first2.container_begin_ = 0 → first2.container_end_ = t.container_end_ →
      first2.current_ = phys t.container_end_ t.data_begin_ k →
      k + d = s.size → d ≤ fuel →
      ∃ b, equal_loop s t s.cend fuel first1 first2 = some b ∧
        (b = true ↔ ∀ i : Nat, k ≤ i → i < s.size → s.index i = t.index i) := by
  have hlt := size_lt h
  have hlt' := size_lt ht
  have hend : s.cend.current_ = phys s.container_end_ s.data_begin_ s.size :=
    ((phys_eq_end h s.size (le_refl _)).2 rfl).symm
  have hwf := h
  have hwt := ht
  obtain ⟨hub, hlen, h1, h2, h3, h4, h5, h6⟩ := h
  obtain ⟨tub, tlen, t1, t2, t3, t4, t5, t6⟩ := ht
  intro d
  induction d with
  | zero =>
    intro fuel k first1 first2 _ _ hc1 _ _ _ hd _
    have heq : first1.current_ = s.cend.current_ := by
      rw [hc1, hend, show k = s.size by omega]
    refine ⟨true, ?_, ?_⟩
    · cases fuel <;> simp [equal_loop, heq]
    · simp only [true_iff]
      intro i hi hi'
      omega
  | succ d ih =>
    intro fuel k first1 first2 hb1 he1 hc1 hb2 he2 hc2 hd hfuel
    have hne : first1.current_ ≠ s.cend.current_ := by
      rw [hc1, hend]
      intro hp
      have := (phys_inj _ _ _ _ (by omega) (by omega) (by omega) (by omega)).1 hp
      omega
    obtain ⟨fuel', rfl⟩ : ∃ r, fuel = r + 1 := ⟨fuel - 1, by omega⟩
    have hp1 := phys_bounds s.container_end_ s.data_begin_ k h3 h4 (by omega) (by omega)
    have hp2 := phys_bounds t.container_end_ t.data_begin_ k t3 t4 (by omega) (by omega)
    have hinc1 : first1.inc.current_ =
        phys s.container_end_ s.data_begin_ ((k + 1 : Nat) : Int) := by
      rw [inc_current first1 hb1 (by rw [hc1]; exact hp1.1) (by rw [he1, hc1]; exact hp1.2),
        he1, hc1]
      push_cast
      exact phys_succ _ _ _ h4 (by omega)
    have hinc2 : first2.inc.current_ =
        phys t.container_end_ t.data_begin_ ((k + 1 : Nat) : Int) := by
      rw [inc_current first2 hb2 (by rw [hc2]; exact hp2.1) (by rw [he2, hc2]; exact hp2.2),
        he2, hc2]
      push_cast
      exact phys_succ _ _ _ t4 (by omega)
    obtain ⟨i1, i2, -, -⟩ := inc_fields first1
    obtain ⟨j1, j2, -, -⟩ := inc_fields first2
    have hk1 : s.deref first1.current_ = s.index k := by
      rw [hc1, index_eq hwf k (by omega)]
    have hk2 : t.deref first2.current_ = t.index k := by
      rw [hc2, index_eq hwt k (by omega)]
    by_cases hv : s.deref first1.current_ ≠ t.deref first2.current_
    · refine ⟨false, ?_, ?_⟩
      · simp only [equal_loop, if_neg hne, if_pos hv]
      · simp only [Bool.false_eq_true, false_iff]
        intro hall
        exact hv (by rw [hk1, hk2]; exact hall k (le_refl _) (by omega))
    · obtain ⟨b, hb, hiff⟩ := ih fuel' (k + 1) first1.inc first2.inc (i1.trans hb1)
        (i2.trans he1) hinc1 (j1.trans hb2) (j2.trans he2) hinc2 (by omega) (by omega)
      refine ⟨b, ?_, ?_⟩
      · simp only [equal_loop, if_neg hne, if_neg hv, hb]
      · rw [hiff]
        constructor
        · intro hall i hi hi'
          by_cases hik : i = k
          · subst hik
            rw [← hk1, ← hk2]
            exact not_not.1 hv
          · exact hall i (by omega) hi'
        · intro hall i hi hi'
          exact hall i (by omega) hi'

/-- `operator==` on well-formed buffers returns, and is true exactly when the
sizes agree and the elements agree at every logical index. -/
theorem op_eq_spec [DecidableEq α] {s t : CircularBufferCommon α} (h : WF s) (ht : WF t) :
    ∃ b, op_eq s t = some b ∧
      (b = true ↔ s.size = t.size ∧ ∀ i : Nat, i < s.size → s.index i = t.index i) := by
  have hs := size_eq h
  have hs' := size_eq ht
  have hlt := size_lt h
  have hlt' := size_lt ht
  have hd1 : s.cend.distance s.cbegin = s.size := by
    obtain ⟨hub, hlen, h1, h2, h3, h4, h5, h6⟩ := h
    rw [hs]
    simp only [cend, cbegin, Iterator.distance, container_begin_]
    split_ifs <;> omega
  have hd2 : t.cend.distance t.cbegin = t.size := by
    obtain ⟨hub, hlen, h1, h2, h3, h4, h5, h6⟩ := ht
    rw [hs']
    simp only [cend, cbegin, Iterator.distance, container_begin_]
    split_ifs <;> omega
  unfold op_eq
  rw [hd1, hd2]
  by_cases hsz : s.size = t.size
  · rw [if_neg (by rw [hsz]; simp)]
    have hp0 : ∀ (L b : Int), 0 ≤ b → b < L → b = phys L b ((0 : Nat) : Int) := by
      intro L b hb0 hb1; unfold phys; push_cast; split_ifs <;> omega
    obtain ⟨b, hb, hiff⟩ := equal_loop_spec h ht hsz s.size s.container_end_.toNat 0 s.cbegin
      t.cbegin rfl rfl (hp0 _ _ h.2.2.2.2.1 h.2.2.2.2.2.1) rfl rfl
      (hp0 _ _ ht.2.2.2.2.1 ht.2.2.2.2.2.1) (by omega) (by omega)
    refine ⟨b, hb, ?_⟩
    rw [hiff]
    constructor
    · intro hall; exact ⟨hsz, fun i hi => hall i (Nat.zero_le _) hi⟩
    · intro hall i _ hi; exact hall.2 i hi
  · refine ⟨false, ?_, ?_⟩
    · rw [if_pos (by intro hh; exact hsz (by exact_mod_cast hh))]
    · simp only [Bool.false_eq_true, false_iff]
      intro hall; exact hsz hall.1

theorem index_of_contents_eq {s t : CircularBufferCommon α} (hc : s.contents = t.contents) :
    s.size = t.size ∧ ∀ i : Nat, i < s.size → s.index i = t.index i := by
  have hl : s.size = t.size := by
    have := congrArg List.length hc
    simpa [contents] using this
  refine ⟨hl, fun i hi => ?_⟩
  have := congrArg (fun l => l[i]?) hc
  simp only [contents, List.getElem?_map, List.getElem?_range hi,
    List.getElem?_range (hl ▸ hi), Option.map_some'] at this
  exact Option.some.inj this

/-- Buffers with the same logical contents compare equal. -/
theorem op_eq_of_contents [DecidableEq α] {s t : CircularBufferCommon α} (h : WF s) (ht : WF t)
    (hc : s.contents = t.contents) : op_eq s t = some true := by
  obtain ⟨b, hb, hiff⟩ := op_eq_spec h ht
  have : b = true := hiff.2 (index_of_contents_eq hc)
  rw [hb, this]

/-- The copy constructor: a tight slab with the contents of the source. -/
theorem mk_copy_spec {s : CircularBufferCommon α} (h : WF s) :
    WF (mk_copy s) ∧ (mk_copy s).contents = s.contents ∧
      (mk_copy s).container_end_ = (s.size : Int) + 1 := by
  have hlt := size_lt h
  have h2 := h.2.2.2.1
  have hcp : mk_copy s = ⟨s.contents ++ List.replicate (s.size + 1 - s.size) none,
      (s.size : Int) + 1, 0, (s.size : Int), false⟩ := by
    unfold mk_copy copy_data
    rw [move_data_all h (s.size + 1) (by omega)]
    simp only [contents_length, zero_add]
  have hw : WF (mk_copy s) := by
    rw [hcp]
    refine ⟨rfl, ?_, ?_, ?_, ?_, ?_, ?_, ?_⟩ <;> dsimp only
    · simp only [List.length_append, contents_length, List.length_replicate]
      omega
    all_goals omega
  refine ⟨hw, ?_, by rw [hcp]⟩
  apply contents_front hw s.contents (List.replicate (s.size + 1 - s.size) none)
  · rw [hcp]
  · rw [hcp, contents_length]
  · rw [hcp]

/-- On a buffer that is not full, constructing at `data_end_` and advancing it is
what the bounded `push_back` does. -/
theorem grow_step_eq {s : CircularBufferCommon α} (v : α) (h : WF s)
    (hnf : s.size < s.capacity) :
    (if (s.construct s.data_end_ v).data_end_ + 1 = (s.construct s.data_end_ v).container_end_
      then { s.construct s.data_end_ v with
        data_end_ := (s.construct s.data_end_ v).container_begin_ }
      else { s.construct s.data_end_ v with
        data_end_ := (s.construct s.data_end_ v).data_end_ + 1 }) =
      CircularBuffer.push_back s v := by
  have hs := size_eq h
  have hcap := capacity_eq h
  obtain ⟨hub, hlen, h1, h2, h3, h4, h5, h6⟩ := h
  have hcap0 : s.capacity ≠ 0 := by omega
  have hnext : (if s.data_end_ + 1 = s.container_end_ then (0 : Int) else s.data_end_ + 1)
      ≠ s.data_begin_ := by
    split_ifs at hs ⊢ <;> omega
  simp only [CircularBuffer.push_back, if_neg hcap0, construct, store_data_end,
    store_container_end, store_data_begin, container_begin_, if_neg hnext]

/-- The growing loop of `resize` appends copies of the value. -/
theorem resize_grow_spec (v : α) :
    ∀ (k : Nat) (s : CircularBufferCommon α) (xs : List α), WF s → s.contents = xs.map some →
      s.size + k ≤ s.capacity →
      WF (resize_grow v k s) ∧
        (resize_grow v k s).contents = (xs ++ List.replicate k v).map some ∧
        (resize_grow v k s).container_end_ = s.container_end_ := by
  intro k
  induction k with
  | zero => intro s xs h hc _; exact ⟨h, by simpa using hc, rfl⟩
  | succ k ih =>
    intro s xs h hc hk
    obtain ⟨r1, r2, r3⟩ := CircularBuffer.push_back_not_full v xs h hc (by omega)
    have hsz := size_of_contents hc
    have hsz' := size_of_contents r2
    simp only [List.length_append, List.length_cons, List.length_nil] at hsz'
    obtain ⟨i1, i2, i3⟩ := ih (CircularBuffer.push_back s v) (xs ++ [v]) r1 r2
      (by rw [capacity_congr r3]; omega)
    simp only [resize_grow]
    rw [grow_step_eq v h (by omega)]
    refine ⟨i1, ?_, i3.trans r3⟩
    rw [i2, List.replicate_succ, List.append_assoc]
    rfl

/-- One round of the shrinking loop of `resize`: the last element goes. -/
theorem shrink_step_spec {s : CircularBufferCommon α} (x : α) (xs : List α)
    (h : WF s) (hc : s.contents = (xs ++ [x]).map some) :
    WF ((if s.container_begin_ = s.data_end_ then { s with data_end_ := s.container_end_ - 1 }
        else { s with data_end_ := s.data_end_ - 1 }).destroy
      (if s.container_begin_ = s.data_end_ then { s with data_end_ := s.container_end_ - 1 }
        else { s with data_end_ := s.data_end_ - 1 }).data_end_) ∧
    ((if s.container_begin_ = s.data_end_ then { s with data_end_ := s.container_end_ - 1 }
        else { s with data_end_ := s.data_end_ - 1 }).destroy
      (if s.container_begin_ = s.data_end_ then { s with data_end_ := s.container_end_ - 1 }
        else { s with data_end_ := s.data_end_ - 1 }).data_end_).contents = xs.map some ∧
    ((if s.container_begin_ = s.data_end_ then { s with data_end_ := s.container_end_ - 1 }
        else { s with data_end_ := s.data_end_ - 1 }).destroy
      (if s.container_begin_ = s.data_end_ then { s with data_end_ := s.container_end_ - 1 }
        else { s with data_end_ := s.data_end_ - 1 }).data_end_).container_end_ =
      s.container_end_ := by
  have hs := size_eq h
  have hlt := size_lt h
  have hwf := h
  obtain ⟨hub, hlen, h1, h2, h3, h4, h5, h6⟩ := h
  rw [contents_eq_iff] at hc
  obtain ⟨hsz, hidx⟩ := hc
  simp only [List.length_append, List.length_cons, List.length_nil] at hsz hidx
  generalize hne : (if (0 : Int) = s.data_end_ then s.container_end_ - 1 else s.data_end_ - 1)
    = ne
  have hne0 : 0 ≤ ne := by rw [← hne]; split_ifs <;> omega
  have hne1 : ne < s.container_end_ := by rw [← hne]; split_ifs <;> omega
  have hnephys : ne = phys s.container_end_ s.data_begin_ ((s.size - 1 : Nat) : Int) := by
    rw [← hne]; unfold phys; split_ifs at hs ⊢ <;> omega
  have hst : ((if s.container_begin_ = s.data_end_ then
        { s with data_end_ := s.container_end_ - 1 }
        else { s with data_end_ := s.data_end_ - 1 }).destroy
      (if s.container_begin_ = s.data_end_ then { s with data_end_ := s.container_end_ - 1 }
        else { s with data_end_ := s.data_end_ - 1 }).data_end_) =
      ⟨(s.store ne none).slab, s.container_end_, s.data_begin_, ne, (s.store ne none).ub⟩ := by
    subst hne
    unfold container_begin_ destroy
    by_cases h0 : (0 : Int) = s.data_end_
    · simp only [if_pos h0]; rfl
    · simp only [if_neg h0]; rfl
  rw [hst]
  generalize hs'def : (⟨(s.store ne none).slab, s.container_end_, s.data_begin_, ne,
      (s.store ne none).ub⟩ : CircularBufferCommon α) = s'
  have e1 : s'.container_end_ = s.container_end_ := by rw [← hs'def]
  have e2 : s'.data_begin_ = s.data_begin_ := by rw [← hs'def]
  have e3 : s'.data_end_ = ne := by rw [← hs'def]
  have e4 : s'.slab = (s.store ne none).slab := by rw [← hs'def]
  have e5 : s'.ub = (s.store ne none).ub := by rw [← hs'def]
  have hwf' : WF s' := by
    refine ⟨?_, ?_, ?_, ?_, ?_, ?_, ?_, ?_⟩
    · rw [e5, store_ub _ _ _ hne0 (by omega)]; exact hub
    · rw [e1, e4, store_length]; exact hlen
    · rw [e1]; exact h1
    · rw [e1]; exact h2
    · rw [e2]; exact h3
    · rw [e1, e2]; exact h4
    · rw [e3]; exact hne0
    · rw [e1, e3]; exact hne1
  refine ⟨hwf', ?_, e1⟩
  have hsize' : s'.size = s.size - 1 :=
    size_of_end hwf' _ (by rw [e1]; omega) (by rw [e1, e2, e3]; exact hnephys)
  rw [contents_eq_iff]
  refine ⟨by omega, fun k hk => ?_⟩
  rw [index_of hwf' e1 e2 e4 k (by omega), deref_store _ _ _ _ hne0 (by omega)]
  have hkne : phys s.container_end_ s.data_begin_ (k : Int) ≠ ne := by
    rw [hnephys]
    intro hp
    have := (phys_inj _ _ _ _ (by omega) (by omega) (by omega) (by omega)).1 hp
    omega
  rw [if_neg hkne, ← index_eq hwf k (by omega), hidx k (by omega),
    List.getElem?_append_left hk]

/-- The shrinking loop of `resize` drops elements from the end. -/
theorem resize_shrink_spec :
    ∀ (k : Nat) (s : CircularBufferCommon α) (xs : List α), WF s → s.contents = xs.map some →
      k ≤ xs.length →
      WF (resize_shrink k s) ∧
        (resize_shrink k s).contents = (xs.take (xs.length - k)).map some ∧
        (resize_shrink k s).container_end_ = s.container_end_ := by
  intro k
  induction k with
  | zero => intro s xs h hc _; exact ⟨h, by simpa using hc, rfl⟩
  | succ k ih =>
    intro s xs h hc hk
    have hne : xs ≠ [] := by
      intro hnil; rw [hnil] at hk; simp at hk
    obtain ⟨ys, y, rfl⟩ : ∃ ys y, xs = ys ++ [y] :=
      ⟨xs.dropLast, xs.getLast hne, (List.dropLast_append_getLast hne).symm⟩
    obtain ⟨r1, r2, r3⟩ := shrink_step_spec y ys h hc
    simp only [List.length_append, List.length_cons, List.length_nil] at hk ⊢
    obtain ⟨i1, i2, i3⟩ := ih _ ys r1 r2 (by omega)
    simp only [resize_shrink]
    refine ⟨i1, ?_, i3.trans r3⟩
    rw [i2]
    congr 1
    rw [List.take_append_of_le_length (by omega)]
    congr 1
    omega

/-- `resize(n, value)` on a well-formed buffer. -/
theorem resize_spec {s : CircularBufferCommon α} (xs : List α) (n : Nat) (v : α) (h : WF s)
    (hc : s.contents = xs.map some) (hb : (n : Int) + 1 < 2 ^ 63) :
    WF (s.resize n v) ∧
      (s.resize n v).contents = (xs.take n ++ List.replicate (n - min n xs.length) v).map some ∧
      (s.resize n v).capacity = if n > s.capacity then n else s.capacity := by
  have hsz := size_of_contents hc
  have hslt := size_lt h
  have hcapeq := capacity_eq h
  generalize hs1 : (if n > s.capacity then s.reserve n else s) = s1
  have hs1' : WF s1 ∧ s1.contents = xs.map some ∧
      s1.capacity = (if n > s.capacity then n else s.capacity) ∧ n ≤ s1.capacity := by
    by_cases hf : n > s.capacity
    · rw [if_pos hf] at hs1 ⊢
      obtain ⟨w1, w2, w3⟩ := reserve_spec h n hf hb
      rw [hs1] at w1 w2 w3
      have := capacity_of_end w1 n w3
      exact ⟨w1, w2.trans hc, this, by omega⟩
    · rw [if_neg hf] at hs1 ⊢
      subst hs1
      exact ⟨h, hc, rfl, by omega⟩
  obtain ⟨w1, w2, w3, w4⟩ := hs1'
  have hsz1 := size_of_contents w2
  unfold resize
  simp only [hs1]
  by_cases he : n = s1.size
  · rw [if_pos he]
    refine ⟨w1, ?_, w3⟩
    rw [w2]
    have : n = xs.length := by omega
    subst this
    simp
  · rw [if_neg he]
    by_cases hg : n > s1.size
    · rw [if_pos hg]
      obtain ⟨g1, g2, g3⟩ := resize_grow_spec v (n - s1.size) s1 xs w1 w2 (by omega)
      refine ⟨g1, ?_, (capacity_congr g3).trans w3⟩
      rw [g2, hsz1, List.take_of_length_le (by omega), Nat.min_eq_right (by omega)]
    · rw [if_neg hg]
      obtain ⟨g1, g2, g3⟩ := resize_shrink_spec (s1.size - n) s1 xs w1 w2 (by omega)
      refine ⟨g1, ?_, (capacity_congr g3).trans w3⟩
      rw [g2, hsz1, Nat.min_eq_left (by omega)]
      have : xs.length - (xs.length - n) = n := by omega
      rw [this]
      simp

/-- The two states left by the non-propagating `swap` of well-formed buffers. -/
theorem swap_eq {a b : CircularBufferCommon α} (ha : WF a) (hb : WF b) :
    swap a b =
      (⟨b.contents ++ List.replicate (b.capacity + 1 - b.size) none, (b.capacity : Int) + 1, 0,
          (b.size : Int), false⟩,
       ⟨a.contents ++ List.replicate (a.size + 1 - a.size) none, (a.capacity : Int) + 1, 0,
          (a.size : Int), false⟩) := by
  have hl := size_lt hb
  have hc := capacity_eq hb
  unfold swap
  dsimp only
  rw [move_data_all ha (a.size + 1) (by omega), move_data_all hb (b.capacity + 1) (by omega)]
  simp only [clear_ub ha, clear_ub hb, contents_length, zero_add]

/-- After `a.swap(b)` each buffer holds the contents and reports the capacity the
other one had. -/
theorem swap_spec {a b : CircularBufferCommon α} (ha : WF a) (hb : WF b) :
    (swap a b).1.contents = b.contents ∧ (swap a b).2.contents = a.contents ∧
      (swap a b).1.capacity = b.capacity ∧ (swap a b).2.capacity = a.capacity ∧
      WF (swap a b).1 := by
  have hla := size_lt ha
  have hlb := size_lt hb
  have hca := capacity_eq ha
  have hcb := capacity_eq hb
  have a2 := ha.2.2.2.1
  have b2 := hb.2.2.2.1
  rw [swap_eq ha hb]
  dsimp only
  have hw : WF (⟨b.contents ++ List.replicate (b.capacity + 1 - b.size) none,
      (b.capacity : Int) + 1, 0, (b.size : Int), false⟩ : CircularBufferCommon α) := by
    refine ⟨rfl, ?_, ?_, ?_, ?_, ?_, ?_, ?_⟩ <;> dsimp only
    · simp only [List.length_append, contents_length, List.length_replicate]
      omega
    all_goals omega
  refine ⟨?_, ?_, ?_, ?_, hw⟩
  · exact contents_front hw b.contents _ rfl (by simp [contents_length]) rfl
  · refine contents_front_c ?_ a.contents _ rfl (by simp [contents_length]) rfl
    refine ⟨?_, ?_, ?_, ?_, ?_, ?_⟩ <;> dsimp only <;> omega
  · simp only [capacity, container_begin_, to_size_type]; omega
  · simp only [capacity, container_begin_, to_size_type]; omega

theorem dec_fields (it : Iterator) :
    it.dec.container_begin_ = it.container_begin_ ∧ it.dec.container_end_ = it.container_end_ ∧
      it.dec.data_begin_ = it.data_begin_ ∧ it.dec.data_end_ = it.data_end_ := by
  unfold Iterator.dec; split_ifs <;> exact ⟨rfl, rfl, rfl, rfl⟩

/-- `--it` from the slot of logical index `k ≥ 1` is the slot of index `k - 1`. -/
theorem dec_current (L b : Int) (it : Iterator) (k : Nat) (hb : it.container_begin_ = 0)
    (he : it.container_end_ = L) (hb0 : 0 ≤ b) (hk : (k : Int) < L) (hk1 : 1 ≤ k)
    (hcur : it.current_ = phys L b k) :
    it.dec.current_ = phys L b ((k - 1 : Nat) : Int) := by
  have hk' : ((k - 1 : Nat) : Int) = (k : Int) - 1 := by omega
  rw [hk']
  unfold Iterator.dec
  by_cases h1 : it.container_begin_ + 1 = it.container_end_
  · omega
  · rw [if_neg h1]
    by_cases h2 : it.current_ ≠ it.container_begin_
    · rw [if_pos h2]
      dsimp only
      rw [hcur] at h2 ⊢
      unfold phys at h2 ⊢; split_ifs at h2 ⊢ <;> omega
    · rw [if_neg h2]
      dsimp only
      rw [hcur] at h2
      unfold phys at h2 ⊢; split_ifs at h2 ⊢ <;> omega

/-- `it + m` from the slot of logical index `k` is the slot of index `k + m`. -/
theorem plus_phys (L b : Int) (it : Iterator) (k m : Nat) (hb : it.container_begin_ = 0)
    (he : it.container_end_ = L) (hb0 : 0 ≤ b) (hb1 : b < L) (hkm : ((k + m : Nat) : Int) < L)
    (hcur : it.current_ = phys L b k) :
    (it.plus m).current_ = phys L b ((k + m : Nat) : Int) := by
  have hpb := phys_bounds L b k hb0 hb1 (by omega) (by push_cast at hkm; omega)
  rw [plus_current it m hb (by rw [he, hcur]; exact hpb.2) (by omega)
    (by rw [he]; push_cast at hkm; omega), he, hcur]
  push_cast at hkm ⊢
  unfold phys; split_ifs <;> omega

/-- The loop of the single-value `insert` moves the logical range `[i, idx)` one
place towards the back. -/
theorem insert_shift_spec {s : CircularBufferCommon α} (h : CursorsOK s)
    (hlen : s.container_end_ = s.slab.length) (it : Iterator) (i : Nat)
    (hit : it.current_ = phys s.container_end_ s.data_begin_ i) :
    ∀ (d fuel idx : Nat) (last : Iterator) (s0 : CircularBufferCommon α), SameFrame s s0 →
      last.container_begin_ = 0 → last.container_end_ = s.container_end_ →
      last.current_ = phys s.container_end_ s.data_begin_ idx →
      i + d = idx → (idx : Int) < s.container_end_ → d ≤ fuel →
      SameFrame s (insert_shift it fuel last s0) ∧
        ∀ k : Nat, (k : Int) < s.container_end_ →
          (insert_shift it fuel last s0).deref (phys s.container_end_ s.data_begin_ k) =
            if i < k ∧ k ≤ idx
              then s0.deref (phys s.container_end_ s.data_begin_ ((k - 1 : Nat) : Int))
              else s0.deref (phys s.container_end_ s.data_begin_ k) := by
  obtain ⟨h1, h2, h3, h4, h5, h6⟩ := h
  intro d
  induction d with
  | zero =>
    intro fuel idx last s0 f _ _ hcur hd _ _
    have heq : last.current_ = it.current_ := by
      rw [hcur, hit, show idx = i by omega]
    have hr : insert_shift it fuel last s0 = s0 := by
      cases fuel <;> simp [insert_shift, heq]
    rw [hr]
    refine ⟨f, fun k _ => ?_⟩
    have hA : ¬ (i < k ∧ k ≤ idx) := by omega
    rw [if_neg hA]
  | succ d ih =>
    intro fuel idx last s0 f hb he hcur hd hidx hfuel
    have hne : last.current_ ≠ it.current_ := by
      rw [hcur, hit]
      intro hp
      have := (phys_inj _ _ _ _ (by omega) (by omega) (by omega) (by omega)).1 hp
      omega
    obtain ⟨fuel', rfl⟩ : ∃ r, fuel = r + 1 := ⟨fuel - 1, by omega⟩
    have hpb := phys_bounds s.container_end_ s.data_begin_ idx h3 h4 (by omega) (by omega)
    have hpbm := phys_bounds s.container_end_ s.data_begin_ ((idx - 1 : Nat) : Int) h3 h4
      (by omega) (by omega)
    have hdec := dec_current s.container_end_ s.data_begin_ last idx hb he h3 hidx (by omega)
      hcur
    have hmin := minus_current s.container_end_ s.data_begin_ last idx 1 hb he h3 h4 hidx
      (by omega) hcur
    obtain ⟨i1, i2, -, -⟩ := dec_fields last
    obtain ⟨g, gd⟩ := f.move_assign_frame last.current_ (last.minus ((1 : Nat) : Int)).current_
      (by rw [hcur]; exact hpb.1) (by rw [hcur]; omega) (by rw [hmin]; exact hpbm.1)
      (by rw [hmin]; omega)
    obtain ⟨r2, r3⟩ := ih fuel' (idx - 1) last.dec _ g (i1.trans hb) (i2.trans he) hdec
      (by omega) (by omega) (by omega)
    simp only [insert_shift, if_neg hne]
    refine ⟨r2, fun k hk => ?_⟩
    have hcast : (last.minus 1) = last.minus ((1 : Nat) : Int) := rfl
    rw [hcast, r3 k hk, gd, gd, hcur, hmin]
    have hinj : ∀ a c : Nat, (a : Int) < s.container_end_ → (c : Int) < s.container_end_ →
        a ≠ c → phys s.container_end_ s.data_begin_ (a : Int) ≠
          phys s.container_end_ s.data_begin_ (c : Int) := by
      intro a c ha hc hac hp
      have := (phys_inj _ _ _ _ (by omega) ha (by omega) hc).1 hp
      omega
    by_cases hk1 : i < k ∧ k ≤ idx - 1
    · have hA : i < k ∧ k ≤ idx := by omega
      rw [if_pos hk1, if_pos hA, if_neg (hinj (k - 1) idx (by omega) (by omega) (by omega))]
    · rw [if_neg hk1]
      by_cases hk2 : k = idx
      · subst hk2
        have hA : i < k ∧ k ≤ k := by omega
        rw [if_pos rfl, if_pos hA]
      · have hA : ¬ (i < k ∧ k ≤ idx) := by omega
        rw [if_neg (hinj k idx hk (by omega) hk2), if_neg hA]

/-- Reading the list `take i xs ++ ys ++ drop i xs`. -/
theorem getElem?_insert_list (xs ys : List α) (i k : Nat) (hi : i ≤ xs.length) :
    (xs.take i ++ ys ++ xs.drop i)[k]? =
      if k < i then xs[k]? else if k < i + ys.length then ys[k - i]? else xs[k - ys.length]? := by
  have hl : (xs.take i).length = i := by simp [List.length_take]; omega
  by_cases h1 : k < i
  · rw [if_pos h1, List.append_assoc, List.getElem?_append_left (by omega), List.getElem?_take,
      if_pos h1]
  · rw [if_neg h1, List.append_assoc, List.getElem?_append_right (by omega), hl]
    by_cases h2 : k < i + ys.length
    · rw [if_pos h2, List.getElem?_append_left (by omega)]
    · rw [if_neg h2, List.getElem?_append_right (by omega), List.getElem?_drop]
      congr 1; omega

/-- The single-value `insert` strictly inside the live range of a buffer that is
not full. -/
theorem insert_middle_spec {s : CircularBufferCommon α} (xs : List α) (i : Nat) (v : α)
    (h : WF s) (hc : s.contents = xs.map some) (hnf : s.size < s.capacity) (hi0 : 0 < i)
    (hi : i < s.size) (hint : (i : Int) < 2 ^ 31) :
    WF (s.insert_middle i v).2 ∧
      (s.insert_middle i v).2.contents = (xs.take i ++ [v] ++ xs.drop i).map some ∧
      (s.insert_middle i v).2.container_end_ = s.container_end_ := by
  have hs := size_eq h
  have hcap := capacity_eq h
  have hwf := h
  obtain ⟨q1, q2, q3, -⟩ := cbegin_plus h i (by omega)
  obtain ⟨hub, hlen, h1, h2, h3, h4, h5, h6⟩ := h
  have hend : s.data_end_ = phys s.container_end_ s.data_begin_ s.size :=
    ((phys_eq_end hwf s.size (le_refl _)).2 rfl).symm
  rw [contents_eq_iff] at hc
  obtain ⟨hsz, hidx⟩ := hc
  -- the iterator `--end()`
  have hlast := dec_current s.container_end_ s.data_begin_ s.cend s.size rfl rfl h3 (by omega)
    (by omega) hend
  obtain ⟨l1, l2, -, -⟩ := dec_fields s.cend
  have hpl := phys_bounds s.container_end_ s.data_begin_ ((s.size - 1 : Nat) : Int) h3 h4
    (by omega) (by omega)
  have hpi := phys_bounds s.container_end_ s.data_begin_ i h3 h4 (by omega) (by omega)
  -- the element constructed at `data_end_`
  obtain ⟨g1, gd1⟩ := (SameFrame.refl s).move_assign_frame s.data_end_ s.cend.dec.current_ h5
    (by omega) (by rw [hlast]; exact hpl.1) (by rw [hlast]; omega)
  generalize hs1 : s.move_assign s.data_end_ s.cend.dec.current_ = s1 at g1 gd1
  obtain ⟨f1, f2, f3, f4, f5⟩ := g1
  generalize hne : (if s.data_end_ + 1 = s.container_end_ then (0 : Int) else s.data_end_ + 1)
    = ne
  have hne0 : 0 ≤ ne := by rw [← hne]; split_ifs <;> omega
  have hne1 : ne < s.container_end_ := by rw [← hne]; split_ifs <;> omega
  have hnephys : ne = phys s.container_end_ s.data_begin_ ((s.size + 1 : Nat) : Int) := by
    rw [← hne]; unfold phys; push_cast; split_ifs at hs ⊢ <;> omega
  have hs2 : (if s1.data_end_ + 1 = s1.container_end_ then
        { s1 with data_end_ := s1.container_begin_ }
      else { s1 with data_end_ := s1.data_end_ + 1 }) =
      ⟨s1.slab, s.container_end_, s.data_begin_, ne, s1.ub⟩ := by
    subst hne
    rw [f1, f3]
    unfold container_begin_
    by_cases h0 : s.data_end_ + 1 = s.container_end_
    · simp only [if_pos h0, f1, f2]
    · simp only [if_neg h0, f1, f2]
  generalize hs2def : (⟨s1.slab, s.container_end_, s.data_begin_, ne, s1.ub⟩ :
    CircularBufferCommon α) = s2 at hs2
  have c2 : CursorsOK s2 := by
    rw [← hs2def]; exact ⟨h1, h2, h3, h4, hne0, hne1⟩
  have e2L : s2.container_end_ = s.container_end_ := by rw [← hs2def]
  have e2b : s2.data_begin_ = s.data_begin_ := by rw [← hs2def]
  have e2len : s2.container_end_ = s2.slab.length := by
    rw [← hs2def]; dsimp only; rw [f4]; exact hlen
  have e2d : ∀ q, s2.deref q = s1.deref q := by
    intro q; rw [← hs2def]; exact deref_congr rfl q
  -- the loop
  obtain ⟨r2, r3⟩ := insert_shift_spec c2 e2len (s.cbegin.plus i) i (by rw [e2L, e2b]; exact q1)
    (s.size - 1 - i) s2.container_end_.toNat (s.size - 1) s.cend.dec s2 (SameFrame.refl s2) l1
    (l2.trans e2L.symm) (by rw [e2L, e2b]; exact hlast) (by omega) (by rw [e2L]; omega)
    (by rw [e2L]; omega)
  generalize hs3 : insert_shift (s.cbegin.plus i) s2.container_end_.toNat s.cend.dec s2 = s3
    at r2 r3
  obtain ⟨t1, t2, t3, t4, t5⟩ := r2
  have hres : (s.insert_middle i v).2 = s3.store (s.cbegin.plus i).current_ (some v) := by
    unfold insert_middle
    dsimp only
    rw [to_int_natCast i hint, hs1, hs2, hs3]
  rw [hres, q1]
  generalize hs4 : s3.store (phys s.container_end_ s.data_begin_ i) (some v) = s4
  have e1 : s4.container_end_ = s.container_end_ := by rw [← hs4, store_container_end, t1, e2L]
  have e2 : s4.data_begin_ = s.data_begin_ := by rw [← hs4, store_data_begin, t2, e2b]
  have e3 : s4.data_end_ = ne := by rw [← hs4, store_data_end, t3, ← hs2def]
  have e4 : s4.slab = (s3.store (phys s.container_end_ s.data_begin_ i) (some v)).slab := by
    rw [← hs4]
  have hlen3 : (s3.slab.length : Int) = s.container_end_ := by rw [t4, ← e2len, e2L]
  have hwf' : WF s4 := by
    refine ⟨?_, ?_, ?_, ?_, ?_, ?_, ?_, ?_⟩
    · rw [← hs4, store_ub _ _ _ hpi.1 (by omega), t5, ← hs2def]
      dsimp only
      rw [f5]; exact hub
    · rw [e1, ← hs4, store_length]; exact hlen3.symm
    · rw [e1]; exact h1
    · rw [e1]; exact h2
    · rw [e2]; exact h3
    · rw [e1, e2]; exact h4
    · rw [e3]; exact hne0
    · rw [e1, e3]; exact hne1
  refine ⟨hwf', ?_, e1⟩
  have hsize' : s4.size = s.size + 1 :=
    size_of_end hwf' _ (by rw [e1]; push_cast; omega) (by rw [e1, e2, e3]; exact hnephys)
  rw [contents_eq_iff]
  have hlen' : (xs.take i ++ [v] ++ xs.drop i).length = s.size + 1 := by
    simp only [List.length_append, List.length_take, List.length_drop, List.length_cons,
      List.length_nil]
    omega
  refine ⟨by rw [hsize', hlen'], fun k hk => ?_⟩
  rw [hlen'] at hk
  rw [index_of hwf' e1 e2 e4 k (by omega), deref_store _ _ _ _ hpi.1 (by omega),
    getElem?_insert_list xs [v] i k (by omega)]
  have hinj : ∀ a c : Nat, (a : Int) < s.container_end_ → (c : Int) < s.container_end_ →
      a ≠ c → phys s.container_end_ s.data_begin_ (a : Int) ≠
        phys s.container_end_ s.data_begin_ (c : Int) := by
    intro a c ha hc hac hp
    have := (phys_inj _ _ _ _ (by omega) ha (by omega) hc).1 hp
    omega
  have hold : ∀ m : Nat, m < s.size →
      s1.deref (phys s.container_end_ s.data_begin_ (m : Int)) = xs[m]? := by
    intro m hm
    rw [gd1, hend, if_neg (hinj m s.size (by omega) (by omega) (by omega)),
      ← index_eq hwf m (by omega), hidx m (by omega)]
  by_cases hki : k = i
  · subst hki
    rw [if_pos rfl, if_neg (by omega), if_pos (by simp)]
    simp
  · rw [if_neg (hinj k i (by omega) (by omega) hki), ← e2L, ← e2b, r3 k (by rw [e2L]; omega),
      e2L, e2b]
    by_cases hk1 : k < i
    · have hA : ¬ (i < k ∧ k ≤ s.size - 1) := by omega
      rw [if_neg hA, if_pos hk1, e2d, hold k (by omega)]
    · have hB : ¬ (k < i + [v].length) := by simp; omega
      rw [if_neg hk1, if_neg hB]
      simp only [List.length_cons, List.length_nil]
      by_cases hk2 : k ≤ s.size - 1
      · have hA : i < k ∧ k ≤ s.size - 1 := by omega
        rw [if_pos hA, e2d, hold (k - 1) (by omega)]
      · have hA : ¬ (i < k ∧ k ≤ s.size - 1) := by omega
        have hks : k = s.size := by omega
        rw [if_neg hA, e2d, hks, gd1, hend, if_pos rfl, hlast,
          ← index_eq hwf (s.size - 1) (by omega), hidx (s.size - 1) (by omega)]

/-- The three branches of the single-value `insert` once the buffer has room. -/
theorem insert_branches_spec {s1 : CircularBufferCommon α} (xs : List α) (i : Nat) (v : α)
    (h : WF s1) (hc : s1.contents = xs.map some) (hnf : s1.size < s1.capacity)
    (hi : i ≤ s1.size) (hint : (s1.size : Int) < 2 ^ 31) :
    ∃ r, (if i = s1.size then
          Except.ok ((CircularBuffer.push_back s1 v).cend.dec, CircularBuffer.push_back s1 v)
        else if i = 0 then
          Except.ok ((CircularBuffer.push_front s1 v).cbegin, CircularBuffer.push_front s1 v)
        else (Except.ok (s1.insert_middle i v) :
          Except Exception (Iterator × CircularBufferCommon α))) = Except.ok r ∧
      WF r.2 ∧ r.2.contents = (xs.take i ++ [v] ++ xs.drop i).map some ∧
      r.2.container_end_ = s1.container_end_ := by
  have hsz := size_of_contents hc
  by_cases h1 : i = s1.size
  · rw [if_pos h1]
    obtain ⟨p1, p2, p3⟩ := CircularBuffer.push_back_not_full v xs h hc hnf
    refine ⟨_, rfl, p1, ?_, p3⟩
    rw [p2, h1, hsz]
    simp
  · rw [if_neg h1]
    by_cases h2 : i = 0
    · rw [if_pos h2]
      obtain ⟨p1, p2, p3⟩ := CircularBuffer.push_front_not_full v xs h hc hnf
      refine ⟨_, rfl, p1, ?_, p3⟩
      rw [p2, h2]
      simp
    · rw [if_neg h2]
      obtain ⟨p1, p2, p3⟩ := insert_middle_spec xs i v h hc hnf (by omega) (by omega) (by omega)
      exact ⟨_, rfl, p1, p2, p3⟩

/-- The checks at the head of every `insert` pass for `cbegin() + i`, `i ≤ size()`. -/
theorem insert_checks {s : CircularBufferCommon α} (h : WF s) (i : Nat) (hi : i ≤ s.size) :
    ¬ ((s.cbegin.plus i).current_ < s.container_begin_ ∨
        (s.cbegin.plus i).current_ ≥ s.container_end_) ∧
      (s.cbegin.plus i).difference s.cbegin = Except.ok (i : Int) ∧
      to_size_type (i : Int) = i ∧ ¬ (i > s.size) := by
  have hlt := size_lt h
  obtain ⟨q1, -, -, q4⟩ := cbegin_plus h i hi
  have hpb := phys_bounds s.container_end_ s.data_begin_ i h.2.2.2.2.1 h.2.2.2.2.2.1
    (by omega) (by omega)
  have h2 := h.2.2.2.1
  refine ⟨?_, q4, to_size_type_natCast i (by omega), by omega⟩
  rw [q1]; unfold container_begin_; omega

/-- `CircularBuffer::insert(p, value)` at `p = cbegin() + i`, in a buffer whose size
is in the range of `int`. -/
theorem CircularBuffer.insert_spec {s : CircularBufferCommon α} (xs : List α) (i : Nat) (v : α)
    (h : WF s) (hc : s.contents = xs.map some) (hi : i ≤ s.size)
    (hb : (s.size : Int) < 2 ^ 31) :
    ∃ r, CircularBuffer.insert s (s.cbegin.plus i) v = Except.ok r ∧ WF r.2 ∧
      r.2.contents = (xs.take i ++ [v] ++ xs.drop i).map some := by
  obtain ⟨c1, c2, c3, c4⟩ := insert_checks h i hi
  have hcap := capacity_eq h
  have hmod : (s.size + 1) % 2 ^ 64 = s.size + 1 := by omega
  generalize hs1 : s.reserve (s.size + 1) = s1
  have hs1' : WF s1 ∧ s1.contents = xs.map some ∧ s1.size = s.size ∧ s1.size < s1.capacity := by
    by_cases hf : s.capacity < s.size + 1
    · obtain ⟨w1, w2, w3⟩ := reserve_spec h (s.size + 1) hf (by push_cast; omega)
      rw [hs1] at w1 w2 w3
      have hcs := capacity_of_end w1 _ w3
      have hsz1 := size_of_contents (w2.trans hc)
      have hsz := size_of_contents hc
      exact ⟨w1, w2.trans hc, by omega, by omega⟩
    · rw [reserve_noop s _ (by omega)] at hs1
      subst hs1
      exact ⟨h, hc, rfl, by omega⟩
  obtain ⟨w1, w2, w3, w4⟩ := hs1'
  obtain ⟨r, hr, r1, r2, -⟩ := insert_branches_spec xs i v w1 w2 w4 (by omega) (by omega)
  refine ⟨r, ?_, r1, r2⟩
  unfold CircularBuffer.insert
  rw [if_neg c1, c2]
  dsimp only
  rw [c3, if_neg c4, hmod, hs1]
  exact hr

/-- `CircularBufferExt::insert(p, value)` at `p = cbegin() + i`, in a buffer whose
size is in the range of `int`. -/
theorem CircularBufferExt.ext_insert_spec {s : CircularBufferCommon α} (xs : List α) (i : Nat)
    (v : α) (h : WF s) (hc : s.contents = xs.map some) (hi : i ≤ s.size)
    (hb : 2 * (s.capacity : Int) + 2 < 2 ^ 63) (hint : (s.size : Int) < 2 ^ 31) :
    ∃ r, CircularBufferExt.insert s (s.cbegin.plus i) v = Except.ok r ∧ WF r.2 ∧
      r.2.contents = (xs.take i ++ [v] ++ xs.drop i).map some := by
  obtain ⟨c1, c2, c3, c4⟩ := insert_checks h i hi
  have hcap := capacity_eq h
  have hslt := size_lt h
  generalize hs1 : (if s.size = s.capacity then CircularBufferExt.expansion s s.capacity else s)
    = s1
  have hs1' : WF s1 ∧ s1.contents = xs.map some ∧ s1.size = s.size ∧ s1.size < s1.capacity := by
    have hsz := size_of_contents hc
    by_cases hf : s.size = s.capacity
    · rw [if_pos hf] at hs1
      obtain ⟨w1, w2, w3⟩ := expansion_spec h hb
      rw [hs1] at w1 w2 w3
      have hsz1 := size_of_contents (w2.trans hc)
      exact ⟨w1, w2.trans hc, by omega, by omega⟩
    · rw [if_neg hf] at hs1
      subst hs1
      exact ⟨h, hc, rfl, by omega⟩
  obtain ⟨w1, w2, w3, w4⟩ := hs1'
  obtain ⟨r, hr, r1, r2, -⟩ := insert_branches_spec xs i v w1 w2 w4 (by omega) (by omega)
  refine ⟨r, ?_, r1, r2⟩
  have hnf : (if s1.size = s1.capacity then CircularBufferExt.expansion s1 s1.capacity else s1)
      = s1 := by rw [if_neg (by omega)]
  unfold CircularBufferExt.insert
  rw [if_neg c1, c2]
  dsimp only
  rw [c3, if_neg c4, hs1, ext_push_back_tail v hnf w1 w4, ext_push_front_tail v hnf w1 w4]
  exact hr

/-- A loop of `push_back` calls that fits the capacity appends the source in order. -/
theorem foldl_push_back_spec (il : List α) :
    ∀ (s : CircularBufferCommon α) (xs : List α), WF s → s.contents = xs.map some →
      xs.length + il.length ≤ s.capacity →
      WF (il.foldl CircularBuffer.push_back s) ∧
        (il.foldl CircularBuffer.push_back s).contents = (xs ++ il).map some ∧
        (il.foldl CircularBuffer.push_back s).container_end_ = s.container_end_ ∧
        il.foldl CircularBufferExt.push_back s = il.foldl CircularBuffer.push_back s := by
  induction il with
  | nil => intro s xs h hc _; exact ⟨h, by simpa using hc, rfl, rfl⟩
  | cons v il ih =>
    intro s xs h hc hn
    simp only [List.length_cons] at hn
    have hsz := size_of_contents hc
    obtain ⟨h1, h2, h3⟩ := CircularBuffer.push_back_not_full v xs h hc (by omega)
    obtain ⟨i1, i2, i3, i4⟩ := ih (CircularBuffer.push_back s v) (xs ++ [v]) h1 h2
      (by rw [capacity_congr h3]; simp; omega)
    have hnf : (if s.size = s.capacity then CircularBufferExt.expansion s s.capacity else s)
        = s := by rw [if_neg (by omega)]
    simp only [List.foldl_cons]
    rw [ext_push_back_tail v hnf h (by omega)]
    refine ⟨i1, ?_, i3.trans h3, i4⟩
    rw [i2, List.append_assoc]
    rfl

/-- A loop of `push_front` calls that fits the capacity prepends the source in
reverse order. -/
theorem foldl_push_front_spec (il : List α) :
    ∀ (s : CircularBufferCommon α) (xs : List α), WF s → s.contents = xs.map some →
      xs.length + il.length ≤ s.capacity →
      WF (il.foldl CircularBuffer.push_front s) ∧
        (il.foldl CircularBuffer.push_front s).contents = (il.reverse ++ xs).map some ∧
        (il.foldl CircularBuffer.push_front s).container_end_ = s.container_end_ ∧
        il.foldl CircularBufferExt.push_front s = il.foldl CircularBuffer.push_front s := by
  induction il with
  | nil => intro s xs h hc _; exact ⟨h, by simpa using hc, rfl, rfl⟩
  | cons v il ih =>
    intro s xs h hc hn
    simp only [List.length_cons] at hn
    have hsz := size_of_contents hc
    obtain ⟨h1, h2, h3⟩ := CircularBuffer.push_front_not_full v xs h hc (by omega)
    obtain ⟨i1, i2, i3, i4⟩ := ih (CircularBuffer.push_front s v) (v :: xs) h1 h2
      (by rw [capacity_congr h3]; simp; omega)
    have hnf : (if s.size = s.capacity then CircularBufferExt.expansion s s.capacity else s)
        = s := by rw [if_neg (by omega)]
    simp only [List.foldl_cons]
    rw [ext_push_front_tail v hnf h (by omega)]
    refine ⟨i1, ?_, i3.trans h3, i4⟩
    rw [i2, List.reverse_cons, List.append_assoc]
    rfl

/-- The gap loop of the bulk inserts moves the logical range `[i, idx)` up by `n`
places. -/
theorem insert_open_gap_spec {s : CircularBufferCommon α} (h : CursorsOK s)
    (hlen : s.container_end_ = s.slab.length) (n : Nat) (to_insert : Iterator) (i : Nat)
    (hit : to_insert.current_ = phys s.container_end_ s.data_begin_ i)
    (hint : (n : Int) < 2 ^ 31) :
    ∀ (d fuel idx : Nat) (it : Iterator) (s0 : CircularBufferCommon α), SameFrame s s0 →
      it.container_begin_ = 0 → it.container_end_ = s.container_end_ →
      it.current_ = phys s.container_end_ s.data_begin_ idx →
      i + d = idx → ((idx + n : Nat) : Int) < s.container_end_ → d ≤ fuel →
      SameFrame s (insert_open_gap n to_insert fuel it s0) ∧
        ∀ k : Nat, (k : Int) < s.container_end_ →
          (insert_open_gap n to_insert fuel it s0).deref
              (phys s.container_end_ s.data_begin_ k) =
            if i + n ≤ k ∧ k < idx + n
              then s0.deref (phys s.container_end_ s.data_begin_ ((k - n : Nat) : Int))
              else s0.deref (phys s.container_end_ s.data_begin_ k) := by
  obtain ⟨h1, h2, h3, h4, h5, h6⟩ := h
  intro d
  induction d with
  | zero =>
    intro fuel idx it s0 f _ _ hcur hd _ _
    have heq : it.current_ = to_insert.current_ := by
      rw [hcur, hit, show idx = i by omega]
    have hr : insert_open_gap n to_insert fuel it s0 = s0 := by
      cases fuel <;> simp [insert_open_gap, heq]
    rw [hr]
    refine ⟨f, fun k _ => ?_⟩
    have hA : ¬ (i + n ≤ k ∧ k < idx + n) := by omega
    rw [if_neg hA]
  | succ d ih =>
    intro fuel idx it s0 f hb he hcur hd hidx hfuel
    push_cast at hidx
    have hne : it.current_ ≠ to_insert.current_ := by
      rw [hcur, hit]
      intro hp
      have := (phys_inj _ _ _ _ (by omega) (by omega) (by omega) (by omega)).1 hp
      omega
    obtain ⟨fuel', rfl⟩ : ∃ r, fuel = r + 1 := ⟨fuel - 1, by omega⟩
    have hpbm := phys_bounds s.container_end_ s.data_begin_ ((idx - 1 : Nat) : Int) h3 h4
      (by omega) (by omega)
    have hpbw := phys_bounds s.container_end_ s.data_begin_ ((idx + n - 1 : Nat) : Int) h3 h4
      (by omega) (by omega)
    have hdec := dec_current s.container_end_ s.data_begin_ it idx hb he h3 (by omega)
      (by omega) hcur
    have hmin := minus_current s.container_end_ s.data_begin_ it idx 1 hb he h3 h4 (by omega)
      (by omega) hcur
    have hpl := plus_phys s.container_end_ s.data_begin_ it idx n hb he h3 h4
      (by push_cast; omega) hcur
    obtain ⟨p1, p2, -, -⟩ := plus_fields it n
    have hdst := minus_current s.container_end_ s.data_begin_ (it.plus n) (idx + n) 1
      (p1.trans hb) (p2.trans he) h3 h4 (by push_cast; omega) (by omega) hpl
    obtain ⟨i1, i2, -, -⟩ := dec_fields it
    obtain ⟨g, gd⟩ := f.move_assign_frame ((it.plus n).minus ((1 : Nat) : Int)).current_
      (it.minus ((1 : Nat) : Int)).current_
      (by rw [hdst]; exact hpbw.1) (by rw [hdst]; omega) (by rw [hmin]; exact hpbm.1)
      (by rw [hmin]; omega)
    obtain ⟨r2, r3⟩ := ih fuel' (idx - 1) it.dec _ g (i1.trans hb) (i2.trans he) hdec
      (by omega) (by push_cast; omega) (by omega)
    simp only [insert_open_gap, if_neg hne, to_int_natCast n hint]
    refine ⟨r2, fun k hk => ?_⟩
    have hcast : (it.minus 1) = it.minus ((1 : Nat) : Int) := rfl
    have hcast2 : ((it.plus n).minus 1) = (it.plus n).minus ((1 : Nat) : Int) := rfl
    rw [hcast, hcast2, r3 k hk, gd, gd, hdst, hmin]
    have hinj : ∀ a c : Nat, (a : Int) < s.container_end_ → (c : Int) < s.container_end_ →
        a ≠ c → phys s.container_end_ s.data_begin_ (a : Int) ≠
          phys s.container_end_ s.data_begin_ (c : Int) := by
      intro a c ha hc hac hp
      have := (phys_inj _ _ _ _ (by omega) ha (by omega) hc).1 hp
      omega
    by_cases hk1 : i + n ≤ k ∧ k < idx - 1 + n
    · have hA : i + n ≤ k ∧ k < idx + n := by omega
      rw [if_pos hk1, if_pos hA,
        if_neg (hinj (k - n) (idx + n - 1) (by omega) (by omega) (by omega))]
    · rw [if_neg hk1]
      by_cases hk2 : k = idx + n - 1
      · subst hk2
        have hA : i + n ≤ idx + n - 1 ∧ idx + n - 1 < idx + n := by omega
        have hB : idx + n - 1 - n = idx - 1 := by omega
        rw [if_pos rfl, if_pos hA, hB]
      · have hA : ¬ (i + n ≤ k ∧ k < idx + n) := by omega
        rw [if_neg (hinj k (idx + n - 1) hk (by omega) hk2), if_neg hA]

/-- The filling loop of the bulk inserts writes the source into the logical range
that starts `k` places after `to_insert`. -/
theorem insert_fill_spec {s : CircularBufferCommon α} (h : CursorsOK s)
    (hlen : s.container_end_ = s.slab.length) (to_insert : Iterator) (i : Nat)
    (hb : to_insert.container_begin_ = 0) (he : to_insert.container_end_ = s.container_end_)
    (hit : to_insert.current_ = phys s.container_end_ s.data_begin_ i) :
    ∀ (il : List α) (k : Nat) (s0 : CircularBufferCommon α), SameFrame s s0 →
      ((i + k + il.length : Nat) : Int) < s.container_end_ →
      ((k + il.length : Nat) : Int) ≤ 2 ^ 31 →
      SameFrame s (insert_fill to_insert il k s0) ∧
        ∀ t : Nat, (t : Int) < s.container_end_ →
          (insert_fill to_insert il k s0).deref (phys s.container_end_ s.data_begin_ t) =
            if i + k ≤ t ∧ t < i + k + il.length then (il[t - (i + k)]?)
            else s0.deref (phys s.container_end_ s.data_begin_ t) := by
  obtain ⟨h1, h2, h3, h4, h5, h6⟩ := h
  intro il
  induction il with
  | nil =>
    intro k s0 f _ _
    refine ⟨f, fun t _ => ?_⟩
    have hA : ¬ (i + k ≤ t ∧ t < i + k + ([] : List α).length) := by simp
    rw [if_neg hA]
    rfl
  | cons v il ih =>
    intro k s0 f hbound hint
    simp only [List.length_cons] at hbound hint ⊢
    push_cast at hbound hint
    have hkint : (k : Int) < 2 ^ 31 := by omega
    have hpl := plus_phys s.container_end_ s.data_begin_ to_insert i k hb he h3 h4
      (by push_cast; omega) hit
    have hpb := phys_bounds s.container_end_ s.data_begin_ ((i + k : Nat) : Int) h3 h4
      (by omega) (by push_cast; omega)
    have g : SameFrame s (s0.construct (to_insert.plus k).current_ v) :=
      f.store_frame _ (some v) (by rw [hpl]; exact hpb.1) (by rw [hpl]; omega)
    obtain ⟨r2, r3⟩ := ih (k + 1) _ g (by push_cast; omega) (by push_cast; omega)
    simp only [insert_fill, to_int_natCast k hkint]
    refine ⟨r2, fun t ht => ?_⟩
    rw [r3 t ht]
    unfold construct
    rw [deref_store _ _ _ _ (by rw [hpl]; exact hpb.1) (by rw [f.2.2.2.1, hpl]; omega), hpl]
    by_cases ht1 : i + (k + 1) ≤ t ∧ t < i + (k + 1) + il.length
    · have hA : i + k ≤ t ∧ t < i + k + (il.length + 1) := by omega
      rw [if_pos ht1, if_pos hA]
      have : t - (i + k) = (t - (i + (k + 1))) + 1 := by omega
      rw [this, List.getElem?_cons_succ]
    · rw [if_neg ht1]
      by_cases ht2 : t = i + k
      · subst ht2
        have hA : i + k ≤ i + k ∧ i + k < i + k + (il.length + 1) := by omega
        rw [if_pos rfl, if_pos hA]
        simp
      · have hA : ¬ (i + k ≤ t ∧ t < i + k + (il.length + 1)) := by omega
        have hB : phys s.container_end_ s.data_begin_ (t : Int) ≠
            phys s.container_end_ s.data_begin_ ((i + k : Nat) : Int) := by
          intro hp
          have := (phys_inj _ _ _ _ (by omega) (by omega) (by omega)
            (by push_cast; omega)).1 hp
          omega
        rw [if_neg hB, if_neg hA]

/-- The bulk insert strictly inside the live range of a buffer with room for the
source. -/
theorem insert_bulk_middle_spec {s : CircularBufferCommon α} (xs il : List α) (i : Nat)
    (h : WF s) (hc : s.contents = xs.map some) (hroom : s.size + il.length ≤ s.capacity)
    (hi0 : 0 < i) (hi : i < s.size) (hint : (s.size : Int) + il.length < 2 ^ 31) :
    WF (s.insert_bulk_middle i il).2 ∧
      (s.insert_bulk_middle i il).2.contents = (xs.take i ++ il ++ xs.drop i).map some ∧
      (s.insert_bulk_middle i il).2.container_end_ = s.container_end_ := by
  have hs := size_eq h
  have hcap := capacity_eq h
  have hwf := h
  obtain ⟨hub, hlen, h1, h2, h3, h4, h5, h6⟩ := h
  have hend : s.data_end_ = phys s.container_end_ s.data_begin_ s.size :=
    ((phys_eq_end hwf s.size (le_refl _)).2 rfl).symm
  rw [contents_eq_iff] at hc
  obtain ⟨hsz, hidx⟩ := hc
  generalize hn : il.length = n at hroom hint
  have hnint : (n : Int) < 2 ^ 31 := by omega
  have hiint : (i : Int) < 2 ^ 31 := by omega
  generalize hne : (if s.data_end_ + (n : Int) ≥ s.container_end_
    then (0 : Int) + ((s.data_end_ + n) - s.container_end_) else s.data_end_ + n) = ne
  have hne0 : 0 ≤ ne := by rw [← hne]; split_ifs <;> omega
  have hne1 : ne < s.container_end_ := by rw [← hne]; split_ifs at hs ⊢ <;> omega
  have hnephys : ne = phys s.container_end_ s.data_begin_ ((s.size + n : Nat) : Int) := by
    rw [← hne]; unfold phys; push_cast; split_ifs at hs ⊢ <;> omega
  have hs1 : (if s.data_end_ + (n : Int) ≥ s.container_end_ then
        { s with data_end_ := s.container_begin_ + ((s.data_end_ + n) - s.container_end_) }
      else { s with data_end_ := s.data_end_ + n }) =
      ⟨s.slab, s.container_end_, s.data_begin_, ne, s.ub⟩ := by
    subst hne
    unfold container_begin_
    by_cases h0 : s.data_end_ + (n : Int) ≥ s.container_end_
    · simp only [if_pos h0]
    · simp only [if_neg h0]
  generalize hs1def : (⟨s.slab, s.container_end_, s.data_begin_, ne, s.ub⟩ :
    CircularBufferCommon α) = s1 at hs1
  have c1 : CursorsOK s1 := by
    rw [← hs1def]; exact ⟨h1, h2, h3, h4, hne0, hne1⟩
  have e1L : s1.container_end_ = s.container_end_ := by rw [← hs1def]
  have e1b : s1.data_begin_ = s.data_begin_ := by rw [← hs1def]
  have e1e : s1.data_end_ = ne := by rw [← hs1def]
  have e1u : s1.ub = s.ub := by rw [← hs1def]
  have e1len : s1.container_end_ = s1.slab.length := by
    rw [← hs1def]; exact hlen
  have e1d : ∀ q, s1.deref q = s.deref q := by
    intro q; rw [← hs1def]; exact deref_congr rfl q
  -- the iterators
  obtain ⟨p1, p2, -, -⟩ := plus_fields s1.cbegin i
  have hti : (s1.cbegin.plus i).current_ = phys s1.container_end_ s1.data_begin_ i :=
    plus_current s1.cbegin i rfl (by change s1.data_begin_ < s1.container_end_; rw [e1L, e1b]; exact h4)
      (by omega) (by change (i : Int) < s1.container_end_; rw [e1L]; omega)
  obtain ⟨m1, m2, -, -⟩ := minus_fields s1.cend n
  have hstart := minus_current s1.container_end_ s1.data_begin_ s1.cend (s.size + n) n rfl rfl
    (by rw [e1b]; exact h3) (by rw [e1L, e1b]; exact h4) (by rw [e1L]; push_cast; omega)
    (by omega) (by change s1.data_end_ = _; rw [e1e, e1L, e1b]; exact hnephys)
  have hsn : s.size + n - n = s.size := by omega
  rw [hsn] at hstart
  -- the two loops
  obtain ⟨r2, r3⟩ := insert_open_gap_spec c1 e1len n (s1.cbegin.plus i) i hti hnint (s.size - i)
    s1.container_end_.toNat s.size (s1.cend.minus n) s1 (SameFrame.refl s1) m1 m2 hstart
    (by omega) (by rw [e1L]; push_cast; omega) (by rw [e1L]; omega)
  generalize hs2 : insert_open_gap n (s1.cbegin.plus i) s1.container_end_.toNat
    (s1.cend.minus n) s1 = s2 at r2 r3
  obtain ⟨w2, w3⟩ := insert_fill_spec c1 e1len (s1.cbegin.plus i) i p1 p2 hti il 0 s2 r2
    (by rw [e1L, hn]; push_cast; omega) (by rw [hn]; push_cast; omega)
  generalize hs3 : insert_fill (s1.cbegin.plus i) il 0 s2 = s3 at w2 w3
  have hres : (s.insert_bulk_middle i il).2 = s3 := by
    unfold insert_bulk_middle
    dsimp only
    rw [hn, to_int_natCast i hiint, to_int_natCast n hnint, hs1, hs2, hs3]
  rw [hres]
  obtain ⟨t1, t2, t3, t4, t5⟩ := w2
  have hwf' : WF s3 := by
    refine ⟨?_, ?_, ?_, ?_, ?_, ?_, ?_, ?_⟩
    · rw [t5, e1u]; exact hub
    · rw [t1, t4]; exact e1len
    · rw [t1, e1L]; exact h1
    · rw [t1, e1L]; exact h2
    · rw [t2, e1b]; exact h3
    · rw [t1, t2, e1L, e1b]; exact h4
    · rw [t3, e1e]; exact hne0
    · rw [t1, t3, e1L, e1e]; exact hne1
  refine ⟨hwf', ?_, t1.trans e1L⟩
  have hsize' : s3.size = s.size + n :=
    size_of_end hwf' _ (by rw [t1, e1L]; push_cast; omega)
      (by rw [t1, t2, t3, e1L, e1b, e1e]; exact hnephys)
  rw [contents_eq_iff]
  have hlen' : (xs.take i ++ il ++ xs.drop i).length = s.size + n := by
    simp only [List.length_append, List.length_take, List.length_drop, hn]
    omega
  refine ⟨by rw [hsize', hlen'], fun k hk => ?_⟩
  rw [hlen'] at hk
  have hkL : (k : Int) < s.container_end_ := by omega
  rw [index_of hwf' rfl rfl rfl k (by rw [t1, e1L]; exact hkL), t1, t2,
    w3 k (by rw [e1L]; exact hkL), getElem?_insert_list xs il i k (by omega), hn]
  simp only [Nat.add_zero]
  have hold : ∀ m : Nat, m < s.size →
      s1.deref (phys s1.container_end_ s1.data_begin_ (m : Int)) = xs[m]? := by
    intro m hm
    rw [e1d, e1L, e1b, ← index_eq hwf m (by omega), hidx m (by omega)]
  by_cases hk1 : k < i
  · have hA : ¬ (i ≤ k ∧ k < i + n) := by omega
    have hB : ¬ (i + n ≤ k ∧ k < s.size + n) := by omega
    rw [if_neg hA, if_pos hk1, r3 k (by rw [e1L]; exact hkL), if_neg hB, hold k (by omega)]
  · rw [if_neg hk1]
    by_cases hk2 : k < i + n
    · have hA : i ≤ k ∧ k < i + n := by omega
      rw [if_pos hA, if_pos hk2]
    · have hA : ¬ (i ≤ k ∧ k < i + n) := by omega
      have hB : i + n ≤ k ∧ k < s.size + n := by omega
      rw [if_neg hA, if_neg hk2, r3 k (by rw [e1L]; exact hkL), if_pos hB, hold (k - n) (by omega)]

/-- The doubling loop of the bulk inserts of `CircularBufferExt` ends when the
capacity is at least 1. -/
theorem grow_target_spec (need : Nat) (hneed : need < 2 ^ 62) :
    ∀ (fuel target : Nat), 1 ≤ target → target + 1 < 2 ^ 63 → need ≤ target * 2 ^ fuel →
      ∃ t, CircularBufferExt.grow_target need fuel target = some t ∧ need ≤ t ∧ target ≤ t ∧
        t + 1 < 2 ^ 63 := by
  intro fuel
  induction fuel with
  | zero =>
    intro target h1 h2 h3
    simp only [pow_zero, Nat.mul_one] at h3
    exact ⟨target, by simp [CircularBufferExt.grow_target]; omega, h3, le_refl _, h2⟩
  | succ fuel ih =>
    intro target h1 h2 h3
    by_cases hlt : target < need
    · have hmod : (target * 2) % 2 ^ 64 = target * 2 := by omega
      obtain ⟨t, ht, a1, a2, a3⟩ := ih (target * 2) (by omega) (by omega)
        (by rw [pow_succ] at h3; calc need ≤ target * (2 ^ fuel * 2) := h3
          _ = target * 2 * 2 ^ fuel := by ring)
      refine ⟨t, ?_, a1, by omega, a3⟩
      simp only [CircularBufferExt.grow_target, if_pos hlt, hmod, ht]
    · exact ⟨target, by simp only [CircularBufferExt.grow_target, if_neg hlt], by omega,
        le_refl _, h2⟩

/-- The three branches of the bulk inserts once the buffer has room: at `begin()`
of a non-empty buffer the source arrives in reverse order. -/
theorem insert_bulk_branches_spec {s1 : CircularBufferCommon α} (xs il : List α) (i : Nat)
    (h : WF s1) (hc : s1.contents = xs.map some) (hroom : s1.size + il.length ≤ s1.capacity)
    (hi : i ≤ s1.size) (hint : (s1.size : Int) + il.length < 2 ^ 31) :
    ∃ r, (if i = s1.size then (s1.cend, il.foldl CircularBuffer.push_back s1)
        else if i = 0 then
          ((il.foldl CircularBuffer.push_front s1).cbegin, il.foldl CircularBuffer.push_front s1)
        else s1.insert_bulk_middle i il) = r ∧
      WF r.2 ∧
      r.2.contents =
        (xs.take i ++ (if i = 0 ∧ 0 < s1.size then il.reverse else il) ++ xs.drop i).map some ∧
      r.2.container_end_ = s1.container_end_ := by
  have hsz := size_of_contents hc
  by_cases h1 : i = s1.size
  · rw [if_pos h1]
    obtain ⟨p1, p2, p3, -⟩ := foldl_push_back_spec il s1 xs h hc (by omega)
    refine ⟨_, rfl, p1, ?_, p3⟩
    rw [p2, if_neg (by omega), h1, hsz]
    simp
  · rw [if_neg h1]
    by_cases h2 : i = 0
    · rw [if_pos h2]
      obtain ⟨p1, p2, p3, -⟩ := foldl_push_front_spec il s1 xs h hc (by omega)
      refine ⟨_, rfl, p1, ?_, p3⟩
      rw [p2, if_pos (by omega), h2]
      simp
    · rw [if_neg h2]
      obtain ⟨p1, p2, p3⟩ := insert_bulk_middle_spec xs il i h hc hroom (by omega) (by omega)
        hint
      refine ⟨_, rfl, p1, ?_, p3⟩
      rw [p2, if_neg (by omega)]

/-- `CircularBuffer::insert` of a sequence at `cbegin() + i`, after the checks, the
size after the call being in the range of `int`. -/
theorem CircularBuffer.insert_bulk_spec {s : CircularBufferCommon α} (xs il : List α) (i : Nat)
    (h : WF s) (hc : s.contents = xs.map some) (hi : i ≤ s.size)
    (hb : (s.size : Int) + il.length < 2 ^ 31) :
    WF (CircularBuffer.insert_bulk s i il).2 ∧
      (CircularBuffer.insert_bulk s i il).2.contents =
        (xs.take i ++ (if i = 0 ∧ 0 < s.size then il.reverse else il) ++ xs.drop i).map some := by
  have hcap := capacity_eq h
  have hmod : (s.size + il.length) % 2 ^ 64 = s.size + il.length := by omega
  generalize hs1 : s.reserve (s.size + il.length) = s1
  have hs1' : WF s1 ∧ s1.contents = xs.map some ∧ s1.size = s.size ∧
      s1.size + il.length ≤ s1.capacity := by
    have hsz := size_of_contents hc
    by_cases hf : s.capacity < s.size + il.length
    · obtain ⟨w1, w2, w3⟩ := reserve_spec h (s.size + il.length) hf (by push_cast; omega)
      rw [hs1] at w1 w2 w3
      have hcs := capacity_of_end w1 _ w3
      have hsz1 := size_of_contents (w2.trans hc)
      exact ⟨w1, w2.trans hc, by omega, by omega⟩
    · rw [reserve_noop s _ (by omega)] at hs1
      subst hs1
      exact ⟨h, hc, rfl, by omega⟩
  obtain ⟨w1, w2, w3, w4⟩ := hs1'
  obtain ⟨r, hr, r1, r2, -⟩ := insert_bulk_branches_spec xs il i w1 w2 w4 (by omega)
    (by rw [w3]; exact hb)
  have : CircularBuffer.insert_bulk s i il = r := by
    unfold CircularBuffer.insert_bulk
    dsimp only
    rw [hmod, hs1]
    exact hr
  rw [this, ← w3]
  exact ⟨r1, r2⟩

/-- `CircularBufferExt::insert` of a sequence at `cbegin() + i`, after the checks,
on a buffer of capacity at least 1, the size after the call being in the range
of `int`: the call returns. -/
theorem CircularBufferExt.ext_insert_bulk_spec {s : CircularBufferCommon α} (xs il : List α)
    (i : Nat) (h : WF s) (hc : s.contents = xs.map some) (hi : i ≤ s.size)
    (hcap1 : 1 ≤ s.capacity) (hb : s.size + il.length < 2 ^ 31) :
    ∃ r, CircularBufferExt.insert_bulk s i il = some r ∧ WF r.2 ∧
      r.2.contents =
        (xs.take i ++ (if i = 0 ∧ 0 < s.size then il.reverse else il) ++ xs.drop i).map some := by
  have hcap := capacity_eq h
  have h2 := h.2.2.2.1
  have hmod : (s.size + il.length) % 2 ^ 64 = s.size + il.length := by omega
  obtain ⟨t, ht, t1, t2, t3⟩ := grow_target_spec (s.size + il.length) (by omega) 64 s.capacity hcap1
    (by omega) (by
      calc s.size + il.length ≤ 1 * 2 ^ 64 := by omega
        _ ≤ s.capacity * 2 ^ 64 := Nat.mul_le_mul_right _ hcap1)
  generalize hs1 : s.reserve t = s1
  have hs1' : WF s1 ∧ s1.contents = xs.map some ∧ s1.size = s.size ∧
      s1.size + il.length ≤ s1.capacity := by
    have hsz := size_of_contents hc
    by_cases hf : s.capacity < t
    · obtain ⟨w1, w2, w3⟩ := reserve_spec h t hf (by omega)
      rw [hs1] at w1 w2 w3
      have hcs := capacity_of_end w1 _ w3
      have hsz1 := size_of_contents (w2.trans hc)
      exact ⟨w1, w2.trans hc, by omega, by omega⟩
    · rw [reserve_noop s _ (by omega)] at hs1
      subst hs1
      exact ⟨h, hc, rfl, by omega⟩
  obtain ⟨w1, w2, w3, w4⟩ := hs1'
  obtain ⟨r, hr, r1, r2, -⟩ := insert_bulk_branches_spec xs il i w1 w2 w4 (by omega)
    (by rw [w3]; exact_mod_cast hb)
  have hsz1 := size_of_contents w2
  obtain ⟨-, -, -, fb⟩ := foldl_push_back_spec il s1 xs w1 w2 (by omega)
  obtain ⟨-, -, -, ff⟩ := foldl_push_front_spec il s1 xs w1 w2 (by omega)
  refine ⟨r, ?_, r1, by rw [← w3]; exact r2⟩
  unfold CircularBufferExt.insert_bulk
  rw [hmod, ht]
  dsimp only
  rw [hs1, fb, ff]
  by_cases h1 : i = s1.size
  · rw [if_pos h1] at hr ⊢; rw [hr]
  · rw [if_neg h1] at hr ⊢
    by_cases h0 : i = 0
    · rw [if_pos h0] at hr ⊢; rw [hr]
    · rw [if_neg h0] at hr ⊢; rw [hr]

/-- `CircularBuffer::insert(p, n, value)` at `p = cbegin() + i` with `n ≥ 1`, the
size after the call being in the range of `int`. -/
theorem CircularBuffer.insert_n_spec {s : CircularBufferCommon α} (xs : List α) (i n : Nat)
    (v : α) (h : WF s) (hc : s.contents = xs.map some) (hi : i ≤ s.size) (hn : 1 ≤ n)
    (hb : (s.size : Int) + n < 2 ^ 31) :
    ∃ r, CircularBuffer.insert_n s (s.cbegin.plus i) n v = Except.ok r ∧ WF r.2 ∧
      r.2.contents = (xs.take i ++ List.replicate n v ++ xs.drop i).map some := by
  obtain ⟨c1, c2, c3, c4⟩ := insert_checks h i hi
  obtain ⟨r1, r2⟩ := CircularBuffer.insert_bulk_spec xs (List.replicate n v) i h hc hi
    (by rw [List.length_replicate]; exact hb)
  refine ⟨_, ?_, r1, ?_⟩
  · unfold CircularBuffer.insert_n
    rw [if_neg c1, c2]
    dsimp only
    rw [c3, if_neg (by omega), if_neg c4]
  · rw [r2, List.reverse_replicate, ite_self]

/-- `CircularBufferExt::insert(p, n, value)` at `p = cbegin() + i` with `n ≥ 1`, on a
buffer of capacity at least 1, the size after the call being in the range of
`int`: the call returns. -/
theorem CircularBufferExt.ext_insert_n_spec {s : CircularBufferCommon α} (xs : List α)
    (i n : Nat) (v : α) (h : WF s) (hc : s.contents = xs.map some) (hi : i ≤ s.size)
    (hn : 1 ≤ n) (hcap1 : 1 ≤ s.capacity) (hb : s.size + n < 2 ^ 31) :
    ∃ r, CircularBufferExt.insert_n s (s.cbegin.plus i) n v = some (Except.ok r) ∧ WF r.2 ∧
      r.2.contents = (xs.take i ++ List.replicate n v ++ xs.drop i).map some := by
  obtain ⟨c1, c2, c3, c4⟩ := insert_checks h i hi
  obtain ⟨r, r0, r1, r2⟩ := CircularBufferExt.ext_insert_bulk_spec xs (List.replicate n v) i h hc
    hi hcap1 (by rw [List.length_replicate]; exact hb)
  refine ⟨r, ?_, r1, ?_⟩
  · unfold CircularBufferExt.insert_n
    rw [if_neg c1, c2]
    dsimp only
    rw [c3, if_neg (by omega), if_neg c4, r0]
    rfl
  · rw [r2, List.reverse_replicate, ite_self]

/-! ## Facts used by the access, validity, growth and iterator difference claims -/

/-- The element at logical index 0 is in the slot at `data_begin_`. -/
theorem index_zero (s : CircularBufferCommon α) : s.index 0 = s.deref s.data_begin_ := by
  simp only [index, cbegin, Iterator.plus, Nat.cast_zero]
  split_ifs <;> rfl

/-- On a non-empty buffer the last live element is in the slot before `data_end_`,
which is the last slot of the slab when `data_end_` is at the first one. -/
theorem index_last {s : CircularBufferCommon α} (h : WF s) (hne : 0 < s.size) :
    s.index (s.size - 1) =
      if s.container_begin_ = s.data_end_ then s.deref (s.container_end_ - 1)
      else s.deref (s.data_end_ - 1) := by
  have hlt := size_lt h
  have hs := size_eq h
  rw [index_eq h (s.size - 1) (by omega)]
  obtain ⟨-, -, h1, h2, h3, h4, h5, h6⟩ := h
  unfold container_begin_
  have hcast : ((s.size - 1 : Nat) : Int) = (s.size : Int) - 1 := by omega
  rw [hcast]
  unfold phys
  split_ifs at hs ⊢ <;> congr 1 <;> omega

/-- `front()` and `front() const` on a non-empty buffer. -/
theorem front_spec {s : CircularBufferCommon α} (hne : 0 < s.size) :
    s.front = Except.ok (s.index 0) ∧ s.front_const = Except.ok (s.index 0) := by
  have he := empty_eq_false (Nat.pos_iff_ne_zero.mp hne)
  simp only [front, front_const, he, index_zero]
  exact ⟨rfl, rfl⟩

/-- `back()` and `back() const` on a non-empty buffer. -/
theorem back_spec {s : CircularBufferCommon α} (h : WF s) (hne : 0 < s.size) :
    s.back = Except.ok (s.index (s.size - 1)) ∧
      s.back_const = Except.ok (s.index (s.size - 1)) := by
  have he := empty_eq_false (Nat.pos_iff_ne_zero.mp hne)
  rw [index_last h hne]
  refine ⟨?_, ?_⟩
  · unfold back
    split_ifs <;> rfl
  · unfold back_const
    rw [he]
    simp only [Bool.false_eq_true, if_false]
    split_ifs <;> rfl

/-- `empty()` on a buffer of size 0. -/
theorem empty_eq_true {s : CircularBufferCommon α} (h : s.size = 0) : s.empty = true := by
  simp [empty, h]

/-- An iterator carrying the bounds and cursors of the buffer and pointing into
the slab addresses a live element exactly when its `size_type` distance from
`cbegin()` is below `size()`. -/
theorem live_iff_index {s : CircularBufferCommon α} (h : WF s) (q : Iterator)
    (hq1 : q.container_begin_ = s.container_begin_) (hq2 : q.container_end_ = s.container_end_)
    (hq3 : q.data_begin_ = s.data_begin_) (hq4 : q.data_end_ = s.data_end_)
    (hp0 : 0 ≤ q.current_) (hp1 : q.current_ < s.container_end_) :
    (∃ i : Nat, i < s.size ∧ (s.cbegin.plus i).current_ = q.current_) ↔
      to_size_type (q.distance s.cbegin) < s.size := by
  have hlt := size_lt h
  have hs := size_eq h
  have hw := h
  obtain ⟨-, -, h1, h2, h3, h4, h5, h6⟩ := h
  constructor
  · rintro ⟨i, hi, hph⟩
    rw [(cbegin_plus hw i (by omega)).1] at hph
    unfold phys at hph
    simp only [Iterator.distance, cbegin, to_size_type, hq1, hq2, hq3, hq4, container_begin_]
    split_ifs at hph hs ⊢ <;> omega
  · intro hlt2
    refine ⟨to_size_type (q.distance s.cbegin), hlt2, ?_⟩
    rw [(cbegin_plus hw _ (by omega)).1]
    unfold phys
    simp only [Iterator.distance, cbegin, to_size_type, hq1, hq2, hq3, hq4,
      container_begin_] at hlt2 ⊢
    split_ifs at hs hlt2 ⊢ <;> omega

/-- `erase(q)` throws exactly when `q` addresses no live element, for an iterator
`q` that carries the bounds and cursors of the buffer. -/
theorem erase_error_iff {s : CircularBufferCommon α} (h : WF s) (q : Iterator)
    (hq1 : q.container_begin_ = s.container_begin_) (hq2 : q.container_end_ = s.container_end_)
    (hq3 : q.data_begin_ = s.data_begin_) (hq4 : q.data_end_ = s.data_end_) :
    (s.erase q = Except.error Exception.out_of_range ↔
      ¬ ∃ i : Nat, i < s.size ∧ (s.cbegin.plus i).current_ = q.current_) ∧
    ((∃ i : Nat, i < s.size ∧ (s.cbegin.plus i).current_ = q.current_) →
      ∃ r, s.erase q = Except.ok r) := by
  have hlt := size_lt h
  have hd : q.difference s.cbegin = Except.ok (q.distance s.cbegin) := by
    simp [Iterator.difference, cbegin, hq1, hq2]
  by_cases hb : q.current_ < s.container_begin_ ∨ q.current_ ≥ s.container_end_
  · have he : s.erase q = Except.error Exception.out_of_range := by
      unfold erase
      rw [if_pos hb]
    have hnl : ¬ ∃ i : Nat, i < s.size ∧ (s.cbegin.plus i).current_ = q.current_ := by
      rintro ⟨i, hi, hph⟩
      rw [(cbegin_plus h i (by omega)).1] at hph
      have := phys_bounds s.container_end_ s.data_begin_ i h.2.2.2.2.1 h.2.2.2.2.2.1
        (by omega) (by omega)
      unfold container_begin_ at hb
      omega
    exact ⟨⟨fun _ => hnl, fun _ => he⟩, fun hl => absurd hl hnl⟩
  · have hb0 : 0 ≤ q.current_ := by unfold container_begin_ at hb; omega
    have hb1 : q.current_ < s.container_end_ := by omega
    have hiff := live_iff_index h q hq1 hq2 hq3 hq4 hb0 hb1
    by_cases hi : to_size_type (q.distance s.cbegin) ≥ s.size
    · have he : s.erase q = Except.error Exception.out_of_range := by
        unfold erase
        rw [if_neg hb, hd]
        dsimp only
        rw [if_pos hi]
      have hnl : ¬ ∃ i : Nat, i < s.size ∧ (s.cbegin.plus i).current_ = q.current_ := by
        rw [hiff]; omega
      exact ⟨⟨fun _ => hnl, fun _ => he⟩, fun hl => absurd hl hnl⟩
    · have hok : ∃ r, s.erase q = Except.ok r := by
        unfold erase
        rw [if_neg hb, hd]
        dsimp only
        rw [if_neg hi]
        exact ⟨_, rfl⟩
      have hl : ∃ i : Nat, i < s.size ∧ (s.cbegin.plus i).current_ = q.current_ := by
        rw [hiff]; omega
      obtain ⟨r, hr⟩ := hok
      refine ⟨⟨fun he => ?_, fun hn => absurd hl hn⟩, fun _ => ⟨r, hr⟩⟩
      rw [hr] at he
      cases he

/-- `erase(end())` throws. -/
theorem erase_end_throws {s : CircularBufferCommon α} (h : WF s) :
    s.erase s.cend = Except.error Exception.out_of_range := by
  refine (erase_error_iff h s.cend rfl rfl rfl rfl).1.2 ?_
  rintro ⟨i, hi, hph⟩
  rw [(cbegin_plus h i (by omega)).1] at hph
  have := (phys_eq_end h i (by omega)).1 hph
  omega

/-- The iterator `begin() + size()` is `end()`. -/
theorem cbegin_plus_size {s : CircularBufferCommon α} (h : WF s) :
    s.cbegin.plus (s.size : Int) = s.cend := by
  obtain ⟨q1, -, -, -⟩ := cbegin_plus h s.size (le_refl _)
  obtain ⟨f1, f2, f3, f4⟩ := plus_fields s.cbegin (s.size : Int)
  have hc : (s.cbegin.plus (s.size : Int)).current_ = s.data_end_ := by
    rw [q1]; exact (phys_eq_end h s.size (le_refl _)).2 rfl
  cases hx : s.cbegin.plus (s.size : Int) with
  | mk c cb ce db de =>
    rw [hx] at hc f1 f2 f3 f4
    simp only at hc f1 f2 f3 f4
    simp only [cend, cbegin] at f1 f2 f3 f4 ⊢
    rw [hc, f1, f2, f3, f4]

/-- The iterator returned by `erase(q)` is `end()` of the buffer left by the call,
whichever live element was erased, in a buffer whose size is in the range of
`int`. -/
theorem erase_returns_end {s : CircularBufferCommon α} (xs : List α) (i : Nat)
    (h : WF s) (hc : s.contents = xs.map some) (hi : i < s.size)
    (hint : (s.size : Int) ≤ 2 ^ 31) :
    ∃ r, s.erase (s.cbegin.plus i) = Except.ok r ∧ r.1 = r.2.cend ∧
      r.2.contents = (xs.eraseIdx i).map some := by
  obtain ⟨r, h1, h2, h3, -, h5⟩ := erase_spec xs i h hc hi hint
  refine ⟨r, h1, ?_, h3⟩
  have hsz : r.2.size = s.size - 1 := by
    rw [size_of_contents h3, List.length_eraseIdx, size_of_contents hc]
    simp [show i < xs.length by rw [← size_of_contents hc]; exact hi]
  rw [h5, ← hsz]
  exact cbegin_plus_size h2

/-- Doubling the value 0 leaves 0: from `target_capacity == 0` the loop
`while (target_capacity < need) target_capacity *= 2` has not ended after any
number of rounds, for `need ≥ 1`. -/
theorem grow_target_zero (need : Nat) (hneed : 1 ≤ need) :
    ∀ fuel : Nat, CircularBufferExt.grow_target need fuel 0 = none := by
  intro fuel
  induction fuel with
  | zero => simp only [CircularBufferExt.grow_target, if_pos (show 0 < need by omega)]
  | succ fuel ih =>
    simp only [CircularBufferExt.grow_target, if_pos (show 0 < need by omega)]
    exact ih

/-- A buffer of capacity 0 is empty. -/
theorem size_of_capacity_zero {s : CircularBufferCommon α} (h : WF s) (hcap : s.capacity = 0) :
    s.size = 0 := by
  have := size_lt h
  have := capacity_eq h
  omega

/-- The bulk inserts of `CircularBufferExt` on a buffer of capacity 0 do not
return. -/
theorem ext_insert_bulk_capacity_zero {s : CircularBufferCommon α} (h : WF s)
    (hcap : s.capacity = 0) (il : List α) (hl : 1 ≤ il.length) (hl2 : il.length < 2 ^ 64)
    (index : Nat) : CircularBufferExt.insert_bulk s index il = none := by
  have hsz := size_of_capacity_zero h hcap
  have hmod : (s.size + il.length) % 2 ^ 64 = il.length := by rw [hsz]; omega
  unfold CircularBufferExt.insert_bulk
  rw [hmod, hcap, grow_target_zero il.length hl 64]

/-- The iterator `begin() + 0` is `begin()`. -/
theorem cbegin_plus_zero (s : CircularBufferCommon α) :
    s.cbegin.plus ((0 : Nat) : Int) = s.cbegin := by
  simp only [Iterator.plus, Nat.cast_zero]
  split_ifs <;> rfl

/-- `CircularBufferExt::insert(begin(), n, value)` and `insert(begin(), i, j)` with
`n ≥ 1` elements on a buffer of capacity 0 do not return. -/
theorem ext_insert_capacity_zero {s : CircularBufferCommon α} (h : WF s) (hcap : s.capacity = 0)
    (il : List α) (hl : 1 ≤ il.length) (hl2 : il.length < 2 ^ 64) (n : Nat) (v : α)
    (hn : 1 ≤ n) (hn2 : n < 2 ^ 64) :
    CircularBufferExt.insert_n s s.cbegin n v = none ∧
      CircularBufferExt.insert_range s s.cbegin il = none := by
  obtain ⟨c1, c2, c3, c4⟩ := insert_checks h 0 (Nat.zero_le _)
  rw [cbegin_plus_zero] at c1 c2
  constructor
  · unfold CircularBufferExt.insert_n
    rw [if_neg c1, c2]
    dsimp only
    rw [c3, if_neg (by omega), if_neg c4,
      ext_insert_bulk_capacity_zero h hcap (List.replicate n v)
        (by rw [List.length_replicate]; exact hn) (by rw [List.length_replicate]; exact hn2)]
    rfl
  · unfold CircularBufferExt.insert_range
    rw [if_neg c1, c2]
    dsimp only
    rw [c3, if_neg (by omega), if_neg c4, ext_insert_bulk_capacity_zero h hcap il hl hl2]
    rfl

/-- Each call of the push interface adds one element to the list. -/
theorem apply_length (xs : List α) (c : PushCall α) :
    (PushCall.apply xs c).length = xs.length + 1 := by
  cases c <;> simp [PushCall.apply]

/-- The capacity of a `CircularBufferExt` along a run of pushes: once one element
is held, the capacity is a power of two that is at least the size and less than
twice the size. -/
theorem ext_push_capacity_run (calls : List (PushCall α)) :
    ∀ (s : CircularBufferCommon α) (xs : List α), WF s → s.contents = xs.map some →
      ((xs.length = 0 ∧ s.capacity = 0) ∨
        (xs.length ≤ s.capacity ∧ s.capacity < 2 * xs.length ∧ ∃ m : Nat, s.capacity = 2 ^ m)) →
      2 * ((xs.length : Int) + calls.length) + 2 < 2 ^ 63 →
      1 ≤ xs.length + calls.length →
      (calls.foldl CircularBufferExt.push s).size = xs.length + calls.length ∧
        xs.length + calls.length ≤ (calls.foldl CircularBufferExt.push s).capacity ∧
        (calls.foldl CircularBufferExt.push s).capacity < 2 * (xs.length + calls.length) ∧
        ∃ m : Nat, (calls.foldl CircularBufferExt.push s).capacity = 2 ^ m := by
  induction calls with
  | nil =>
    intro s xs h hc hinv hb h1
    simp only [List.foldl_nil, List.length_nil, Nat.add_zero] at h1 ⊢
    rcases hinv with ⟨h0, -⟩ | ⟨a, b, c⟩
    · omega
    · exact ⟨size_of_contents hc, a, b, c⟩
  | cons c cs ih =>
    intro s xs h hc hinv hb h1
    simp only [List.foldl_cons, List.length_cons] at hb h1 ⊢
    have hsz := size_of_contents hc
    obtain ⟨w1, w2, w3⟩ := CircularBufferExt.ext_push_spec c xs h hc (by push_cast at hb; omega)
    have hlen := apply_length xs c
    have hinv1 : ((PushCall.apply xs c).length = 0 ∧ (CircularBufferExt.push s c).capacity = 0) ∨
        ((PushCall.apply xs c).length ≤ (CircularBufferExt.push s c).capacity ∧
          (CircularBufferExt.push s c).capacity < 2 * (PushCall.apply xs c).length ∧
          ∃ m : Nat, (CircularBufferExt.push s c).capacity = 2 ^ m) := by
      right
      rw [hlen, w3, hsz]
      rcases hinv with ⟨h0, hc0⟩ | ⟨a, b, m, hm⟩
      · rw [h0, hc0]
        refine ⟨by decide, by decide, 0, by decide⟩
      · by_cases hfull : xs.length = s.capacity
        · rw [if_pos hfull]
          have hmax : max 1 (2 * s.capacity) = 2 * s.capacity := by omega
          rw [hmax]
          exact ⟨by omega, by omega, m + 1, by rw [hm, pow_succ]; ring⟩
        · rw [if_neg hfull]
          exact ⟨by omega, by omega, m, hm⟩
    have := ih (CircularBufferExt.push s c) (PushCall.apply xs c) w1 w2 hinv1
      (by rw [hlen]; push_cast at hb ⊢; omega) (by omega)
    rw [hlen] at this
    have e : xs.length + 1 + cs.length = xs.length + (cs.length + 1) := by omega
    rw [e] at this
    exact this

/-- The value of `a - b` for `a = begin() + i` and `b = begin() + j`: the logical
distance `i - j`, except that with `a` before the wrap point and `b` after it the
second return statement (source lines 185-187) adds the offset of `b` in the
slab instead of subtracting it. -/
theorem difference_spec {s : CircularBufferCommon α} (h : WF s) (i j : Nat) (hi : i ≤ s.size)
    (hj : j ≤ s.size) :
    (s.cbegin.plus i).difference (s.cbegin.plus j) =
      Except.ok ((i : Int) - j +
        if s.data_begin_ + i < s.container_end_ ∧ s.container_end_ ≤ s.data_begin_ + j
          then 2 * (s.data_begin_ + j - s.container_end_) else 0) := by
  have hlt := size_lt h
  obtain ⟨a1, a2, a3, -⟩ := cbegin_plus h i hi
  obtain ⟨b1, b2, b3, -⟩ := cbegin_plus h j hj
  obtain ⟨-, -, a4, a5⟩ := plus_fields s.cbegin (i : Int)
  have a4' : (s.cbegin.plus i).data_begin_ = s.data_begin_ := a4
  have a5' : (s.cbegin.plus i).data_end_ = s.data_end_ := a5
  have hs := size_eq h
  obtain ⟨-, -, h1, h2, h3, h4, h5, h6⟩ := h
  unfold Iterator.difference
  rw [if_neg (by rw [a2, a3, b2, b3]; simp)]
  congr 1
  unfold Iterator.distance
  rw [a1, a2, a3, b1, a4', a5']
  unfold phys
  split_ifs at hs ⊢ <;> omega

/-! ## Facts used by the exception safety, construction and iterator arithmetic claims -/

/-- The loop of `move_data` reaches the throwing construction when more than
`fault` elements lie between `start` and `end`. -/
theorem move_data_fault_reached (s : CircularBufferCommon α) (last : Iterator) (L : Int)
    (hl0 : 0 ≤ last.current_) (hl1 : last.current_ < L) (hlen : L = s.slab.length)
    (fault : Nat) :
    ∀ (d room k : Nat) (it : Iterator), it.container_begin_ = 0 → it.container_end_ = L →
      0 ≤ it.current_ → it.current_ < L →
      (d : Int) < (if it.current_ ≤ last.current_ then last.current_ - it.current_
        else L - it.current_ + last.current_) →
      k + d = fault → d < room →
      move_data_fault s last fault room k it = some (Except.error ElementException.thrown) := by
  intro d
  induction d with
  | zero =>
    intro room k it _ _ h0 h1 hd hk hroom
    have hne : it.current_ ≠ last.current_ := by split_ifs at hd <;> omega
    obtain ⟨room', rfl⟩ : ∃ r, room = r + 1 := ⟨room - 1, by omega⟩
    have hin : 0 ≤ it.current_ ∧ it.current_ < (s.slab.length : Int) := ⟨h0, by omega⟩
    have hkf : k = fault := by omega
    simp only [move_data_fault, if_neg hne, if_pos hin, if_pos hkf]
  | succ d ih =>
    intro room k it hb he h0 h1 hd hk hroom
    have hne : it.current_ ≠ last.current_ := by split_ifs at hd <;> omega
    obtain ⟨room', rfl⟩ : ∃ r, room = r + 1 := ⟨room - 1, by omega⟩
    have hin : 0 ≤ it.current_ ∧ it.current_ < (s.slab.length : Int) := ⟨h0, by omega⟩
    have hkf : ¬ k = fault := by omega
    obtain ⟨f1, f2, -, -⟩ := inc_fields it
    have hcur := inc_current it hb h0 (by omega)
    rw [he] at hcur f2
    have hpb := phys_bounds L it.current_ 1 h0 h1 (by omega) (by omega)
    have hd' : (d : Int) < (if it.inc.current_ ≤ last.current_ then last.current_ - it.inc.current_
        else L - it.inc.current_ + last.current_) := by
      rw [hcur]; unfold phys; push_cast at hd; split_ifs at hd ⊢ <;> omega
    have := ih room' (k + 1) it.inc (f1.trans hb) f2 (by rw [hcur]; exact hpb.1)
      (by rw [hcur]; exact hpb.2) hd' (by omega) (by omega)
    simp only [move_data_fault, if_neg hne, if_pos hin, if_neg hkf, this, Option.map_some']
    rfl

/-- The loop of `move_data` with a throwing construction that is not reached
does what `move_data` does. -/
theorem move_data_fault_unreached (s : CircularBufferCommon α) (last : Iterator) (L : Int)
    (hl0 : 0 ≤ last.current_) (hl1 : last.current_ < L) (hlen : L = s.slab.length)
    (fault : Nat) :
    ∀ (d room k : Nat) (it : Iterator), it.container_begin_ = 0 → it.container_end_ = L →
      0 ≤ it.current_ → it.current_ < L →
      (d : Int) = (if it.current_ ≤ last.current_ then last.current_ - it.current_
        else L - it.current_ + last.current_) →
      k + d ≤ fault → d ≤ room →
      move_data_fault s last fault room k it = (move_data s last room it).map Except.ok := by
  intro d
  induction d with
  | zero =>
    intro room k it _ _ h0 h1 hd _ _
    have heq : it.current_ = last.current_ := by split_ifs at hd <;> omega
    cases room <;> simp [move_data, move_data_fault, heq]
  | succ d ih =>
    intro room k it hb he h0 h1 hd hk hroom
    have hne : it.current_ ≠ last.current_ := by split_ifs at hd <;> omega
    obtain ⟨room', rfl⟩ : ∃ r, room = r + 1 := ⟨room - 1, by omega⟩
    have hin : 0 ≤ it.current_ ∧ it.current_ < (s.slab.length : Int) := ⟨h0, by omega⟩
    have hkf : ¬ k = fault := by omega
    obtain ⟨f1, f2, -, -⟩ := inc_fields it
    have hcur := inc_current it hb h0 (by omega)
    rw [he] at hcur f2
    have hpb := phys_bounds L it.current_ 1 h0 h1 (by omega) (by omega)
    have hd' : (d : Int) = (if it.inc.current_ ≤ last.current_ then last.current_ - it.inc.current_
        else L - it.inc.current_ + last.current_) := by
      rw [hcur]; unfold phys; push_cast at hd; split_ifs at hd ⊢ <;> omega
    have := ih room' (k + 1) it.inc (f1.trans hb) f2 (by rw [hcur]; exact hpb.1)
      (by rw [hcur]; exact hpb.2) hd' (by omega) (by omega)
    simp only [move_data_fault, move_data, if_neg hne, if_pos hin, if_neg hkf, this]
    cases move_data s last room' it.inc <;> rfl

/-- `reserve(n)` with `n > capacity()` when the construction of the element number
`fault < size()` throws: the exception leaves the call and the state is the one
before the call. -/
theorem reserve_fault_thrown {s : CircularBufferCommon α} (h : WF s) (n fault : Nat)
    (hn : s.capacity < n) (hf : fault < s.size) :
    s.reserve_fault n fault = (Except.error ElementException.thrown, s) := by
  have hs := size_eq h
  have hlt := size_lt h
  have hcap := capacity_eq h
  obtain ⟨-, hlen, h1, h2, h3, h4, h5, h6⟩ := h
  have := move_data_fault_reached s s.cend s.container_end_ h5 h6 hlen fault fault (n + 1) 0
    s.cbegin rfl rfl h3 h4
    (by have hf' : (fault : Int) < s.size := by exact_mod_cast hf
        simp only [cbegin, cend]; rw [← hs]; exact hf') (by omega) (by omega)
  unfold reserve_fault
  rw [if_neg (by omega), this]

/-- `reserve(n)` when no construction throws during the call is `reserve(n)`. -/
theorem reserve_fault_unreached {s : CircularBufferCommon α} (h : WF s) (n fault : Nat)
    (hf : s.size ≤ fault) :
    s.reserve_fault n fault = (Except.ok (), s.reserve n) := by
  have hs := size_eq h
  have hlt := size_lt h
  have hcap := capacity_eq h
  have hw := h
  obtain ⟨-, hlen, h1, h2, h3, h4, h5, h6⟩ := h
  unfold reserve_fault reserve
  by_cases hn : s.capacity ≥ n
  · rw [if_pos hn, if_pos hn]
  · rw [if_neg hn, if_neg hn]
    have := move_data_fault_unreached s s.cend s.container_end_ h5 h6 hlen fault s.size (n + 1) 0
      s.cbegin rfl rfl h3 h4 hs (by omega) (by omega)
    rw [this, move_data_all hw (n + 1) (by omega)]
    rfl

/-- The `catch` block of `resize` leaves the bounds of the slab as they are. -/
theorem resize_unwind_container_end :
    ∀ (rest j : Nat) (s : CircularBufferCommon α),
      (resize_unwind rest j s).container_end_ = s.container_end_ := by
  intro rest
  induction rest with
  | zero => intro j s; rfl
  | succ rest ih =>
    intro j s
    simp only [resize_unwind]
    rw [ih]
    simp only [destroy, store_container_end]
    split_ifs <;> rfl

/-- The `try` block of `resize` with a throwing construction among the copies it
has to make ends with the exception and leaves the bounds of the slab as they
are. -/
theorem resize_grow_fault_thrown (v : α) (fault : Nat) :
    ∀ (k i : Nat) (s : CircularBufferCommon α), i ≤ fault → fault < i + k →
      (resize_grow_fault v fault k i s).1 = Except.error ElementException.thrown ∧
        (resize_grow_fault v fault k i s).2.container_end_ = s.container_end_ := by
  intro k
  induction k with
  | zero => intro i s h1 h2; omega
  | succ k ih =>
    intro i s h1 h2
    by_cases hi : i = fault
    · simp only [resize_grow_fault, if_pos hi]
      exact ⟨trivial, resize_unwind_container_end _ _ _⟩
    · simp only [resize_grow_fault, if_neg hi]
      obtain ⟨a, b⟩ := ih (i + 1)
        (if (s.construct s.data_end_ v).data_end_ + 1 = (s.construct s.data_end_ v).container_end_
          then { s.construct s.data_end_ v with
            data_end_ := (s.construct s.data_end_ v).container_begin_ }
          else { s.construct s.data_end_ v with
            data_end_ := (s.construct s.data_end_ v).data_end_ + 1 }) (by omega) (by omega)
      refine ⟨a, b.trans ?_⟩
      simp only [construct, store_container_end]
      split_ifs <;> rfl

/-- `resize(n, v)` with `n > capacity()` when the construction of one of the new
copies throws: the exception leaves the call and `capacity()` is `n`. -/
theorem resize_fault_capacity {s : CircularBufferCommon α} (h : WF s) (n : Nat) (v : α)
    (fault : Nat) (hn : s.capacity < n) (hb : (n : Int) + 1 < 2 ^ 63) (hf : fault + s.size < n) :
    (s.resize_fault n v fault).1 = Except.error ElementException.thrown ∧
      (s.resize_fault n v fault).2.capacity = n := by
  have hlt := size_lt h
  have hcap := capacity_eq h
  obtain ⟨w1, w2, w3⟩ := reserve_spec h n hn hb
  have hsz : (s.reserve n).size = s.size := by
    have := congrArg List.length w2
    simpa [contents_length] using this
  unfold resize_fault
  rw [if_pos (show n > s.capacity by omega)]
  dsimp only
  rw [if_neg (by omega), if_pos (by omega)]
  obtain ⟨a, b⟩ := resize_grow_fault_thrown v fault (n - (s.reserve n).size) 0 (s.reserve n)
    (Nat.zero_le _) (by omega)
  refine ⟨a, ?_⟩
  have hce : (resize_grow_fault v fault (n - (s.reserve n).size) 0 (s.reserve n)).2.container_end_
      = (s.reserve n).container_end_ := b
  rw [capacity_congr hce]
  exact capacity_of_end w1 n w3

/-- `clear()` on a well-formed buffer: the loop ends inside the allocation, both
cursors are at `container_begin_`, and the bounds and the length of the slab are
unchanged. -/
theorem clear_spec {s : CircularBufferCommon α} (h : WF s) :
    WF s.clear ∧ s.clear.data_begin_ = s.container_begin_ ∧
      s.clear.data_end_ = s.container_begin_ ∧ s.clear.container_end_ = s.container_end_ ∧
      s.clear.slab.length = s.slab.length ∧ s.clear.size = 0 ∧
      s.clear.capacity = s.capacity := by
  have hs := size_eq h
  have hlt := size_lt h
  have hw := h
  obtain ⟨hub, hlen, h1, h2, h3, h4, h5, h6⟩ := h
  obtain ⟨d1, d2, d3, -, -⟩ := destroy_range_spec s.cend s.container_end_ h5 h6 s.size
    s.container_end_.toNat s.cbegin s rfl rfl h3 h4 hlen hs (by omega)
  have e1 : s.clear.ub = false := clear_ub hw
  have e2 : s.clear.container_end_ = s.container_end_ := by
    unfold clear; dsimp only; exact d3
  have e3 : s.clear.slab.length = s.slab.length := by
    unfold clear; dsimp only; exact d2
  have e4 : s.clear.data_begin_ = 0 := by unfold clear; rfl
  have e5 : s.clear.data_end_ = 0 := by unfold clear; rfl
  have hwc : WF s.clear := by
    refine ⟨e1, ?_, ?_, ?_, ?_, ?_, ?_, ?_⟩
    · rw [e2, e3]; exact hlen
    all_goals omega
  have hsz : s.clear.size = 0 := by
    have := size_eq hwc
    rw [e4, e5] at this
    simp only [le_refl, if_true, sub_self] at this
    exact_mod_cast this
  exact ⟨hwc, e4, e5, e2, e3, hsz, capacity_congr e2⟩

/-- `size()` is the distance from `data_begin_` to `data_end_` modulo the number of
slots, and `end() - begin()` is that number. -/
theorem size_mod {s : CircularBufferCommon α} (h : CursorsOK s) :
    (s.size : Int) = (s.data_end_ - s.data_begin_) % s.container_end_ ∧
      (s.capacity : Int) = s.container_end_ - 1 ∧
      s.cend.difference s.cbegin = Except.ok (s.size : Int) := by
  have hs := size_eq_c h
  obtain ⟨h1, h2, h3, h4, h5, h6⟩ := h
  refine ⟨?_, ?_, ?_⟩
  · rw [hs]
    split_ifs with hle
    · rw [Int.emod_eq_of_lt (by omega) (by omega)]
    · have e : s.data_end_ - s.data_begin_ =
          (s.container_end_ - s.data_begin_ + s.data_end_) + s.container_end_ * (-1) := by ring
      rw [e, Int.add_mul_emod_self_left, Int.emod_eq_of_lt (by omega) (by omega)]
  · simp only [capacity, to_size_type, container_begin_]
    omega
  · have hd : s.cend.difference s.cbegin = Except.ok (s.cend.distance s.cbegin) := by
      simp [Iterator.difference, cbegin, cend]
    rw [hd]
    congr 1
    rw [hs]
    simp only [cend, cbegin, Iterator.distance, container_begin_]
    split_ifs <;> omega

/-- The buffer built with a size only is empty and has that capacity. -/
theorem mk_sized_spec (n : Nat) (hb : (n : Int) + 1 < 2 ^ 63) :
    WF (mk_sized n : CircularBufferCommon α) ∧
      (mk_sized n : CircularBufferCommon α).contents = [] ∧
      (mk_sized n : CircularBufferCommon α).size = 0 ∧
      (mk_sized n : CircularBufferCommon α).capacity = n := by
  have hw : WF (mk_sized n : CircularBufferCommon α) := by
    refine ⟨rfl, ?_, ?_, ?_, ?_, ?_, ?_, ?_⟩ <;> simp only [mk_sized] <;>
      (try simp only [List.length_replicate]) <;> (try push_cast) <;> omega
  have hc : (mk_sized n : CircularBufferCommon α).contents = [] :=
    contents_front hw [] (List.replicate (n + 1) none) rfl rfl rfl
  refine ⟨hw, hc, ?_, capacity_of_end hw _ rfl⟩
  have := congrArg List.length hc
  simpa [contents_length] using this

/-- `it + n` for `n ≥ 0` is at the slab offset `(p + n) mod L`, for an iterator at
offset `p` of a slab of `L` slots. -/
theorem plus_offset (it : Iterator) (n : Int) (hL : it.container_begin_ < it.container_end_)
    (hp0 : it.container_begin_ ≤ it.current_) (hp1 : it.current_ < it.container_end_)
    (hn : 0 ≤ n) :
    (it.plus n).current_ = it.container_begin_ +
      (it.current_ - it.container_begin_ + n) % (it.container_end_ - it.container_begin_) := by
  unfold Iterator.plus
  by_cases h1 : it.container_begin_ + 1 = it.container_end_
  · rw [if_pos h1]
    have hone : it.container_end_ - it.container_begin_ = 1 := by omega
    rw [hone, Int.emod_one]
    omega
  · rw [if_neg h1]
    by_cases h0 : n = 0
    · rw [if_pos h0, h0, add_zero, Int.emod_eq_of_lt (by omega) (by omega)]
      omega
    · rw [if_neg h0, if_neg (by omega)]
      unfold Iterator.plus_body
      dsimp only
      by_cases hlt : n < it.container_end_ - it.current_
      · rw [if_pos hlt]
        dsimp only
        rw [Int.emod_eq_of_lt (by omega) (by omega)]
        omega
      · rw [if_neg hlt]
        dsimp only
        rw [Int.tmod_eq_emod (by omega) (by omega)]
        have e : it.current_ - it.container_begin_ + n =
            (n - (it.container_end_ - it.current_)) +
              (it.container_end_ - it.container_begin_) := by ring
        rw [e, Int.add_emod_self]

/-- `++it` is `it + 1` for an iterator inside the slab. -/
theorem inc_eq_plus_one (it : Iterator) (hp1 : it.current_ < it.container_end_) :
    it.inc = it.plus 1 := by
  by_cases h1 : it.container_begin_ + 1 = it.container_end_
  · simp only [Iterator.inc, Iterator.plus, if_pos h1]
  · by_cases h2 : it.current_ + 1 = it.container_end_
    · have hz : (1 : Int) - (it.container_end_ - it.current_) = 0 := by omega
      have h3 : ¬ (1 : Int) < it.container_end_ - it.current_ := by omega
      simp [Iterator.inc, Iterator.plus, Iterator.plus_body, h1, h2, h3, hz]
    · have h3 : (1 : Int) < it.container_end_ - it.current_ := by omega
      simp [Iterator.inc, Iterator.plus, Iterator.plus_body, h1, h2, h3]

/-- For `n < 0`, `it + n` is `it - (-n)`. -/
theorem plus_neg_eq_minus (it : Iterator) (n : Int) (hn : n < 0) :
    it.plus n = it.minus (-n) := by
  unfold Iterator.plus Iterator.minus
  by_cases h1 : it.container_begin_ + 1 = it.container_end_
  · rw [if_pos h1, if_pos h1]
  · rw [if_neg h1, if_neg h1, if_neg (by omega), if_pos hn, if_neg (by omega),
      if_neg (by omega)]

/-- `it - n` for `n ≥ 0`: the slab offset `(p - n) mod L`, except that the iterator
is at `container_end_` when `n` exceeds `p` by a multiple of `L`. -/
theorem minus_offset (it : Iterator) (n : Int) (hL : it.container_begin_ < it.container_end_)
    (hp0 : it.container_begin_ ≤ it.current_) (hp1 : it.current_ < it.container_end_)
    (hn : 0 ≤ n) :
    (it.minus n).current_ =
      if it.container_begin_ + 1 ≠ it.container_end_ ∧ it.current_ - it.container_begin_ < n ∧
          (n - (it.current_ - it.container_begin_)) %
            (it.container_end_ - it.container_begin_) = 0
        then it.container_end_
        else it.container_begin_ +
          (it.current_ - it.container_begin_ - n) % (it.container_end_ - it.container_begin_) := by
  unfold Iterator.minus
  by_cases h1 : it.container_begin_ + 1 = it.container_end_
  · rw [if_pos h1, if_neg (by intro hc; exact hc.1 h1)]
    have hone : it.container_end_ - it.container_begin_ = 1 := by omega
    rw [hone, Int.emod_one]
    omega
  · rw [if_neg h1]
    by_cases h0 : n = 0
    · rw [if_pos h0, if_neg (by intro hc; omega), h0, sub_zero,
        Int.emod_eq_of_lt (by omega) (by omega)]
      omega
    · rw [if_neg h0, if_neg (by omega)]
      unfold Iterator.minus_body
      dsimp only
      by_cases hle : n ≤ it.current_ - it.container_begin_
      · rw [if_pos hle, if_neg (by intro hc; omega)]
        dsimp only
        rw [Int.emod_eq_of_lt (by omega) (by omega)]
        omega
      · rw [if_neg hle]
        dsimp only
        rw [Int.tmod_eq_emod (by omega) (by omega)]
        have hLpos : 0 < it.container_end_ - it.container_begin_ := by omega
        have hr0 := Int.emod_nonneg (n - (it.current_ - it.container_begin_)) (ne_of_gt hLpos)
        have hr1 := Int.emod_lt_of_pos (n - (it.current_ - it.container_begin_)) hLpos
        have hdiv := Int.emod_add_ediv (n - (it.current_ - it.container_begin_))
          (it.container_end_ - it.container_begin_)
        by_cases hz : (n - (it.current_ - it.container_begin_)) %
            (it.container_end_ - it.container_begin_) = 0
        · rw [if_pos ⟨h1, by omega, hz⟩, hz, sub_zero]
        · rw [if_neg (by intro hc; exact hz hc.2.2)]
          have e : it.current_ - it.container_begin_ - n =
              ((it.container_end_ - it.container_begin_) -
                (n - (it.current_ - it.container_begin_)) %
                  (it.container_end_ - it.container_begin_)) +
              (it.container_end_ - it.container_begin_) *
                (-((n - (it.current_ - it.container_begin_)) /
                  (it.container_end_ - it.container_begin_)) - 1) := by
            linear_combination hdiv
          have hmod : (it.current_ - it.container_begin_ - n) %
              (it.container_end_ - it.container_begin_) =
              (it.container_end_ - it.container_begin_) -
                (n - (it.current_ - it.container_begin_)) %
                  (it.container_end_ - it.container_begin_) := by
            rw [e, Int.add_mul_emod_self_left]
            exact Int.emod_eq_of_lt (by omega) (by omega)
          rw [hmod]
          ring

/-- The comparisons of `a = begin() + i` and `b = begin() + j` agree with the order
of `i` and `j` unless `a` lies before the wrap point and `b` after it. -/
theorem ordering_spec {s : CircularBufferCommon α} (h : WF s) (i j : Nat) (hi : i ≤ s.size)
    (hj : j ≤ s.size)
    (hgood : ¬ (s.data_begin_ + i < s.container_end_ ∧ s.container_end_ ≤ s.data_begin_ + j)) :
    (s.cbegin.plus i).less (s.cbegin.plus j) = Except.ok (decide (i < j)) ∧
      (s.cbegin.plus i).greater (s.cbegin.plus j) = Except.ok (decide (i > j)) ∧
      (s.cbegin.plus i).less_equal (s.cbegin.plus j) = Except.ok (decide (i ≤ j)) ∧
      (s.cbegin.plus i).greater_equal (s.cbegin.plus j) = Except.ok (decide (i ≥ j)) := by
  have hlt := size_lt h
  have hd := difference_spec h i j hi hj
  rw [if_neg hgood, add_zero] at hd
  obtain ⟨a1, -, -, -⟩ := cbegin_plus h i hi
  obtain ⟨b1, -, -, -⟩ := cbegin_plus h j hj
  have hinj : (s.cbegin.plus i).current_ = (s.cbegin.plus j).current_ ↔ i = j := by
    rw [a1, b1]
    obtain ⟨-, -, h1, h2, h3, h4, h5, h6⟩ := h
    unfold phys
    constructor
    · intro hh; split_ifs at hh <;> omega
    · intro hh; rw [hh]
  have hless : (s.cbegin.plus i).less (s.cbegin.plus j) = Except.ok (decide (i < j)) := by
    unfold Iterator.less Iterator.not_equal Iterator.equal
    by_cases hij : i = j
    · have hc := hinj.2 hij
      simp [hc, hij]
    · have hc : ¬ (s.cbegin.plus i).current_ = (s.cbegin.plus j).current_ :=
        fun hh => hij (hinj.1 hh)
      simp only [hc, decide_False, Bool.not_false, if_true, hd]
      show Except.ok (decide ((i : Int) - j < 0)) = Except.ok (decide (i < j))
      congr 1
      simp only [decide_eq_decide]
      omega
  have hgreater : (s.cbegin.plus i).greater (s.cbegin.plus j) = Except.ok (decide (i > j)) := by
    unfold Iterator.greater Iterator.not_equal Iterator.equal
    by_cases hij : i = j
    · have hc := hinj.2 hij
      simp [hc, hij]
    · have hc : ¬ (s.cbegin.plus i).current_ = (s.cbegin.plus j).current_ :=
        fun hh => hij (hinj.1 hh)
      simp only [hc, decide_False, Bool.not_false, if_true, hd]
      show Except.ok (decide ((i : Int) - j > 0)) = Except.ok (decide (i > j))
      congr 1
      simp only [decide_eq_decide]
      omega
  refine ⟨hless, hgreater, ?_, ?_⟩
  · unfold Iterator.less_equal
    rw [hgreater]
    show Except.ok (!decide (i > j)) = Except.ok (decide (i ≤ j))
    congr 1
    by_cases hc : i > j <;> simp [hc]; omega
  · unfold Iterator.greater_equal
    rw [hless]
    show Except.ok (!decide (i < j)) = Except.ok (decide (i ≥ j))
    congr 1
    by_cases hc : i < j <;> simp [hc]; omega

/-- `erase(begin(), begin())` and `erase(end(), end())` throw. -/
theorem erase_range_empty_throws {s : CircularBufferCommon α} (h : WF s) :
    s.erase_range s.cbegin s.cbegin = Except.error Exception.out_of_range ∧
      s.erase_range s.cend s.cend = Except.error Exception.out_of_range := by
  have hs := size_eq h
  have hlt := size_lt h
  obtain ⟨-, -, h1, h2, h3, h4, h5, h6⟩ := h
  have hb : s.cbegin.difference s.cbegin = Except.ok 0 := by
    simp [Iterator.difference, Iterator.distance, cbegin]
  have he : s.cend.difference s.cbegin = Except.ok (s.cend.distance s.cbegin) := by
    simp [Iterator.difference, cbegin, cend]
  constructor
  · unfold erase_range
    rw [if_neg (by simp only [cbegin, container_begin_]; omega), hb]
    dsimp only
    rw [if_pos (by right; simp only [to_size_type]; omega)]
  · unfold erase_range
    rw [if_neg (by simp only [cend, container_begin_]; omega), he]
    dsimp only
    rw [if_pos (by left; exact le_refl _)]

/-- After `a.swap(b)` the slab of `a` has `capacity() + 1` slots, and the slab of
`b` has `size() + 1` slots while its `capacity()` is the one `a` had. -/
theorem swap_allocation {a b : CircularBufferCommon α} (ha : WF a) (hb : WF b) :
    (swap a b).1.slab.length = (swap a b).1.capacity + 1 ∧
      (swap a b).2.slab.length = a.size + 1 ∧ (swap a b).2.capacity = a.capacity ∧
      (swap a b).2.size = a.size := by
  have hla := size_lt ha
  have hlb := size_lt hb
  have hca := capacity_eq ha
  have hcb := capacity_eq hb
  obtain ⟨s1, s2, s3, s4, -⟩ := swap_spec ha hb
  have hsz2 : (swap a b).2.size = a.size := by
    have := congrArg List.length s2
    simpa [contents_length] using this
  refine ⟨?_, ?_, s4, hsz2⟩
  · rw [s3, swap_eq ha hb]
    simp only [List.length_append, contents_length, List.length_replicate]
    omega
  · rw [swap_eq ha hb]
    simp only [List.length_append, contents_length, List.length_replicate]
    omega

/-! ## Facts used by the claims on narrowed indices and on reference parameters -/

/-- `operator[]` at an index in the range of `int` reads the element at that
logical index. -/
theorem op_index_eq_index (s : CircularBufferCommon α) (i : Nat) (hi : (i : Int) < 2 ^ 31) :
    s.op_index i = s.index i := by
  unfold op_index index
  rw [to_int_natCast i hi]

/-- `operator[]` at an index `i` in `(2 ^ 31, 2 ^ 32)`: `operator+(int)` receives
`i - 2 ^ 32`, a negative number, and steps back from `begin()`, to the slot of
logical index `i - 2 ^ 32 + (capacity() + 1)`. -/
theorem op_index_narrowed {s : CircularBufferCommon α} (h : WF s) (i k : Nat)
    (hi1 : 2 ^ 31 < (i : Int)) (hi2 : (i : Int) < 2 ^ 32) (hk0 : 0 < k)
    (hk : (k : Int) + 2 ^ 32 = i + s.container_end_) :
    s.op_index i = s.index k := by
  have hwf := h
  obtain ⟨-, -, h1, h2, h3, h4, h5, h6⟩ := h
  have hti : to_int (i : Int) = (i : Int) - 2 ^ 32 := by unfold to_int; omega
  rw [index_eq hwf k (by omega)]
  unfold op_index
  rw [hti]
  clear hti
  congr 1
  simp only [Iterator.plus, Iterator.minus_body, cbegin, container_begin_]
  rw [if_neg (by omega), if_neg (by omega), if_pos (by omega)]
  by_cases hc : -((i : Int) - 2 ^ 32) ≤ s.data_begin_ - 0
  · rw [if_pos hc]
    unfold phys
    dsimp only
    split_ifs <;> omega
  · rw [if_neg hc]
    dsimp only
    rw [Int.tmod_eq_of_lt (by omega) (by omega)]
    unfold phys
    split_ifs <;> omega

theorem store_ref_value (s : CircularBufferCommon α) (p : Int) (v : α) :
    s.store_ref p (Ref.value v) = s.construct p v := rfl

theorem after_reserve_value (b : Bool) (v : α) :
    (Ref.value v).after_reserve b = Ref.value v := rfl

theorem after_reserve_absorb (b : Bool) (value : Ref α) :
    (value.after_reserve true).after_reserve b = value.after_reserve true := by
  cases value <;> rfl

/-- `expansion(capacity())` always allocates: a reference into the slab dangles
after it. -/
theorem expansion_ref_eq (s : CircularBufferCommon α) (value : Ref α) :
    CircularBufferExt.expansion_ref s s.capacity value = value.after_reserve true := by
  unfold CircularBufferExt.expansion_ref reserve_reallocates
  by_cases hc : s.capacity = 0
  · simp only [hc, if_true]
    have : decide (0 < 1) = true := rfl
    rw [this, after_reserve_absorb]
  · simp only [hc, if_false]
    have : decide (s.capacity < s.capacity * 2) = true := by
      apply decide_eq_true; omega
    rw [this]

theorem CircularBuffer.push_back_ref_value (s : CircularBufferCommon α) (v : α) :
    CircularBuffer.push_back_ref s (Ref.value v) = CircularBuffer.push_back s v := rfl

theorem CircularBuffer.push_front_ref_value (s : CircularBufferCommon α) (v : α) :
    CircularBuffer.push_front_ref s (Ref.value v) = CircularBuffer.push_front s v := rfl

theorem CircularBufferExt.ext_push_back_ref_value (s : CircularBufferCommon α) (v : α) :
    CircularBufferExt.push_back_ref s (Ref.value v) = CircularBufferExt.push_back s v := by
  unfold CircularBufferExt.push_back_ref CircularBufferExt.push_back
  rw [expansion_ref_eq, after_reserve_value, ite_self]
  rfl

theorem CircularBufferExt.ext_push_front_ref_value (s : CircularBufferCommon α) (v : α) :
    CircularBufferExt.push_front_ref s (Ref.value v) = CircularBufferExt.push_front s v := by
  unfold CircularBufferExt.push_front_ref CircularBufferExt.push_front
  rw [expansion_ref_eq, after_reserve_value, ite_self]
  rfl

theorem insert_middle_ref_value (s : CircularBufferCommon α) (index : Nat) (v : α) :
    s.insert_middle_ref index (Ref.value v) = s.insert_middle index v := rfl

/-- `CircularBuffer::insert(p, value)` with an object outside the buffer. -/
theorem CircularBuffer.insert_ref_value (s : CircularBufferCommon α) (p : Iterator) (v : α) :
    CircularBuffer.insert_ref s p (Ref.value v) = CircularBuffer.insert s p v := rfl

/-- `CircularBufferExt::insert(p, value)` with an object outside the buffer. -/
theorem CircularBufferExt.ext_insert_ref_value (s : CircularBufferCommon α) (p : Iterator)
    (v : α) :
    CircularBufferExt.insert_ref s p (Ref.value v) = CircularBufferExt.insert s p v := by
  unfold CircularBufferExt.insert_ref CircularBufferExt.insert
  simp only [expansion_ref_eq, after_reserve_value, ite_self,
    CircularBufferExt.ext_push_back_ref_value, CircularBufferExt.ext_push_front_ref_value,
    insert_middle_ref_value]

theorem resize_grow_ref_value (v : α) :
    ∀ (k : Nat) (s : CircularBufferCommon α),
      resize_grow_ref (Ref.value v) k s = resize_grow v k s := by
  intro k
  induction k with
  | zero => intro s; rfl
  | succ k ih =>
    intro s
    unfold resize_grow_ref resize_grow
    rw [store_ref_value]
    exact ih _

/-- `resize(n, value)` with an object outside the buffer. -/
theorem resize_ref_value (s : CircularBufferCommon α) (n : Nat) (v : α) :
    s.resize_ref n (Ref.value v) = s.resize n v := by
  unfold resize_ref resize
  simp only [after_reserve_value, ite_self, resize_grow_ref_value]

theorem map_after_reserve_value (b : Bool) (il : List α) :
    (il.map Ref.value).map (Ref.after_reserve b) = il.map Ref.value := by
  rw [List.map_map]
  rfl

theorem foldl_push_back_ref_value (il : List α) :
    ∀ s : CircularBufferCommon α,
      (il.map Ref.value).foldl CircularBuffer.push_back_ref s =
        il.foldl CircularBuffer.push_back s := by
  induction il with
  | nil => intro s; rfl
  | cons v il ih => intro s; exact ih _

theorem foldl_push_front_ref_value (il : List α) :
    ∀ s : CircularBufferCommon α,
      (il.map Ref.value).foldl CircularBuffer.push_front_ref s =
        il.foldl CircularBuffer.push_front s := by
  induction il with
  | nil => intro s; rfl
  | cons v il ih => intro s; exact ih _

theorem ext_foldl_push_back_ref_value (il : List α) :
    ∀ s : CircularBufferCommon α,
      (il.map Ref.value).foldl CircularBufferExt.push_back_ref s =
        il.foldl CircularBufferExt.push_back s := by
  induction il with
  | nil => intro s; rfl
  | cons v il ih =>
    intro s
    simp only [List.map_cons, List.foldl_cons, CircularBufferExt.ext_push_back_ref_value]
    exact ih _

theorem ext_foldl_push_front_ref_value (il : List α) :
    ∀ s : CircularBufferCommon α,
      (il.map Ref.value).foldl CircularBufferExt.push_front_ref s =
        il.foldl CircularBufferExt.push_front s := by
  induction il with
  | nil => intro s; rfl
  | cons v il ih =>
    intro s
    simp only [List.map_cons, List.foldl_cons, CircularBufferExt.ext_push_front_ref_value]
    exact ih _

theorem insert_fill_ref_value (to_insert : Iterator) (il : List α) :
    ∀ (k : Nat) (s : CircularBufferCommon α),
      insert_fill_ref to_insert (il.map Ref.value) k s = insert_fill to_insert il k s := by
  induction il with
  | nil => intro k s; rfl
  | cons v il ih => intro k s; exact ih _ _

theorem insert_bulk_middle_ref_value (s : CircularBufferCommon α) (index : Nat) (il : List α) :
    s.insert_bulk_middle_ref index (il.map Ref.value) = s.insert_bulk_middle index il := by
  unfold insert_bulk_middle_ref insert_bulk_middle
  simp only [List.length_map, insert_fill_ref_value]

theorem CircularBuffer.insert_bulk_ref_value (s : CircularBufferCommon α) (index : Nat)
    (il : List α) :
    CircularBuffer.insert_bulk_ref s index (il.map Ref.value) =
      CircularBuffer.insert_bulk s index il := by
  unfold CircularBuffer.insert_bulk_ref CircularBuffer.insert_bulk
  simp only [List.length_map, map_after_reserve_value, foldl_push_back_ref_value,
    foldl_push_front_ref_value, insert_bulk_middle_ref_value]

theorem CircularBufferExt.ext_insert_bulk_ref_value (s : CircularBufferCommon α) (index : Nat)
    (il : List α) :
    CircularBufferExt.insert_bulk_ref s index (il.map Ref.value) =
      CircularBufferExt.insert_bulk s index il := by
  unfold CircularBufferExt.insert_bulk_ref CircularBufferExt.insert_bulk
  simp only [List.length_map, map_after_reserve_value, ext_foldl_push_back_ref_value,
    ext_foldl_push_front_ref_value, insert_bulk_middle_ref_value]

/-- `CircularBuffer::insert(p, n, value)` with an object outside the buffer. -/
theorem CircularBuffer.insert_n_ref_value (s : CircularBufferCommon α) (p : Iterator) (n : Nat)
    (v : α) :
    CircularBuffer.insert_n_ref s p n (Ref.value v) = CircularBuffer.insert_n s p n v := by
  unfold CircularBuffer.insert_n_ref CircularBuffer.insert_n
  have : List.replicate n (Ref.value v) = (List.replicate n v).map Ref.value := by
    rw [List.map_replicate]
  simp only [this, CircularBuffer.insert_bulk_ref_value]

/-- `CircularBufferExt::insert(p, n, value)` with an object outside the buffer. -/
theorem CircularBufferExt.ext_insert_n_ref_value (s : CircularBufferCommon α) (p : Iterator)
    (n : Nat) (v : α) :
    CircularBufferExt.insert_n_ref s p n (Ref.value v) = CircularBufferExt.insert_n s p n v := by
  unfold CircularBufferExt.insert_n_ref CircularBufferExt.insert_n
  have : List.replicate n (Ref.value v) = (List.replicate n v).map Ref.value := by
    rw [List.map_replicate]
  simp only [this, CircularBufferExt.ext_insert_bulk_ref_value]

/-- The logical contents do not depend on the flag `ub`. -/
theorem contents_ub (s : CircularBufferCommon α) (b : Bool) :
    ({ s with ub := b } : CircularBufferCommon α).contents = s.contents := rfl

theorem contents_getElem? (s : CircularBufferCommon α) (i : Nat) (hi : i < s.size) :
    s.contents[i]? = some (s.index i) := by
  simp only [contents, List.getElem?_map, List.getElem?_range hi, Option.map_some']

/-- Two descriptions of the logical contents, slot by slot. -/
theorem contents_eq_of_index (s : CircularBufferCommon α) (ys : List (Option α))
    (hl : s.size = ys.length) (h : ∀ i : Nat, i < ys.length → some (s.index i) = ys[i]?) :
    s.contents = ys := by
  apply List.ext_getElem?
  intro n
  by_cases hn : n < ys.length
  · rw [contents_getElem? s n (by omega), h n hn]
  · have h1 : s.contents[n]? = none := by
      apply List.getElem?_eq_none; rw [contents_length]; omega
    have h2 : ys[n]? = none := List.getElem?_eq_none (by omega)
    rw [h1, h2]

/-- The end of `push_back` on a buffer with room, whatever is stored in the new
slot: the stored value is appended. -/
theorem push_back_store_spec {s : CircularBufferCommon α} (x : Option α) (b : Bool)
    (h : WF s) (hnf : s.size < s.capacity) :
    CursorsOK (⟨(s.store s.data_end_ x).slab, s.container_end_, s.data_begin_,
        (if s.container_end_ = s.data_end_ + 1 then 0 else s.data_end_ + 1), b⟩ :
        CircularBufferCommon α) ∧
      (⟨(s.store s.data_end_ x).slab, s.container_end_, s.data_begin_,
        (if s.container_end_ = s.data_end_ + 1 then 0 else s.data_end_ + 1), b⟩ :
        CircularBufferCommon α).contents = s.contents ++ [x] := by
  have hs := size_eq h
  have hcap := capacity_eq h
  have hslt := size_lt h
  have hwf := h
  obtain ⟨hub, hlen, h1, h2, h3, h4, h5, h6⟩ := h
  refine ⟨⟨h1, h2, h3, h4, ?_, ?_⟩, ?_⟩
  · dsimp only; split_ifs <;> omega
  · dsimp only; split_ifs <;> omega
  show (⟨(s.store s.data_end_ x).slab, s.container_end_, s.data_begin_,
        (if s.container_end_ = s.data_end_ + 1 then 0 else s.data_end_ + 1), false⟩ :
        CircularBufferCommon α).contents = s.contents ++ [x]
  generalize ht : (⟨(s.store s.data_end_ x).slab, s.container_end_, s.data_begin_,
        (if s.container_end_ = s.data_end_ + 1 then 0 else s.data_end_ + 1), false⟩ :
        CircularBufferCommon α) = t
  have e1 : t.container_end_ = s.container_end_ := by rw [← ht]
  have e2 : t.data_begin_ = s.data_begin_ := by rw [← ht]
  have e3 : t.data_end_ = if s.container_end_ = s.data_end_ + 1 then 0 else s.data_end_ + 1 := by
    rw [← ht]
  have e4 : t.slab = (s.store s.data_end_ x).slab := by rw [← ht]
  have e5 : t.ub = false := by rw [← ht]
  have hwf' : WF t := by
    refine ⟨e5, ?_, ?_, ?_, ?_, ?_, ?_, ?_⟩
    · rw [e1, e4, store_length]; exact hlen
    · rw [e1]; exact h1
    · rw [e1]; exact h2
    · rw [e2]; exact h3
    · rw [e1, e2]; exact h4
    · rw [e3]; split_ifs <;> omega
    · rw [e1, e3]; split_ifs <;> omega
  have hs' := size_eq hwf'
  rw [e1, e2, e3] at hs'
  have hsize' : t.size = s.size + 1 := by
    split_ifs at hs hs' <;> omega
  apply contents_eq_of_index
  · rw [hsize', List.length_append, contents_length]; rfl
  intro i hi
  rw [List.length_append, contents_length, List.length_singleton] at hi
  rw [index_eq hwf' i (by rw [e1]; omega), deref_congr e4, e1, e2,
    deref_store _ _ _ _ h5 (by omega)]
  by_cases hie : i = s.size
  · rw [if_pos ((phys_eq_end hwf i (by omega)).2 hie)]
    subst hie
    rw [List.getElem?_append_right (by rw [contents_length]), contents_length]
    simp
  · rw [if_neg (fun hh => hie ((phys_eq_end hwf i (by omega)).1 hh))]
    have hlt : i < s.size := by omega
    rw [← index_eq hwf i (by omega),
      List.getElem?_append_left (by rw [contents_length]; exact hlt),
      contents_getElem? s i hlt]

/-- The end of `push_front` on a buffer with room, whatever is stored in the new
slot: the stored value is prepended. -/
theorem push_front_store_spec {s : CircularBufferCommon α} (x : Option α) (b : Bool)
    (h : WF s) (hnf : s.size < s.capacity) :
    CursorsOK (⟨(s.store (if (0 : Int) = s.data_begin_ then s.container_end_ - 1
          else s.data_begin_ - 1) x).slab, s.container_end_,
        (if (0 : Int) = s.data_begin_ then s.container_end_ - 1 else s.data_begin_ - 1),
        s.data_end_, b⟩ : CircularBufferCommon α) ∧
      (⟨(s.store (if (0 : Int) = s.data_begin_ then s.container_end_ - 1
          else s.data_begin_ - 1) x).slab, s.container_end_,
        (if (0 : Int) = s.data_begin_ then s.container_end_ - 1 else s.data_begin_ - 1),
        s.data_end_, b⟩ : CircularBufferCommon α).contents = x :: s.contents := by
  have hs := size_eq h
  have hcap := capacity_eq h
  have hslt := size_lt h
  have hwf := h
  obtain ⟨hub, hlen, h1, h2, h3, h4, h5, h6⟩ := h
  generalize hnb : (if (0 : Int) = s.data_begin_ then s.container_end_ - 1
    else s.data_begin_ - 1) = nb
  have hnb0 : 0 ≤ nb := by rw [← hnb]; split_ifs <;> omega
  have hnb1 : nb < s.container_end_ := by rw [← hnb]; split_ifs <;> omega
  refine ⟨⟨h1, h2, hnb0, hnb1, h5, h6⟩, ?_⟩
  show (⟨(s.store nb x).slab, s.container_end_, nb, s.data_end_, false⟩ :
        CircularBufferCommon α).contents = x :: s.contents
  generalize ht : (⟨(s.store nb x).slab, s.container_end_, nb, s.data_end_, false⟩ :
        CircularBufferCommon α) = t
  have e1 : t.container_end_ = s.container_end_ := by rw [← ht]
  have e2 : t.data_begin_ = nb := by rw [← ht]
  have e3 : t.data_end_ = s.data_end_ := by rw [← ht]
  have e4 : t.slab = (s.store nb x).slab := by rw [← ht]
  have e5 : t.ub = false := by rw [← ht]
  have hwf' : WF t := by
    refine ⟨e5, ?_, ?_, ?_, ?_, ?_, ?_, ?_⟩
    · rw [e1, e4, store_length]; exact hlen
    · rw [e1]; exact h1
    · rw [e1]; exact h2
    · rw [e2]; exact hnb0
    · rw [e1, e2]; exact hnb1
    · rw [e3]; exact h5
    · rw [e1, e3]; exact h6
  have hs' := size_eq hwf'
  rw [e1, e2, e3] at hs'
  have hsize' : t.size = s.size + 1 := by
    rw [← hnb] at hs'
    split_ifs at hs hs' <;> omega
  apply contents_eq_of_index
  · rw [hsize', List.length_cons, contents_length]
  intro i hi
  rw [List.length_cons, contents_length] at hi
  rw [index_eq hwf' i (by rw [e1]; omega), deref_congr e4, e1, e2,
    deref_store _ _ _ _ hnb0 (by omega)]
  by_cases hi0 : i = 0
  · subst hi0
    have hp : phys s.container_end_ nb ((0 : Nat) : Int) = nb := by
      unfold phys; push_cast; split_ifs <;> omega
    rw [if_pos hp]
    simp
  · have hp : phys s.container_end_ nb (i : Int) =
        phys s.container_end_ s.data_begin_ ((i - 1 : Nat) : Int) := by
      rw [← hnb]; unfold phys; split_ifs <;> omega
    have hne : phys s.container_end_ nb (i : Int) ≠ nb := by
      unfold phys; split_ifs <;> omega
    rw [if_neg hne, hp, ← index_eq hwf (i - 1) (by omega)]
    obtain ⟨j, rfl⟩ : ∃ j, i = j + 1 := ⟨i - 1, by omega⟩
    rw [List.getElem?_cons_succ, contents_getElem? s j (by omega)]
    simp

theorem read_ref_released (s t : CircularBufferCommon α) (value : Ref α) :
    s.read_ref (value.after_reserve true) = t.read_ref (value.after_reserve true) := by
  cases value <;> rfl

/-- The buffer on which a push of `CircularBufferExt` constructs the new element:
it has room, the contents of `s`, and the capacity of the growth law. -/
theorem ext_push_room {s s1 : CircularBufferCommon α} (xs : List α)
    (h : WF s) (hc : s.contents = xs.map some) (hbound : 2 * (xs.length : Int) + 2 < 2 ^ 63)
    (hs1 : (if s.size = s.capacity then CircularBufferExt.expansion s s.capacity else s) = s1) :
    WF s1 ∧ s1.contents = xs.map some ∧
      s1.capacity = (if s.size = s.capacity then max 1 (2 * s.capacity) else s.capacity) ∧
      s1.size < s1.capacity := by
  have hsz := size_of_contents hc
  have hslt := size_lt h
  have hcapeq := capacity_eq h
  by_cases hf : s.size = s.capacity
  · rw [if_pos hf] at hs1 ⊢
    obtain ⟨w1, w2, w3⟩ := expansion_spec h (by omega)
    rw [hs1] at w1 w2 w3
    refine ⟨w1, w2.trans hc, w3, ?_⟩
    have := size_of_contents (w2.trans hc)
    omega
  · rw [if_neg hf] at hs1 ⊢
    subst hs1
    exact ⟨h, hc, rfl, by omega⟩

/-- One `push_back` on a `CircularBufferExt`, the argument read through its
reference: the element appended is what the read gives, after `expansion` when
the buffer was full, and `ub` records a read that is undefined behaviour. -/
theorem CircularBufferExt.ext_push_back_ref_spec {s : CircularBufferCommon α} (value : Ref α)
    (xs : List α) (h : WF s) (hc : s.contents = xs.map some)
    (hbound : 2 * (xs.length : Int) + 2 < 2 ^ 63) :
    CursorsOK (CircularBufferExt.push_back_ref s value) ∧
      (CircularBufferExt.push_back_ref s value).capacity =
        (if s.size = s.capacity then max 1 (2 * s.capacity) else s.capacity) ∧
      (CircularBufferExt.push_back_ref s value).contents = xs.map some ++
        [(s.read_ref (if s.size = s.capacity then value.after_reserve true else value)).1] ∧
      (CircularBufferExt.push_back_ref s value).ub =
        (s.read_ref (if s.size = s.capacity then value.after_reserve true else value)).2 := by
  generalize hs1 : (if s.size = s.capacity then CircularBufferExt.expansion s s.capacity else s)
    = s1
  obtain ⟨w1, w2, w3, w4⟩ := ext_push_room xs h hc hbound hs1
  generalize hv1 : (if s.size = s.capacity then value.after_reserve true else value) = value1
  have hread : s1.read_ref value1 = s.read_ref value1 := by
    by_cases hf : s.size = s.capacity
    · rw [if_pos hf] at hv1; rw [← hv1]; exact read_ref_released _ _ _
    · rw [if_neg hf] at hs1; rw [← hs1]
  have hub1 : (s1.store s1.data_end_ (s1.read_ref value1).1).ub = false := by
    rw [store_ub _ _ _ w1.2.2.2.2.2.2.1 (by have := w1.2.1; have := w1.2.2.2.2.2.2.2; omega)]
    exact w1.1
  have heq : CircularBufferExt.push_back_ref s value =
      ⟨(s1.store s1.data_end_ (s1.read_ref value1).1).slab, s1.container_end_, s1.data_begin_,
        (if s1.container_end_ = s1.data_end_ + 1 then 0 else s1.data_end_ + 1),
        (s1.read_ref value1).2⟩ := by
    unfold CircularBufferExt.push_back_ref
    rw [expansion_ref_eq, hs1, hv1]
    unfold store_ref
    simp only [store_data_end, store_container_end, store_data_begin, container_begin_, hub1,
      Bool.or_false]
    split_ifs <;> rfl
  obtain ⟨c1, c2⟩ := push_back_store_spec (s1.read_ref value1).1 (s1.read_ref value1).2 w1 w4
  rw [heq]
  refine ⟨c1, ?_, ?_, ?_⟩
  · rw [← w3]; exact capacity_congr rfl
  · rw [c2, w2, hread]
  · rw [← hread]

/-- One `push_front` on a `CircularBufferExt`, the argument read through its
reference. -/
theorem CircularBufferExt.ext_push_front_ref_spec {s : CircularBufferCommon α} (value : Ref α)
    (xs : List α) (h : WF s) (hc : s.contents = xs.map some)
    (hbound : 2 * (xs.length : Int) + 2 < 2 ^ 63) :
    CursorsOK (CircularBufferExt.push_front_ref s value) ∧
      (CircularBufferExt.push_front_ref s value).capacity =
        (if s.size = s.capacity then max 1 (2 * s.capacity) else s.capacity) ∧
      (CircularBufferExt.push_front_ref s value).contents =
        (s.read_ref (if s.size = s.capacity then value.after_reserve true else value)).1 ::
          xs.map some ∧
      (CircularBufferExt.push_front_ref s value).ub =
        (s.read_ref (if s.size = s.capacity then value.after_reserve true else value)).2 := by
  generalize hs1 : (if s.size = s.capacity then CircularBufferExt.expansion s s.capacity else s)
    = s1
  obtain ⟨w1, w2, w3, w4⟩ := ext_push_room xs h hc hbound hs1
  generalize hv1 : (if s.size = s.capacity then value.after_reserve true else value) = value1
  have hread : s1.read_ref value1 = s.read_ref value1 := by
    by_cases hf : s.size = s.capacity
    · rw [if_pos hf] at hv1; rw [← hv1]; exact read_ref_released _ _ _
    · rw [if_neg hf] at hs1; rw [← hs1]
  have hnb : 0 ≤ (if (0 : Int) = s1.data_begin_ then s1.container_end_ - 1
      else s1.data_begin_ - 1) ∧
      (if (0 : Int) = s1.data_begin_ then s1.container_end_ - 1 else s1.data_begin_ - 1) <
        (s1.slab.length : Int) := by
    obtain ⟨-, hlen, h1, h2, h3, h4, h5, h6⟩ := w1
    constructor <;> split_ifs <;> omega
  have hub1 : (s1.store (if (0 : Int) = s1.data_begin_ then s1.container_end_ - 1
      else s1.data_begin_ - 1) (s1.read_ref value1).1).ub = false := by
    rw [store_ub _ _ _ hnb.1 hnb.2]
    exact w1.1
  have heq : CircularBufferExt.push_front_ref s value =
      ⟨(s1.store (if (0 : Int) = s1.data_begin_ then s1.container_end_ - 1
          else s1.data_begin_ - 1) (s1.read_ref value1).1).slab, s1.container_end_,
        (if (0 : Int) = s1.data_begin_ then s1.container_end_ - 1 else s1.data_begin_ - 1),
        s1.data_end_, (s1.read_ref value1).2⟩ := by
    unfold CircularBufferExt.push_front_ref
    rw [expansion_ref_eq, hs1, hv1]
    unfold store_ref
    simp only [store_data_end, store_container_end, store_data_begin, container_begin_, hub1,
      Bool.or_false]
  obtain ⟨c1, c2⟩ := push_front_store_spec (s1.read_ref value1).1 (s1.read_ref value1).2 w1 w4
  rw [heq]
  refine ⟨c1, ?_, ?_, ?_⟩
  · rw [← w3]; exact capacity_congr rfl
  · rw [c2, w2, hread]
  · rw [← hread]

/-- A run of calls on a `CircularBufferExt` whose arguments are objects outside
the buffer. -/
theorem ext_push_ref_by_value (calls : List (PushCall α)) :
    ∀ s : CircularBufferCommon α,
      (calls.map PushCall.by_value).foldl CircularBufferExt.push_ref s =
        calls.foldl CircularBufferExt.push s := by
  induction calls with
  | nil => intro s; rfl
  | cons c cs ih =>
    intro s
    simp only [List.map_cons, List.foldl_cons]
    cases c with
    | back v =>
      simp only [PushCall.by_value, CircularBufferExt.push_ref, CircularBufferExt.push,
        CircularBufferExt.ext_push_back_ref_value]
      exact ih _
    | front v =>
      simp only [PushCall.by_value, CircularBufferExt.push_ref, CircularBufferExt.push,
        CircularBufferExt.ext_push_front_ref_value]
      exact ih _

/-- Filling a bounded buffer of capacity `N` with `0, 1, ..., N - 1` by `push_back`
and reading index `i` in `(2 ^ 31, 2 ^ 32)`: the element at that logical index
is `i`, and `operator[]` returns the element `k = i - 2 ^ 32 + N + 1`. -/
theorem push_back_range_narrowed (N i k : Nat) (hN : (N : Int) + 1 < 2 ^ 63) (hi : i < N)
    (hi1 : 2 ^ 31 < (i : Int)) (hi2 : (i : Int) < 2 ^ 32) (hk0 : 0 < k) (hkN : k < N)
    (hk : (k : Int) + 2 ^ 32 = i + N + 1) :
    ((List.range N).foldl CircularBuffer.push_back (mk_sized N)).index i = some i ∧
      ((List.range N).foldl CircularBuffer.push_back (mk_sized N)).op_index i = some k := by
  obtain ⟨m1, m2, m3, m4⟩ := @mk_sized_spec Nat N hN
  obtain ⟨w1, w2, w3, -⟩ := foldl_push_back_spec (List.range N) (mk_sized N) [] m1
    (by rw [m2]; rfl) (by rw [m4, List.length_range]; simp)
  rw [List.nil_append, contents_eq_iff, List.length_range] at w2
  obtain ⟨-, hidx⟩ := w2
  have hL : ((List.range N).foldl CircularBuffer.push_back (mk_sized N)).container_end_ =
      (N : Int) + 1 := by
    rw [w3]; rfl
  refine ⟨?_, ?_⟩
  · rw [hidx i hi, List.getElem?_range hi]
  · rw [op_index_narrowed w1 i k hi1 hi2 hk0 (by rw [hL]; omega), hidx k hkN,
      List.getElem?_range hkN]

/-- An iterator that carries the bounds and cursors of the buffer and points where
`begin() + n` points is `begin() + n`. -/
theorem iterator_eq_cbegin_plus (s : CircularBufferCommon α) (q : Iterator) (n : Int)
    (hq1 : q.container_begin_ = s.container_begin_) (hq2 : q.container_end_ = s.container_end_)
    (hq3 : q.data_begin_ = s.data_begin_) (hq4 : q.data_end_ = s.data_end_)
    (hq5 : q.current_ = (s.cbegin.plus n).current_) : q = s.cbegin.plus n := by
  obtain ⟨f1, f2, f3, f4⟩ := plus_fields s.cbegin n
  cases hx : s.cbegin.plus n with
  | mk c cb ce db de =>
    rw [hx] at hq5 f1 f2 f3 f4
    cases q with
    | mk c' cb' ce' db' de' =>
      simp only [cbegin] at hq1 hq2 hq3 hq4 hq5 f1 f2 f3 f4
      rw [hq1, hq2, hq3, hq4, hq5, f1, f2, f3, f4]

/-- `erase(q)` throws for an iterator that points outside the slab or carries
other bounds than the buffer, as every iterator of another buffer does. -/
theorem erase_foreign_throws (s : CircularBufferCommon α) (q : Iterator)
    (hq : q.current_ < 0 ∨ s.container_end_ ≤ q.current_ ∨
      q.container_begin_ ≠ s.container_begin_ ∨ q.container_end_ ≠ s.container_end_) :
    s.erase q = Except.error Exception.out_of_range := by
  unfold erase
  by_cases hb : q.current_ < s.container_begin_ ∨ q.current_ ≥ s.container_end_
  · rw [if_pos hb]
  · rw [if_neg hb]
    have hd : q.container_begin_ ≠ s.cbegin.container_begin_ ∨
        q.container_end_ ≠ s.cbegin.container_end_ := by
      unfold container_begin_ at hb
      rcases hq with h | h | h | h
      · exact absurd (Or.inl h) hb
      · exact absurd (Or.inr h) hb
      · exact Or.inl h
      · exact Or.inr h
    unfold Iterator.difference
    rw [if_pos hd]

/-- The loop of `erase(q)` ends with `index == size() - 1`, wherever its iterator
starts. -/
theorem erase_loop_index :
    ∀ (fuel idx : Nat) (it : Iterator) (s0 : CircularBufferCommon α),
      idx < s0.size → s0.size ≤ idx + fuel → (s0.size : Int) < 2 ^ 64 →
      (erase_loop fuel idx it s0).1 = s0.size - 1 := by
  intro fuel
  induction fuel with
  | zero => intro idx it s0 h1 h2 _; omega
  | succ fuel ih =>
    intro idx it s0 h1 h2 h3
    have hts : to_size_type ((s0.size : Int) - 1) = s0.size - 1 := by
      unfold to_size_type; omega
    unfold erase_loop
    rw [hts]
    by_cases hlt : idx < s0.size - 1
    · rw [if_pos hlt]
      have hsz : (s0.move_assign it.current_ (it.plus 1).current_).size = s0.size := rfl
      rw [ih (idx + 1) it.inc _ (by rw [hsz]; omega) (by rw [hsz]; omega) (by rw [hsz]; exact h3),
        hsz]
    · rw [if_neg hlt]
      show idx = s0.size - 1
      omega

/-- The iterator returned by `erase(q)` is `begin() + (size() - 1)` of the buffer
before the call, converted to `int`, whichever live element was erased. -/
theorem erase_returns_last {s : CircularBufferCommon α} (i : Nat) (h : WF s) (hi : i < s.size) :
    ∃ r, s.erase (s.cbegin.plus i) = Except.ok r ∧
      r.1 = r.2.cbegin.plus (to_int ((s.size - 1 : Nat) : Int)) := by
  have hlt := size_lt h
  obtain ⟨q1, -, -, q4⟩ := cbegin_plus h i (by omega)
  have hpb := phys_bounds s.container_end_ s.data_begin_ i h.2.2.2.2.1 h.2.2.2.2.2.1
    (by omega) (by omega)
  have h2 := h.2.2.2.1
  have hchk : ¬ ((s.cbegin.plus i).current_ < s.container_begin_ ∨
      (s.cbegin.plus i).current_ ≥ s.container_end_) := by
    rw [q1]; unfold container_begin_; omega
  have hsize : ¬ (to_size_type (i : Int) ≥ s.size) := by
    rw [to_size_type_natCast i (by omega)]; omega
  have hidx := erase_loop_index s.size i (s.cbegin.plus (to_int (i : Int))) s hi (by omega)
    (by omega)
  unfold erase
  rw [if_neg hchk, q4]
  dsimp only
  rw [if_neg hsize, to_size_type_natCast i (by omega)]
  refine ⟨_, rfl, ?_⟩
  dsimp only
  rw [hidx]

end Facts

/-! ## The claims -/

section Claims

open CircularBufferCommon

set_option maxRecDepth 100000 in
/-- C1 (code defect). Starting from an empty `CircularBuffer` of capacity `c ≥ 1`
and making at most `c` calls of `push_back`/`push_front`, after each call (after
the first `k` calls, for every `k`) reading logical index `i` with `operator[]`
or with `at` gives the `i`-th element of the list built by appending the
`push_back` values and prepending the `push_front` values in call order,
wherever the cursors lie in the slab, for every `i` in the range of `int`; and
pushing 0,1,3,6,10,15,21,28 (even to the back, odd to the front) into capacity 8
gives 21,15,3,1,0,6,10,28.  Above the range of `int` the read goes wrong:
`operator[](size_type i)` hands `i` to `operator+(int)`, and `at(int)` cannot be
given such an index at all.  In the buffer of capacity 2147483650 filled by
`push_back` with 0, 1, ..., 2147483649 the element at logical index 2147483649
is 2147483649, and `operator[]` at 2147483649 steps 2147483647 slots back from
`begin()` and returns the element 4. -/
theorem C1_wrap_correctness :
    (∀ (β : Type) (s : CircularBufferCommon β) (calls : List (PushCall β)),
      WF s → s.size = 0 → 1 ≤ s.capacity → calls.length ≤ s.capacity →
      ∀ k i : Nat, i < ((calls.take k).foldl PushCall.apply []).length → (i : Int) < 2 ^ 31 →
        ((calls.take k).foldl CircularBuffer.push s).op_index i
            = ((calls.take k).foldl PushCall.apply [])[i]? ∧
          ((calls.take k).foldl CircularBuffer.push s).at_ i
            = Except.ok (((calls.take k).foldl PushCall.apply [])[i]?)) ∧
    ((alternating_calls [0, 1, 3, 6, 10, 15, 21, 28]).foldl CircularBuffer.push
        (mk_sized 8)).contents = [21, 15, 3, 1, 0, 6, 10, 28].map some ∧
    ((List.range 2147483650).foldl CircularBuffer.push_back (mk_sized 2147483650)).index
        2147483649 = some 2147483649 ∧
    ((List.range 2147483650).foldl CircularBuffer.push_back (mk_sized 2147483650)).op_index
        2147483649 = some 4 := by
  refine ⟨?_, by decide,
    push_back_range_narrowed 2147483650 2147483649 4 (by norm_num) (by norm_num) (by norm_num)
      (by norm_num) (by norm_num) (by norm_num) (by norm_num)⟩
  intro β s calls h h0 _ hn k i hi hint
  have hlen : (calls.take k).length ≤ calls.length := by simp
  obtain ⟨h1, h2, -⟩ := CircularBuffer.push_run (calls.take k) s [] h (contents_of_size_zero h0)
    (by simp only [List.length_nil]; omega)
  have hidx := ((contents_eq_iff _ _).1 h2).2 i hi
  refine ⟨by rw [op_index_eq_index _ i hint, hidx], ?_⟩
  rw [at_eq_index h1 i (by rw [size_of_contents h2]; exact hi), hidx]

set_option maxRecDepth 100000 in
/-- Witness for C1: three pushes into an empty buffer of capacity 3, read after
the second call at index 0. -/
theorem C1_wrap_correctness_witness :
    ((([PushCall.back 5, PushCall.front 7, PushCall.back 9] : List (PushCall Nat)).take 2).foldl
        CircularBuffer.push (mk_sized 3)).op_index 0 = some 7 := by
  have h := (C1_wrap_correctness.1 Nat (mk_sized 3)
    [PushCall.back 5, PushCall.front 7, PushCall.back 9]
    (by decide) (by decide) (by decide) (by decide) 2 0 (by decide) (by decide)).1
  simpa using h

/-- C3. Eviction law of the bounded variant: on a full `CircularBuffer`
(`size() == capacity() >= 1`), `push_back(v)` turns the contents `x :: xs` into
`xs ++ [v]` and `push_front(v)` turns the contents `xs ++ [x]` into `v :: xs`;
in both cases `size() == capacity()` still holds and `capacity()` is unchanged. -/
theorem C3_eviction_law {α : Type} (s : CircularBufferCommon α) (v x : α) (xs : List α)
    (h : WF s) (hfull : s.size = s.capacity) (_hcap : 1 ≤ s.capacity) :
    (s.contents = (x :: xs).map some →
      (CircularBuffer.push_back s v).contents = (xs ++ [v]).map some ∧
        (CircularBuffer.push_back s v).size = (CircularBuffer.push_back s v).capacity ∧
        (CircularBuffer.push_back s v).capacity = s.capacity) ∧
    (s.contents = (xs ++ [x]).map some →
      (CircularBuffer.push_front s v).contents = (v :: xs).map some ∧
        (CircularBuffer.push_front s v).size = (CircularBuffer.push_front s v).capacity ∧
        (CircularBuffer.push_front s v).capacity = s.capacity) := by
  constructor
  · intro hc
    obtain ⟨-, h2, h3⟩ := CircularBuffer.push_back_full v x xs h hc hfull
    have hs := size_of_contents hc
    have hs' := size_of_contents h2
    have hcap := capacity_congr h3
    simp only [List.length_cons, List.length_append, List.length_nil] at hs hs'
    exact ⟨h2, by omega, hcap⟩
  · intro hc
    obtain ⟨-, h2, h3⟩ := CircularBuffer.push_front_full v x xs h hc hfull
    have hs := size_of_contents hc
    have hs' := size_of_contents h2
    have hcap := capacity_congr h3
    simp only [List.length_cons, List.length_append, List.length_nil] at hs hs'
    exact ⟨h2, by omega, hcap⟩

set_option maxRecDepth 100000 in
/-- Witness for C3: the full buffer 1,2,3 of capacity 3. -/
theorem C3_eviction_law_witness :
    (CircularBuffer.push_back (mk_list [1, 2, 3]) 4).contents = [2, 3, 4].map some ∧
      (CircularBuffer.push_front (mk_list [3, 2, 1]) 4).contents = [4, 3, 2].map some :=
  ⟨((C3_eviction_law (mk_list [1, 2, 3]) 4 1 [2, 3] (by decide) (by decide) (by decide)).1
      (by decide)).1,
   ((C3_eviction_law (mk_list [3, 2, 1]) 4 1 [3, 2] (by decide) (by decide) (by decide)).2
      (by decide)).1⟩

set_option maxRecDepth 100000 in
/-- C5 (code defect). After `CircularBuffer<int> cb(2); cb.push_front(7);
cb.pop_back();` the buffer reports `size() == 0` although `data_begin_` and
`data_end_` differ. -/
theorem C5_sentinel_broken_by_pop_back :
    (after_pop_back (CircularBuffer.push_front (mk_sized 2) (7 : Int))).size = 0 ∧
    (after_pop_back (CircularBuffer.push_front (mk_sized 2) (7 : Int))).data_begin_ ≠
      (after_pop_back (CircularBuffer.push_front (mk_sized 2) (7 : Int))).data_end_ := by
  decide

set_option maxRecDepth 100000 in
/-- C6 (code defect). After `CircularBuffer<int> cb(2); cb.push_front(7);
cb.pop_back();`, a `pop_back()` made while `data_end_` sat at the first slot,
`data_end_` is `container_begin_ - 1`, outside `[container_begin_, container_end_)`. -/
theorem C6_cursor_leaves_slab_on_pop_back :
    (CircularBuffer.push_front (mk_sized 2) (7 : Int)).data_end_ =
      (CircularBuffer.push_front (mk_sized 2) (7 : Int)).container_begin_ ∧
    (after_pop_back (CircularBuffer.push_front (mk_sized 2) (7 : Int))).data_end_ = -1 ∧
    ¬ ((after_pop_back (CircularBuffer.push_front (mk_sized 2) (7 : Int))).container_begin_ ≤
        (after_pop_back (CircularBuffer.push_front (mk_sized 2) (7 : Int))).data_end_) := by
  decide

set_option maxRecDepth 100000 in
/-- C7 (code defect). A buffer of capacity 2 after `push_front(7)` holds the one
element 7 in the last slot, its `data_end_` is at the first slot of the slab.
`pop_back()` then moves `data_end_` to `container_begin_ - 1`, one slot before
the allocation, reads and destroys through it, and returns an indeterminate
value instead of 7. -/
theorem C7_pop_back_at_first_slot :
    WF (CircularBuffer.push_front (mk_sized 2) (7 : Int)) ∧
    (CircularBuffer.push_front (mk_sized 2) (7 : Int)).contents = [some 7] ∧
    (CircularBuffer.push_front (mk_sized 2) (7 : Int)).data_end_ = 0 ∧
    (CircularBuffer.push_front (mk_sized 2) (7 : Int)).pop_back =
      Except.ok (none, ⟨[none, none, some 7], 3, 2, -1, true⟩) := by
  refine ⟨by decide, by decide, by decide, ?_⟩
  rfl

/-- C8. `pop_front()` on a non-empty buffer with logical contents `x :: xs`, in
every physical layout (also with `data_begin_` at the last slot of the slab),
returns `x` and leaves the logical contents `xs` with the capacity unchanged. -/
theorem C8_pop_front {α : Type} (s : CircularBufferCommon α) (x : α) (xs : List α)
    (h : WF s) (hc : s.contents = (x :: xs).map some) :
    ∃ s', s.pop_front = Except.ok (some x, s') ∧ s'.contents = xs.map some ∧
      s'.capacity = s.capacity ∧ WF s' := by
  obtain ⟨s', h1, h2, h3, h4⟩ := pop_front_spec x xs h hc
  exact ⟨s', h1, h3, capacity_congr h4, h2⟩

set_option maxRecDepth 100000 in
/-- Witness for C8: capacity 2, `push_front(7)` puts the element in the last slot. -/
theorem C8_pop_front_witness :
    ∃ s', (CircularBuffer.push_front (mk_sized 2) (7 : Int)).pop_front = Except.ok (some 7, s') ∧
      s'.contents = ([] : List Int).map some ∧
      s'.capacity = (CircularBuffer.push_front (mk_sized 2) (7 : Int)).capacity ∧ WF s' :=
  C8_pop_front (CircularBuffer.push_front (mk_sized 2) (7 : Int)) 7 [] (by decide) (by decide)

set_option maxRecDepth 100000 in
/-- C2 (code defect). On a `CircularBufferExt` with logical contents `xs`, of any
capacity (0 included), a sequence of `push_back`/`push_front` calls whose
arguments are objects outside the buffer leaves `xs` with the `push_back`
values appended and the `push_front` values prepended in call order, and
`size()` grown by the number of calls; from "Max","Maxa", `reserve(4)`,
`push_front("Marina")`, `push_back("Misha")` give "Marina","Max","Maxa","Misha".
Sizes stay below `2 ^ 62`.  With an argument that is an element of the buffer,
as in `cb.push_back(cb[i])` of the tests, the call on a full buffer reads the
argument after `expansion` has released the slab it lies in.  On `cb = {7}` the
call `cb.push_back(cb[0])` constructs the new element from a dangling
reference, where the specification has 7,7; every `push_back` and `push_front` of an
element on a full buffer does.  With room in the buffer the element is read in
place and its value is appended. -/
theorem C2_ext_no_eviction :
    (∀ (β : Type) (s : CircularBufferCommon β) (xs : List β) (calls : List (PushCall β)),
      WF s → s.contents = xs.map some →
      2 * ((xs.length : Int) + calls.length) < 2 ^ 63 →
      ((calls.map PushCall.by_value).foldl CircularBufferExt.push_ref s).contents =
          (calls.foldl PushCall.apply xs).map some ∧
        ((calls.map PushCall.by_value).foldl CircularBufferExt.push_ref s).size =
          s.size + calls.length) ∧
    (CircularBufferExt.push_back_ref
        (CircularBufferExt.push_front_ref ((mk_list ["Max", "Maxa"]).reserve 4)
          (Ref.value "Marina"))
        (Ref.value "Misha")).contents = ["Marina", "Max", "Maxa", "Misha"].map some ∧
    (CircularBufferExt.push_back_ref (mk_list [7])
        ((mk_list [7] : CircularBufferCommon Nat).op_index_ref 0)).contents = [some 7, none] ∧
    (CircularBufferExt.push_back_ref (mk_list [7])
        ((mk_list [7] : CircularBufferCommon Nat).op_index_ref 0)).ub = true ∧
    (∀ (β : Type) (s : CircularBufferCommon β) (xs : List β) (p : Int),
      WF s → s.contents = xs.map some → s.size = s.capacity →
      2 * (xs.length : Int) + 2 < 2 ^ 63 →
      (CircularBufferExt.push_back_ref s (Ref.slot p)).contents = xs.map some ++ [none] ∧
        (CircularBufferExt.push_back_ref s (Ref.slot p)).ub = true ∧
        (CircularBufferExt.push_front_ref s (Ref.slot p)).contents = none :: xs.map some ∧
        (CircularBufferExt.push_front_ref s (Ref.slot p)).ub = true) ∧
    (∀ (β : Type) (s : CircularBufferCommon β) (xs : List β) (i : Nat) (v : β),
      WF s → s.contents = xs.map some → s.size < s.capacity → xs[i]? = some v →
      2 * (xs.length : Int) + 2 < 2 ^ 63 →
      (CircularBufferExt.push_back_ref s (Ref.slot (s.cbegin.plus i).current_)).contents =
          (xs ++ [v]).map some ∧
        (CircularBufferExt.push_back_ref s (Ref.slot (s.cbegin.plus i).current_)).ub = false ∧
        (CircularBufferExt.push_front_ref s (Ref.slot (s.cbegin.plus i).current_)).contents =
          (v :: xs).map some ∧
        (CircularBufferExt.push_front_ref s (Ref.slot (s.cbegin.plus i).current_)).ub =
          false) := by
  refine ⟨?_, by decide, by decide, by decide, ?_, ?_⟩
  · intro β s xs calls h hc hb
    rw [ext_push_ref_by_value]
    obtain ⟨-, h2⟩ := CircularBufferExt.ext_push_run calls s xs h hc hb
    refine ⟨h2, ?_⟩
    rw [size_of_contents h2, size_of_contents hc, apply_run_length]
  · intro β s xs p h hc hfull hb
    obtain ⟨-, -, a3, a4⟩ := CircularBufferExt.ext_push_back_ref_spec (Ref.slot p) xs h hc hb
    obtain ⟨-, -, b3, b4⟩ := CircularBufferExt.ext_push_front_ref_spec (Ref.slot p) xs h hc hb
    rw [if_pos hfull] at a3 a4 b3 b4
    exact ⟨a3, a4, b3, b4⟩
  · intro β s xs i v h hc hroom hv hb
    have hi : i < xs.length := by
      by_contra hcon
      rw [List.getElem?_eq_none (by omega)] at hv
      exact Option.noConfusion hv
    have hd : s.deref (s.cbegin.plus i).current_ = some v := by
      have := ((contents_eq_iff _ _).1 hc).2 i hi
      rw [hv] at this
      exact this
    obtain ⟨-, -, a3, a4⟩ := CircularBufferExt.ext_push_back_ref_spec
      (Ref.slot (s.cbegin.plus i).current_) xs h hc hb
    obtain ⟨-, -, b3, b4⟩ := CircularBufferExt.ext_push_front_ref_spec
      (Ref.slot (s.cbegin.plus i).current_) xs h hc hb
    rw [if_neg (by omega)] at a3 a4 b3 b4
    simp only [read_ref, hd] at a3 a4 b3 b4
    refine ⟨?_, a4, ?_, b4⟩
    · rw [a3]; simp
    · rw [b3]; simp

set_option maxRecDepth 100000 in
/-- Witness for C2: three calls on a default-constructed buffer of capacity 0. -/
theorem C2_ext_no_eviction_witness :
    ((([PushCall.back 1, PushCall.front 2, PushCall.back 3] : List (PushCall Nat)).map
        PushCall.by_value).foldl CircularBufferExt.push_ref mk_default).contents =
      [2, 1, 3].map some :=
  (C2_ext_no_eviction.1 Nat mk_default [] [PushCall.back 1, PushCall.front 2, PushCall.back 3]
    (by decide) (by decide) (by decide)).1

/-- C4. Growth law of the auto variant: on a full `CircularBufferExt`
(`size() == capacity() == c`, `c ≥ 0`, below `2 ^ 62`) `push_back(value)` and
`push_front(value)`, whatever `value` refers to, leave
`capacity() == max(1, 2 * c)`, keep the stored elements in their logical order,
in front of the new element for `push_back` and behind it for `push_front`,
and increase `size()` by exactly 1.  The new element has the value of the
argument when the argument is an object outside the buffer; nothing is said of
it when the argument is an element of the buffer, which is then read after its
slab has been released. -/
theorem C4_ext_growth_law {α : Type} (s : CircularBufferCommon α) (xs : List α) (value : Ref α)
    (h : WF s) (hc : s.contents = xs.map some) (hfull : s.size = s.capacity)
    (hbound : 2 * (s.capacity : Int) + 2 < 2 ^ 63) :
    ((CircularBufferExt.push_back_ref s value).capacity = max 1 (2 * s.capacity) ∧
      (CircularBufferExt.push_back_ref s value).contents.take s.size = xs.map some ∧
      (CircularBufferExt.push_back_ref s value).size = s.size + 1 ∧
      ∀ v : α, value = Ref.value v →
        (CircularBufferExt.push_back_ref s value).contents = (xs ++ [v]).map some) ∧
    ((CircularBufferExt.push_front_ref s value).capacity = max 1 (2 * s.capacity) ∧
      (CircularBufferExt.push_front_ref s value).contents.drop 1 = xs.map some ∧
      (CircularBufferExt.push_front_ref s value).size = s.size + 1 ∧
      ∀ v : α, value = Ref.value v →
        (CircularBufferExt.push_front_ref s value).contents = (v :: xs).map some) := by
  have hsz := size_of_contents hc
  obtain ⟨-, a2, a3, -⟩ := CircularBufferExt.ext_push_back_ref_spec value xs h hc (by omega)
  obtain ⟨-, b2, b3, -⟩ := CircularBufferExt.ext_push_front_ref_spec value xs h hc (by omega)
  rw [if_pos hfull] at a2 a3 b2 b3
  refine ⟨⟨a2, ?_, ?_, ?_⟩, ⟨b2, ?_, ?_, ?_⟩⟩
  · rw [a3, hsz, List.take_left' (by simp)]
  · rw [← contents_length, a3]; simp [hsz]
  · intro v hv
    rw [a3, hv]; simp [Ref.after_reserve, read_ref]
  · rw [b3]; rfl
  · rw [← contents_length, b3]; simp [hsz]
  · intro v hv
    rw [b3, hv]; simp [Ref.after_reserve, read_ref]

set_option maxRecDepth 100000 in
/-- Witness for C4: the buffer 7 of capacity 1, full, with its own element as the
argument of `push_back`. -/
theorem C4_ext_growth_law_witness :
    (CircularBufferExt.push_back_ref (mk_list [7])
        ((mk_list [7] : CircularBufferCommon Nat).op_index_ref 0)).capacity = 2 ∧
      (CircularBufferExt.push_back_ref (mk_list [7])
        ((mk_list [7] : CircularBufferCommon Nat).op_index_ref 0)).contents.take 1 =
        [some 7] ∧
      (CircularBufferExt.push_back_ref (mk_list [7])
        ((mk_list [7] : CircularBufferCommon Nat).op_index_ref 0)).size = 2 :=
  ⟨(C4_ext_growth_law (mk_list [7]) [7] ((mk_list [7] : CircularBufferCommon Nat).op_index_ref 0)
      (by decide) (by decide) (by decide) (by decide)).1.1,
   (C4_ext_growth_law (mk_list [7]) [7] ((mk_list [7] : CircularBufferCommon Nat).op_index_ref 0)
      (by decide) (by decide) (by decide) (by decide)).1.2.1,
   (C4_ext_growth_law (mk_list [7]) [7] ((mk_list [7] : CircularBufferCommon Nat).op_index_ref 0)
      (by decide) (by decide) (by decide) (by decide)).1.2.2.1⟩

set_option maxRecDepth 100000 in
/-- C9 (code defect). `erase(pos)` with an iterator `pos` that carries the bounds
and cursors the buffer has at the call and addresses the live element at
logical index `i < size()` of contents `xs`, `size()` in the range of `int`,
succeeds and leaves the logical contents `xs` without its `i`-th element (the
later elements one place nearer the front, order kept), `size()` decreased by 1
and `capacity()` unchanged, in every physical layout; erasing index 1 of
21,15,3,1,0,6,10,28 gives 21,3,1,0,6,10,28.  An iterator keeps the cursors of
the moment it was made, and `q - cbegin()` in `erase` computes the index from
them: after `CircularBuffer<int> cb(4); cb.push_front(2); auto it = cb.begin();
cb.push_back(3); cb.push_front(1);` the buffer holds 1,2,3, the iterator `it`
still addresses the element 2 at index 1, no call has touched its slot, and
`cb.erase(it)` removes the element 3 and leaves 1,2. -/
theorem C9_erase_one :
    (∀ (β : Type) (s : CircularBufferCommon β) (xs : List β) (i : Nat) (q : Iterator),
      WF s → s.contents = xs.map some → i < s.size → (s.size : Int) ≤ 2 ^ 31 →
      q.container_begin_ = s.container_begin_ → q.container_end_ = s.container_end_ →
      q.data_begin_ = s.data_begin_ → q.data_end_ = s.data_end_ →
      q.current_ = (s.cbegin.plus i).current_ →
      ∃ r, s.erase q = Except.ok r ∧
        r.2.contents = (xs.eraseIdx i).map some ∧
        r.2.size = s.size - 1 ∧ r.2.capacity = s.capacity) ∧
    ((mk_list [21, 15, 3, 1, 0, 6, 10, 28]).erase
        ((mk_list [21, 15, 3, 1, 0, 6, 10, 28] : CircularBufferCommon Nat).cbegin.plus
          1)).toOption.map (fun r => r.2.contents) =
      some ([21, 3, 1, 0, 6, 10, 28].map some) ∧
    (CircularBuffer.push_front
        (CircularBuffer.push_back (CircularBuffer.push_front (mk_sized 4) 2) 3) 1).contents =
      [1, 2, 3].map some ∧
    ((CircularBuffer.push_front
        (CircularBuffer.push_back (CircularBuffer.push_front (mk_sized 4) 2) 3) 1).cbegin.plus
        1).current_ =
      (CircularBuffer.push_front (mk_sized 4 : CircularBufferCommon Nat) 2).cbegin.current_ ∧
    (CircularBuffer.push_front
        (CircularBuffer.push_back (CircularBuffer.push_front (mk_sized 4) 2) 3) 1).deref
        (CircularBuffer.push_front (mk_sized 4 : CircularBufferCommon Nat) 2).cbegin.current_ =
      some 2 ∧
    ((CircularBuffer.push_front
        (CircularBuffer.push_back (CircularBuffer.push_front (mk_sized 4) 2) 3) 1).erase
        (CircularBuffer.push_front (mk_sized 4 : CircularBufferCommon Nat)
          2).cbegin).toOption.map (fun r => r.2.contents) =
      some ([1, 2].map some) := by
  refine ⟨?_, by decide, by decide, by decide, by decide, by decide⟩
  intro β s xs i q h hc hi hint hq1 hq2 hq3 hq4 hq5
  rw [iterator_eq_cbegin_plus s q i hq1 hq2 hq3 hq4 hq5]
  obtain ⟨r, h1, -, h3, h4, -⟩ := erase_spec xs i h hc hi hint
  refine ⟨r, h1, h3, ?_, capacity_congr h4⟩
  rw [size_of_contents h3, List.length_eraseIdx, size_of_contents hc]
  simp [show i < xs.length by rw [← size_of_contents hc]; exact hi]

set_option maxRecDepth 100000 in
/-- Witness for C9: the wrapped buffer of the alternating pushes, erased at index 6. -/
theorem C9_erase_one_witness :
    ∃ r, ((alternating_calls [0, 1, 3, 6, 10, 15, 21, 28]).foldl CircularBuffer.push
          (mk_sized 8)).erase
        (((alternating_calls [0, 1, 3, 6, 10, 15, 21, 28]).foldl CircularBuffer.push
          (mk_sized 8)).cbegin.plus ((6 : Nat) : Int)) = Except.ok r ∧
      r.2.contents = (([21, 15, 3, 1, 0, 6, 10, 28] : List Nat).eraseIdx 6).map some ∧
      r.2.size = ((alternating_calls [0, 1, 3, 6, 10, 15, 21, 28]).foldl CircularBuffer.push
          (mk_sized 8)).size - 1 ∧
      r.2.capacity = ((alternating_calls [0, 1, 3, 6, 10, 15, 21, 28]).foldl
          CircularBuffer.push (mk_sized 8)).capacity :=
  C9_erase_one.1 Nat _ [21, 15, 3, 1, 0, 6, 10, 28] 6
    (((alternating_calls [0, 1, 3, 6, 10, 15, 21, 28]).foldl CircularBuffer.push
      (mk_sized 8)).cbegin.plus ((6 : Nat) : Int))
    (by decide) (by decide) (by decide) (by decide) (by decide) (by decide) (by decide)
    (by decide) (by decide)

set_option maxRecDepth 100000 in
/-- C11 (code defect). `insert(pos, value)` with `pos = cbegin() + i`,
`0 ≤ i ≤ size()`, and a value that is an object outside the buffer, on a buffer
of either variant with contents `xs` (`size()` in the range of `int`, twice the
capacity plus 2 below `2 ^ 63`) succeeds and leaves the contents
`take i xs ++ [v] ++ drop i xs`, with `size()` larger by exactly 1: nothing is
evicted or reordered, also when the buffer was full;
inserting 666 at index 3 of the full capacity-8 buffer 21,15,3,1,0,6,10,28
gives 21,15,3,666,1,0,6,10,28.  With a value that is an element of the buffer
the contents differ: `value` is a reference, and it is read by `*it = value`
after the elements from `it` on have been shifted one slot.  On the buffer
1,2,3 of capacity 4, `cb.insert(cb.begin() + 1, cb[2])` gives 1,2,2,3, in both
variants, where the specification has 1,3,2,3. -/
theorem C11_insert_value :
    (∀ (β : Type) (s : CircularBufferCommon β) (xs : List β) (i : Nat) (v : β),
      WF s → s.contents = xs.map some → i ≤ s.size → 2 * (s.capacity : Int) + 2 < 2 ^ 63 →
      (s.size : Int) < 2 ^ 31 →
      (∃ r, CircularBuffer.insert_ref s (s.cbegin.plus i) (Ref.value v) = Except.ok r ∧
        r.2.contents = (xs.take i ++ [v] ++ xs.drop i).map some ∧
        r.2.size = s.size + 1) ∧
      (∃ r, CircularBufferExt.insert_ref s (s.cbegin.plus i) (Ref.value v) = Except.ok r ∧
        r.2.contents = (xs.take i ++ [v] ++ xs.drop i).map some ∧
        r.2.size = s.size + 1)) ∧
    ((alternating_calls [0, 1, 3, 6, 10, 15, 21, 28]).foldl CircularBuffer.push
        (mk_sized 8)).size = 8 ∧
    ((alternating_calls [0, 1, 3, 6, 10, 15, 21, 28]).foldl CircularBuffer.push
        (mk_sized 8)).capacity = 8 ∧
    (CircularBuffer.insert_ref
        ((alternating_calls [0, 1, 3, 6, 10, 15, 21, 28]).foldl CircularBuffer.push (mk_sized 8))
        (((alternating_calls [0, 1, 3, 6, 10, 15, 21, 28]).foldl CircularBuffer.push
          (mk_sized 8)).cbegin.plus 3) (Ref.value 666)).toOption.map (fun r => r.2.contents) =
      some ([21, 15, 3, 666, 1, 0, 6, 10, 28].map some) ∧
    (CircularBufferExt.insert_ref
        ((alternating_calls [0, 1, 3, 6, 10, 15, 21, 28]).foldl CircularBufferExt.push
          (mk_sized 8))
        (((alternating_calls [0, 1, 3, 6, 10, 15, 21, 28]).foldl CircularBufferExt.push
          (mk_sized 8)).cbegin.plus 3) (Ref.value 666)).toOption.map (fun r => r.2.contents) =
      some ([21, 15, 3, 666, 1, 0, 6, 10, 28].map some) ∧
    ([1, 2, 3].foldl CircularBuffer.push_back (mk_sized 4 : CircularBufferCommon Nat)).op_index
        2 = some 3 ∧
    (CircularBuffer.insert_ref ([1, 2, 3].foldl CircularBuffer.push_back (mk_sized 4))
        (([1, 2, 3].foldl CircularBuffer.push_back
          (mk_sized 4 : CircularBufferCommon Nat)).cbegin.plus 1)
        (([1, 2, 3].foldl CircularBuffer.push_back
          (mk_sized 4 : CircularBufferCommon Nat)).op_index_ref 2)).toOption.map
        (fun r => r.2.contents) =
      some ([1, 2, 2, 3].map some) ∧
    (CircularBufferExt.insert_ref ([1, 2, 3].foldl CircularBuffer.push_back (mk_sized 4))
        (([1, 2, 3].foldl CircularBuffer.push_back
          (mk_sized 4 : CircularBufferCommon Nat)).cbegin.plus 1)
        (([1, 2, 3].foldl CircularBuffer.push_back
          (mk_sized 4 : CircularBufferCommon Nat)).op_index_ref 2)).toOption.map
        (fun r => r.2.contents) =
      some ([1, 2, 2, 3].map some) := by
  refine ⟨?_, by decide, by decide, by decide, by decide, by decide, by decide, by decide⟩
  intro β s xs i v h hc hi hb hint
  have hsz := size_of_contents hc
  have hlen : (xs.take i ++ [v] ++ xs.drop i).length = s.size + 1 := by
    simp only [List.length_append, List.length_take, List.length_drop, List.length_singleton]
    omega
  rw [CircularBuffer.insert_ref_value, CircularBufferExt.ext_insert_ref_value]
  obtain ⟨r, a1, -, a3⟩ := CircularBuffer.insert_spec xs i v h hc hi hint
  obtain ⟨q, b1, -, b3⟩ := CircularBufferExt.ext_insert_spec xs i v h hc hi hb hint
  exact ⟨⟨r, a1, a3, by rw [size_of_contents a3, hlen]⟩,
    ⟨q, b1, b3, by rw [size_of_contents b3, hlen]⟩⟩

set_option maxRecDepth 100000 in
/-- Witness for C11: insertion at index 1 of the full bounded buffer 1,2,3 of
capacity 3. -/
theorem C11_insert_value_witness :
    (∃ r, CircularBuffer.insert_ref (mk_list [1, 2, 3])
          ((mk_list [1, 2, 3] : CircularBufferCommon Nat).cbegin.plus ((1 : Nat) : Int))
          (Ref.value 9) = Except.ok r ∧
      r.2.contents = (([1, 2, 3] : List Nat).take 1 ++ [9] ++ [1, 2, 3].drop 1).map some ∧
      r.2.size = (mk_list [1, 2, 3] : CircularBufferCommon Nat).size + 1) ∧
    (∃ r, CircularBufferExt.insert_ref (mk_list [1, 2, 3])
          ((mk_list [1, 2, 3] : CircularBufferCommon Nat).cbegin.plus ((1 : Nat) : Int))
          (Ref.value 9) = Except.ok r ∧
      r.2.contents = (([1, 2, 3] : List Nat).take 1 ++ [9] ++ [1, 2, 3].drop 1).map some ∧
      r.2.size = (mk_list [1, 2, 3] : CircularBufferCommon Nat).size + 1) :=
  C11_insert_value.1 Nat (mk_list [1, 2, 3]) [1, 2, 3] 1 9 (by decide) (by decide) (by decide)
    (by decide) (by decide)

set_option maxRecDepth 100000 in
/-- C12 (code defect). `insert(pos, n, value)` with `n ≥ 1`, `pos = cbegin() + i`,
`0 ≤ i ≤ size()`, and a value that is an object outside the buffer, on contents
`xs` with `size() + n` in the range of `int`, succeeds on a bounded buffer, and
on an auto-growth buffer of capacity at least 1, and leaves the contents
`take i xs ++ replicate n v ++ drop i xs`, with `size()` larger by exactly `n`,
in every physical layout; inserting two 666 at index 2 of 21,15,3,1,0,6,10,28
gives 21,15,666,666,3,1,0,6,10,28 in both variants.  With a value that is an
element of the buffer the contents differ: `value` is a reference, read by the
filling loop after the loop that opens the gap has moved other elements into
the slot it names.  On the buffer 1,2,3,4,5 of capacity 8,
`cb.insert(cb.begin() + 1, 2, cb[3])` gives 1,2,2,2,3,4,5, in both variants,
where the specification has 1,4,4,2,3,4,5. -/
theorem C12_insert_n_values :
    (∀ (β : Type) (s : CircularBufferCommon β) (xs : List β) (i n : Nat) (v : β),
      WF s → s.contents = xs.map some → i ≤ s.size → 1 ≤ n → s.size + n < 2 ^ 31 →
      (∃ r, CircularBuffer.insert_n_ref s (s.cbegin.plus i) n (Ref.value v) = Except.ok r ∧
        r.2.contents = (xs.take i ++ List.replicate n v ++ xs.drop i).map some ∧
        r.2.size = s.size + n) ∧
      (1 ≤ s.capacity →
        ∃ r, CircularBufferExt.insert_n_ref s (s.cbegin.plus i) n (Ref.value v) =
            some (Except.ok r) ∧
          r.2.contents = (xs.take i ++ List.replicate n v ++ xs.drop i).map some ∧
          r.2.size = s.size + n)) ∧
    (CircularBuffer.insert_n_ref
        ((alternating_calls [0, 1, 3, 6, 10, 15, 21, 28]).foldl CircularBuffer.push (mk_sized 8))
        (((alternating_calls [0, 1, 3, 6, 10, 15, 21, 28]).foldl CircularBuffer.push
          (mk_sized 8)).cbegin.plus 2) 2 (Ref.value 666)).toOption.map
        (fun r => r.2.contents) =
      some ([21, 15, 666, 666, 3, 1, 0, 6, 10, 28].map some) ∧
    (CircularBufferExt.insert_n_ref
        ((alternating_calls [0, 1, 3, 6, 10, 15, 21, 28]).foldl CircularBufferExt.push
          (mk_sized 8))
        (((alternating_calls [0, 1, 3, 6, 10, 15, 21, 28]).foldl CircularBufferExt.push
          (mk_sized 8)).cbegin.plus 2) 2 (Ref.value 666)).map
        (fun x => x.toOption.map (fun r => r.2.contents)) =
      some (some ([21, 15, 666, 666, 3, 1, 0, 6, 10, 28].map some)) ∧
    ([1, 2, 3, 4, 5].foldl CircularBuffer.push_back
        (mk_sized 8 : CircularBufferCommon Nat)).op_index 3 = some 4 ∧
    (CircularBuffer.insert_n_ref ([1, 2, 3, 4, 5].foldl CircularBuffer.push_back (mk_sized 8))
        (([1, 2, 3, 4, 5].foldl CircularBuffer.push_back
          (mk_sized 8 : CircularBufferCommon Nat)).cbegin.plus 1) 2
        (([1, 2, 3, 4, 5].foldl CircularBuffer.push_back
          (mk_sized 8 : CircularBufferCommon Nat)).op_index_ref 3)).toOption.map
        (fun r => r.2.contents) =
      some ([1, 2, 2, 2, 3, 4, 5].map some) ∧
    (CircularBufferExt.insert_n_ref ([1, 2, 3, 4, 5].foldl CircularBuffer.push_back (mk_sized 8))
        (([1, 2, 3, 4, 5].foldl CircularBuffer.push_back
          (mk_sized 8 : CircularBufferCommon Nat)).cbegin.plus 1) 2
        (([1, 2, 3, 4, 5].foldl CircularBuffer.push_back
          (mk_sized 8 : CircularBufferCommon Nat)).op_index_ref 3)).map
        (fun x => x.toOption.map (fun r => r.2.contents)) =
      some (some ([1, 2, 2, 2, 3, 4, 5].map some)) := by
  refine ⟨?_, by decide, by decide, by decide, by decide, by decide⟩
  intro β s xs i n v h hc hi hn hb
  have hsz := size_of_contents hc
  have hlen : (xs.take i ++ List.replicate n v ++ xs.drop i).length = s.size + n := by
    simp only [List.length_append, List.length_take, List.length_drop, List.length_replicate]
    omega
  rw [CircularBuffer.insert_n_ref_value, CircularBufferExt.ext_insert_n_ref_value]
  obtain ⟨r, a1, -, a3⟩ := CircularBuffer.insert_n_spec xs i n v h hc hi hn
    (by exact_mod_cast hb)
  refine ⟨⟨r, a1, a3, by rw [size_of_contents a3, hlen]⟩, ?_⟩
  intro hcap1
  obtain ⟨q, b1, -, b3⟩ := CircularBufferExt.ext_insert_n_spec xs i n v h hc hi hn hcap1 hb
  exact ⟨q, b1, b3, by rw [size_of_contents b3, hlen]⟩

set_option maxRecDepth 100000 in
/-- Witness for C12: three copies of 9 inserted at index 1 of the full buffer 1,2,3
of capacity 3, in both variants. -/
theorem C12_insert_n_values_witness :
    (∃ r, CircularBuffer.insert_n_ref (mk_list [1, 2, 3])
          ((mk_list [1, 2, 3] : CircularBufferCommon Nat).cbegin.plus ((1 : Nat) : Int)) 3
          (Ref.value 9) = Except.ok r ∧
      r.2.contents =
        (([1, 2, 3] : List Nat).take 1 ++ List.replicate 3 9 ++ [1, 2, 3].drop 1).map some ∧
      r.2.size = (mk_list [1, 2, 3] : CircularBufferCommon Nat).size + 3) ∧
    (1 ≤ (mk_list [1, 2, 3] : CircularBufferCommon Nat).capacity →
      ∃ r, CircularBufferExt.insert_n_ref (mk_list [1, 2, 3])
          ((mk_list [1, 2, 3] : CircularBufferCommon Nat).cbegin.plus ((1 : Nat) : Int)) 3
          (Ref.value 9) = some (Except.ok r) ∧
      r.2.contents =
        (([1, 2, 3] : List Nat).take 1 ++ List.replicate 3 9 ++ [1, 2, 3].drop 1).map some ∧
      r.2.size = (mk_list [1, 2, 3] : CircularBufferCommon Nat).size + 3) :=
  C12_insert_n_values.1 Nat (mk_list [1, 2, 3]) [1, 2, 3] 1 3 9 (by decide) (by decide)
    (by decide) (by decide) (by decide)

set_option maxRecDepth 100000 in
/-- C13 (code defect). Inserting the range 666,667,668 at `begin()` of the non-empty
buffer 21,15,3,1,0,6,10,28 goes through the `index == 0` branch, which calls
`push_front` once per source element, so the inserted elements end up in
reverse order: 668,667,666,21,15,... in both variants.  At index 2 the same
call gives 21,15,666,667,668,3,.... -/
theorem C13_insert_range_at_begin_reverses :
    (CircularBuffer.insert_range
        ((alternating_calls [0, 1, 3, 6, 10, 15, 21, 28]).foldl CircularBuffer.push (mk_sized 8))
        ((alternating_calls [0, 1, 3, 6, 10, 15, 21, 28]).foldl CircularBuffer.push
          (mk_sized 8)).cbegin [666, 667, 668]).toOption.map (fun r => r.2.contents) =
      some ([668, 667, 666, 21, 15, 3, 1, 0, 6, 10, 28].map some) ∧
    (CircularBufferExt.insert_range
        ((alternating_calls [0, 1, 3, 6, 10, 15, 21, 28]).foldl CircularBufferExt.push
          (mk_sized 8))
        ((alternating_calls [0, 1, 3, 6, 10, 15, 21, 28]).foldl CircularBufferExt.push
          (mk_sized 8)).cbegin [666, 667, 668]).map
        (fun x => x.toOption.map (fun r => r.2.contents)) =
      some (some ([668, 667, 666, 21, 15, 3, 1, 0, 6, 10, 28].map some)) ∧
    (CircularBuffer.insert_range
        ((alternating_calls [0, 1, 3, 6, 10, 15, 21, 28]).foldl CircularBuffer.push (mk_sized 8))
        (((alternating_calls [0, 1, 3, 6, 10, 15, 21, 28]).foldl CircularBuffer.push
          (mk_sized 8)).cbegin.plus 2) [666, 667, 668]).toOption.map (fun r => r.2.contents) =
      some ([21, 15, 666, 667, 668, 3, 1, 0, 6, 10, 28].map some) := by
  decide

set_option maxRecDepth 100000 in
/-- C14. `reserve(n)` never changes the logical contents.  With `n ≤ capacity()` it
leaves the whole state as it was (the cursors, the bounds and the slab).  With
`n > capacity()` (and `n + 1 < 2 ^ 63`) it leaves `capacity() == n`, the buffer
compares equal to a copy taken before the call, and the live elements start at
the first slot of the new slab; `reserve(10)` on the 8-element buffer of the
test gives capacity 10 and a buffer equal to its earlier copy. -/
theorem C14_reserve :
    (∀ (β : Type) [DecidableEq β] (s : CircularBufferCommon β) (n : Nat), WF s →
      (n ≤ s.capacity → s.reserve n = s) ∧
      (s.capacity < n → (n : Int) + 1 < 2 ^ 63 →
        (s.reserve n).contents = s.contents ∧
        (s.reserve n).capacity = n ∧
        op_eq (s.reserve n) (mk_copy s) = some true ∧
        (s.reserve n).data_begin_ = (s.reserve n).container_begin_)) ∧
    (((mk_list [21, 15, 3, 1, 0, 6, 10, 28] : CircularBufferCommon Nat).reserve 10).capacity
        = 10 ∧
      op_eq ((mk_list [21, 15, 3, 1, 0, 6, 10, 28] : CircularBufferCommon Nat).reserve 10)
        (mk_copy (mk_list [21, 15, 3, 1, 0, 6, 10, 28])) = some true) := by
  refine ⟨?_, by decide⟩
  intro β _ s n h
  refine ⟨fun hn => reserve_noop s n hn, fun hlt hb => ?_⟩
  obtain ⟨w1, w2, w3⟩ := reserve_spec h n hlt hb
  obtain ⟨c1, c2, -⟩ := mk_copy_spec h
  refine ⟨w2, capacity_of_end w1 n w3, op_eq_of_contents w1 c1 (w2.trans c2.symm), ?_⟩
  rw [reserve_grow h n hlt]
  rfl

set_option maxRecDepth 100000 in
/-- Witness for C14: the wrapped buffer of capacity 2 holding one element in its
last slot, reserved to 5. -/
theorem C14_reserve_witness :
    ((CircularBuffer.push_front (mk_sized 2) (7 : Int)).reserve 5).contents = [some 7] ∧
      ((CircularBuffer.push_front (mk_sized 2) (7 : Int)).reserve 5).capacity = 5 :=
  ⟨((C14_reserve.1 Int (CircularBuffer.push_front (mk_sized 2) (7 : Int)) 5 (by decide)).2
      (by decide) (by decide)).1,
   ((C14_reserve.1 Int (CircularBuffer.push_front (mk_sized 2) (7 : Int)) 5 (by decide)).2
      (by decide) (by decide)).2.1⟩

set_option maxRecDepth 100000 in
/-- C15 (code defect). `resize(n, value)` with a value that is an object outside
the buffer, the default argument included, on contents `xs` (with
`n + 1 < 2 ^ 63`) leaves `size() == n` and the logical contents
`take n xs ++ replicate (n - min n |xs|) v`: the first `min n |xs|` elements are
unchanged and the new ones are copies of `v` at the wrapping end; `capacity()`
becomes `n` if `n` exceeded it and is unchanged otherwise.  `resize(10, 666)` on
21,15,3,1,0,6,10,28 appends two 666 and `resize(5)` leaves 21,15,3,1,0.  With a
value that is an element of the buffer and `n > capacity()` the copies are made
from a dangling reference: `value` is a `const value_type&`, and `reserve(n)`
releases the slab it lies in before the first copy is constructed.  On
`cb = {1,2,3}` the call `cb.resize(5, cb[0])` reads the released slot twice,
which is undefined behaviour, where the specification has 1,2,3,1,1. -/
theorem C15_resize :
    (∀ (β : Type) (s : CircularBufferCommon β) (xs : List β) (n : Nat) (v : β),
      WF s → s.contents = xs.map some → (n : Int) + 1 < 2 ^ 63 →
      (s.resize_ref n (Ref.value v)).size = n ∧
      (s.resize_ref n (Ref.value v)).contents =
        (xs.take n ++ List.replicate (n - min n xs.length) v).map some ∧
      (s.resize_ref n (Ref.value v)).capacity = if n > s.capacity then n else s.capacity) ∧
    (((mk_list [21, 15, 3, 1, 0, 6, 10, 28] : CircularBufferCommon Nat).resize_ref 10
        (Ref.value 666)).contents = [21, 15, 3, 1, 0, 6, 10, 28, 666, 666].map some ∧
      ((mk_list [21, 15, 3, 1, 0, 6, 10, 28] : CircularBufferCommon Nat).resize_ref 5
        (Ref.value 0)).contents = [21, 15, 3, 1, 0].map some) ∧
    (mk_list [1, 2, 3] : CircularBufferCommon Nat).op_index 0 = some 1 ∧
    ((mk_list [1, 2, 3] : CircularBufferCommon Nat).resize_ref 5
        ((mk_list [1, 2, 3] : CircularBufferCommon Nat).op_index_ref 0)).contents =
      [some 1, some 2, some 3, none, none] ∧
    ((mk_list [1, 2, 3] : CircularBufferCommon Nat).resize_ref 5
        ((mk_list [1, 2, 3] : CircularBufferCommon Nat).op_index_ref 0)).ub = true := by
  refine ⟨?_, by decide, by decide, by decide, by decide⟩
  intro β s xs n v h hc hb
  rw [resize_ref_value]
  obtain ⟨-, r2, r3⟩ := resize_spec xs n v h hc hb
  refine ⟨?_, r2, r3⟩
  rw [size_of_contents r2]
  simp only [List.length_append, List.length_take, List.length_replicate]
  omega

set_option maxRecDepth 100000 in
/-- Witness for C15: shrinking the wrapped 8-element buffer to 5. -/
theorem C15_resize_witness :
    (((alternating_calls [0, 1, 3, 6, 10, 15, 21, 28]).foldl CircularBuffer.push
        (mk_sized 8)).resize_ref 5 (Ref.value 0)).contents =
      (([21, 15, 3, 1, 0, 6, 10, 28] : List Nat).take 5 ++
        List.replicate (5 - min 5 ([21, 15, 3, 1, 0, 6, 10, 28] : List Nat).length) 0).map
        some :=
  (C15_resize.1 Nat _ [21, 15, 3, 1, 0, 6, 10, 28] 5 0 (by decide) (by decide)
    (by decide)).2.1

/-- C17. `swap` exchanges contents: for two distinct buffers `a` and `b` with
logical contents `xs` and `ys` and the default allocator, which does not
propagate on swap, after `a.swap(b)` the contents of `a` are `ys` and those of
`b` are `xs`, in the same order; `a.swap(a)` returns at once and leaves `a`
unchanged. -/
theorem C17_swap_contents {α : Type} (a b : CircularBufferCommon α) (xs ys : List α)
    (ha : WF a) (hb : WF b) (hxs : a.contents = xs.map some) (hys : b.contents = ys.map some) :
    (swap a b).1.contents = ys.map some ∧ (swap a b).2.contents = xs.map some ∧
      swap_self a = a := by
  obtain ⟨s1, s2, -⟩ := swap_spec ha hb
  exact ⟨s1.trans hys, s2.trans hxs, rfl⟩

set_option maxRecDepth 100000 in
/-- Witness for C17: the wrapped 8-element buffer swapped with 1,2 at capacity 5. -/
theorem C17_swap_contents_witness :
    (swap ((alternating_calls [0, 1, 3, 6, 10, 15, 21, 28]).foldl CircularBuffer.push
        (mk_sized 8)) ((mk_list [1, 2]).reserve 5)).1.contents = [1, 2].map some ∧
    (swap ((alternating_calls [0, 1, 3, 6, 10, 15, 21, 28]).foldl CircularBuffer.push
        (mk_sized 8)) ((mk_list [1, 2]).reserve 5)).2.contents =
      [21, 15, 3, 1, 0, 6, 10, 28].map some :=
  ⟨(C17_swap_contents _ _ [21, 15, 3, 1, 0, 6, 10, 28] [1, 2] (by decide) (by decide)
      (by decide) (by decide)).1,
   (C17_swap_contents _ _ [21, 15, 3, 1, 0, 6, 10, 28] [1, 2] (by decide) (by decide)
      (by decide) (by decide)).2.1⟩

set_option maxRecDepth 100000 in
/-- C18, as stated, fails: with `a` holding 9 at capacity 4 and `b` holding 1,2 at
capacity 5, after `a.swap(b)` the buffer `a` has size 2 and capacity 5 and the
buffer `b` has size 1 and capacity 4; neither capacity is tight. -/
theorem C18_swap_not_tight :
    ¬ ((swap (CircularBuffer.push_back (mk_sized 4) (9 : Nat)) ((mk_list [1, 2]).reserve 5)).1.capacity
          = (swap (CircularBuffer.push_back (mk_sized 4) (9 : Nat))
              ((mk_list [1, 2]).reserve 5)).1.size ∧
        (swap (CircularBuffer.push_back (mk_sized 4) (9 : Nat)) ((mk_list [1, 2]).reserve 5)).2.capacity
          = (swap (CircularBuffer.push_back (mk_sized 4) (9 : Nat))
              ((mk_list [1, 2]).reserve 5)).2.size) := by
  decide

/-- C18, amended. After `a.swap(b)` with the default allocator the capacities are
exchanged along with the contents: `a.capacity()` is the capacity `b` had and
`b.capacity()` is the capacity `a` had, while `a.size()` and `b.size()` are the
sizes of the other buffer. -/
theorem C18_swap_exchanges_capacity {α : Type} (a b : CircularBufferCommon α)
    (ha : WF a) (hb : WF b) :
    (swap a b).1.capacity = b.capacity ∧ (swap a b).2.capacity = a.capacity ∧
      (swap a b).1.size = b.size ∧ (swap a b).2.size = a.size := by
  obtain ⟨s1, s2, s3, s4, -⟩ := swap_spec ha hb
  refine ⟨s3, s4, ?_, ?_⟩
  · have := congrArg List.length s1
    simpa [contents_length] using this
  · have := congrArg List.length s2
    simpa [contents_length] using this

set_option maxRecDepth 100000 in
/-- Witness for the amended C18. -/
theorem C18_swap_exchanges_capacity_witness :
    (swap (CircularBuffer.push_back (mk_sized 4) (9 : Nat)) ((mk_list [1, 2]).reserve 5)).1.capacity
        = ((mk_list [1, 2] : CircularBufferCommon Nat).reserve 5).capacity ∧
    (swap (CircularBuffer.push_back (mk_sized 4) (9 : Nat)) ((mk_list [1, 2]).reserve 5)).2.capacity
        = (CircularBuffer.push_back (mk_sized 4) (9 : Nat)).capacity :=
  ⟨(C18_swap_exchanges_capacity _ _ (by decide) (by decide)).1,
   (C18_swap_exchanges_capacity _ _ (by decide) (by decide)).2.1⟩

set_option maxRecDepth 100000 in
/-- C19. `operator==` on two buffers of the same variant returns, and is true if
and only if they have equal `size()` and equal elements at every logical index
below `size()`; so the result depends neither on the capacities nor on where in
the slabs the live ranges start (a buffer equals its copy after `reserve`), and
`operator!=` is its negation. -/
theorem C19_equality :
    (∀ (β : Type) [DecidableEq β] (s t : CircularBufferCommon β), WF s → WF t →
      ∃ b, op_eq s t = some b ∧ op_ne s t = some (!b) ∧
        (b = true ↔ s.size = t.size ∧ ∀ i : Nat, i < s.size → s.index i = t.index i)) ∧
    op_eq ((mk_list [21, 15, 3, 1, 0, 6, 10, 28] : CircularBufferCommon Nat).reserve 10)
        (mk_copy (mk_list [21, 15, 3, 1, 0, 6, 10, 28])) = some true ∧
    op_eq ((alternating_calls [0, 1, 3, 6, 10, 15, 21, 28]).foldl CircularBuffer.push
        (mk_sized 8)) (mk_list [21, 15, 3, 1, 0, 6, 10, 28]) = some true := by
  refine ⟨?_, by decide, by decide⟩
  intro β _ s t h ht
  obtain ⟨b, hb, hiff⟩ := op_eq_spec h ht
  exact ⟨b, hb, by rw [op_ne, hb]; rfl, hiff⟩

set_option maxRecDepth 100000 in
/-- Witness for C19: a wrapped buffer against a differently laid out buffer that
differs in one element. -/
theorem C19_equality_witness :
    ∃ b, op_eq ((alternating_calls [0, 1, 3, 6, 10, 15, 21, 28]).foldl CircularBuffer.push
          (mk_sized 8)) (mk_list [21, 15, 3, 1, 0, 6, 10, 29]) = some b ∧
      op_ne ((alternating_calls [0, 1, 3, 6, 10, 15, 21, 28]).foldl CircularBuffer.push
          (mk_sized 8)) (mk_list [21, 15, 3, 1, 0, 6, 10, 29]) = some (!b) ∧
      (b = true ↔
        ((alternating_calls [0, 1, 3, 6, 10, 15, 21, 28]).foldl CircularBuffer.push
          (mk_sized 8)).size = (mk_list [21, 15, 3, 1, 0, 6, 10, 29]).size ∧
        ∀ i : Nat, i < ((alternating_calls [0, 1, 3, 6, 10, 15, 21, 28]).foldl
            CircularBuffer.push (mk_sized 8)).size →
          ((alternating_calls [0, 1, 3, 6, 10, 15, 21, 28]).foldl CircularBuffer.push
            (mk_sized 8)).index i = (mk_list [21, 15, 3, 1, 0, 6, 10, 29]).index i) :=
  C19_equality.1 Nat _ _ (by decide) (by decide)

set_option maxRecDepth 100000 in
/-- C21 (code defect). The mutable `back()` never throws: it has no emptiness
test, so on an empty buffer it returns a reference to a slot that holds no
element, while `front()`, `front() const` and `back() const` throw
`std::out_of_range` whenever `size() == 0`.  On the empty buffer built by
`CircularBuffer<int> cb(2)` the call `cb.back()` returns the raw last slot. -/
theorem C21_back_does_not_throw :
    (∀ (β : Type) (s : CircularBufferCommon β), ∃ x, s.back = Except.ok x) ∧
    (∀ (β : Type) (s : CircularBufferCommon β), s.size = 0 →
      s.front = Except.error Exception.out_of_range ∧
      s.front_const = Except.error Exception.out_of_range ∧
      s.back_const = Except.error Exception.out_of_range) ∧
    (mk_sized 2 : CircularBufferCommon Nat).size = 0 ∧
    (mk_sized 2 : CircularBufferCommon Nat).back = Except.ok none := by
  refine ⟨?_, ?_, by decide, by rfl⟩
  · intro β s
    unfold back
    split_ifs
    · exact ⟨_, rfl⟩
    · exact ⟨_, rfl⟩
  · intro β s h
    have he := empty_eq_true h
    refine ⟨?_, ?_, ?_⟩
    · unfold front; rw [he]; rfl
    · unfold front_const; rw [he]; rfl
    · unfold back_const; rw [he]; rfl

set_option maxRecDepth 100000 in
/-- C22. On every non-empty buffer `front()` returns the element at logical index
0 and `back()` the element at logical index `size() - 1`, in both overloads and
in every physical layout, also with `data_end_` at the first slot of the slab;
after the alternating pushes giving 21,15,3,1,0,6,10,28 they return 21 and 28. -/
theorem C22_front_back :
    (∀ (β : Type) (s : CircularBufferCommon β), WF s → 0 < s.size →
      s.front = Except.ok (s.index 0) ∧ s.front_const = Except.ok (s.index 0) ∧
      s.back = Except.ok (s.index (s.size - 1)) ∧
      s.back_const = Except.ok (s.index (s.size - 1))) ∧
    ((alternating_calls [0, 1, 3, 6, 10, 15, 21, 28]).foldl CircularBuffer.push
        (mk_sized 8)).front = Except.ok (some 21) ∧
    ((alternating_calls [0, 1, 3, 6, 10, 15, 21, 28]).foldl CircularBuffer.push
        (mk_sized 8)).back = Except.ok (some 28) := by
  refine ⟨?_, by rfl, by rfl⟩
  intro β s h hne
  obtain ⟨f1, f2⟩ := front_spec hne
  obtain ⟨b1, b2⟩ := back_spec h hne
  exact ⟨f1, f2, b1, b2⟩

set_option maxRecDepth 100000 in
/-- Witness for C22: one element pushed to the front of a buffer of capacity 2; it
lives in the last slot and `data_end_` is at the first slot. -/
theorem C22_front_back_witness :
    (CircularBuffer.push_front (mk_sized 2) (7 : Nat)).data_end_ = 0 ∧
    (CircularBuffer.push_front (mk_sized 2) (7 : Nat)).back =
      Except.ok ((CircularBuffer.push_front (mk_sized 2) (7 : Nat)).index
        ((CircularBuffer.push_front (mk_sized 2) (7 : Nat)).size - 1)) ∧
    (CircularBuffer.push_front (mk_sized 2) (7 : Nat)).index
        ((CircularBuffer.push_front (mk_sized 2) (7 : Nat)).size - 1) = some 7 :=
  ⟨by decide,
   (C22_front_back.1 Nat (CircularBuffer.push_front (mk_sized 2) (7 : Nat)) (by decide)
      (by decide)).2.2.1,
   by decide⟩

set_option maxRecDepth 100000 in
/-- C23. `pop_back()` and `pop_front()`, shared by both variants, throw
`std::out_of_range` on a buffer with `size() == 0`, whatever its capacity, and on
no other buffer; the throw is the first statement of each, before any member or
slot is written. -/
theorem C23_pop_empty :
    (∀ (β : Type) (s : CircularBufferCommon β),
      (s.pop_back = Except.error Exception.out_of_range ↔ s.size = 0) ∧
      (s.pop_front = Except.error Exception.out_of_range ↔ s.size = 0)) ∧
    (mk_default : CircularBufferCommon Nat).pop_back = Except.error Exception.out_of_range ∧
    (mk_default : CircularBufferCommon Nat).pop_front = Except.error Exception.out_of_range ∧
    (mk_sized 8 : CircularBufferCommon Nat).pop_back = Except.error Exception.out_of_range ∧
    (mk_sized 8 : CircularBufferCommon Nat).pop_front = Except.error Exception.out_of_range := by
  refine ⟨?_, by rfl, by rfl, by rfl, by rfl⟩
  intro β s
  by_cases h : s.size = 0
  · have he := empty_eq_true h
    refine ⟨⟨fun _ => h, fun _ => ?_⟩, ⟨fun _ => h, fun _ => ?_⟩⟩
    · unfold pop_back; rw [he]; rfl
    · unfold pop_front; rw [he]; rfl
  · have he := empty_eq_false h
    constructor
    · constructor
      · intro hp
        unfold pop_back at hp
        rw [he] at hp
        simp only [Bool.false_eq_true, if_false] at hp
        cases hp
      · intro h0; exact absurd h0 h
    · constructor
      · intro hp
        unfold pop_front at hp
        rw [he] at hp
        simp only [Bool.false_eq_true, if_false] at hp
        split_ifs at hp
      · intro h0; exact absurd h0 h

set_option maxRecDepth 100000 in
/-- C24 (code defect). For an iterator `q` that carries the bounds and cursors the
buffer has at the call, `erase(q)` throws `std::out_of_range` exactly when `q`
addresses no live element, that is when its slot is none of those at the
logical indices below `size()`; in particular `erase(end())` throws, and with a
live `q` the call returns.  An iterator that points outside the slab or carries
other bounds, as every iterator of another buffer does, is rejected as well.
Both throws come before the first write.  On the buffer 1,2,3 of capacity 8 the
iterator `begin() + 5`, a slot of the slab outside the live range, is rejected.
But the index is computed from the cursors the iterator has kept from the
moment it was made: after `CircularBuffer<int> cb(4); cb.push_back(1);
cb.push_back(2); auto it = cb.begin() + 1; cb.push_front(0);` the buffer holds
0,1,2, the iterator `it` addresses the live element 2 at index 2, no call has
touched its slot, and `cb.erase(it)` throws. -/
theorem C24_erase_invalid :
    (∀ (β : Type) (s : CircularBufferCommon β) (q : Iterator), WF s →
      q.container_begin_ = s.container_begin_ → q.container_end_ = s.container_end_ →
      q.data_begin_ = s.data_begin_ → q.data_end_ = s.data_end_ →
      (s.erase q = Except.error Exception.out_of_range ↔
        ¬ ∃ i : Nat, i < s.size ∧ (s.cbegin.plus i).current_ = q.current_) ∧
      ((∃ i : Nat, i < s.size ∧ (s.cbegin.plus i).current_ = q.current_) →
        ∃ r, s.erase q = Except.ok r)) ∧
    (∀ (β : Type) (s : CircularBufferCommon β), WF s →
      s.erase s.cend = Except.error Exception.out_of_range) ∧
    (∀ (β : Type) (s : CircularBufferCommon β) (q : Iterator),
      (q.current_ < 0 ∨ s.container_end_ ≤ q.current_ ∨
        q.container_begin_ ≠ s.container_begin_ ∨ q.container_end_ ≠ s.container_end_) →
      s.erase q = Except.error Exception.out_of_range) ∧
    ([1, 2, 3].foldl CircularBuffer.push_back (mk_sized 8 : CircularBufferCommon Nat)).erase
        (([1, 2, 3].foldl CircularBuffer.push_back
          (mk_sized 8 : CircularBufferCommon Nat)).cbegin.plus 5) =
      Except.error Exception.out_of_range ∧
    (CircularBuffer.push_front ([1, 2].foldl CircularBuffer.push_back (mk_sized 4)) 0).contents =
      [0, 1, 2].map some ∧
    ((CircularBuffer.push_front ([1, 2].foldl CircularBuffer.push_back (mk_sized 4))
        0).cbegin.plus 2).current_ =
      (([1, 2].foldl CircularBuffer.push_back
        (mk_sized 4 : CircularBufferCommon Nat)).cbegin.plus 1).current_ ∧
    (CircularBuffer.push_front ([1, 2].foldl CircularBuffer.push_back (mk_sized 4)) 0).deref
        (([1, 2].foldl CircularBuffer.push_back
          (mk_sized 4 : CircularBufferCommon Nat)).cbegin.plus 1).current_ = some 2 ∧
    (CircularBuffer.push_front ([1, 2].foldl CircularBuffer.push_back (mk_sized 4)) 0).erase
        (([1, 2].foldl CircularBuffer.push_back
          (mk_sized 4 : CircularBufferCommon Nat)).cbegin.plus 1) =
      Except.error Exception.out_of_range := by
  refine ⟨?_, ?_, ?_, by rfl, by decide, by decide, by decide, by rfl⟩
  · intro β s q h hq1 hq2 hq3 hq4
    exact erase_error_iff h q hq1 hq2 hq3 hq4
  · intro β s h
    exact erase_end_throws h
  · intro β s q hq
    exact erase_foreign_throws s q hq

set_option maxRecDepth 100000 in
/-- Witness for C24: on the wrapped 8-element buffer of capacity 8 every slot but
the one at `data_end_` is live; `erase` at the slot of `data_end_` throws. -/
theorem C24_erase_invalid_witness :
    ((alternating_calls [0, 1, 3, 6, 10, 15, 21, 28]).foldl CircularBuffer.push
        (mk_sized 8)).erase
      ((alternating_calls [0, 1, 3, 6, 10, 15, 21, 28]).foldl CircularBuffer.push
        (mk_sized 8)).cend = Except.error Exception.out_of_range :=
  C24_erase_invalid.2.1 Nat _ (by decide)

set_option maxRecDepth 100000 in
/-- C25 (code defect). With nothing to insert the bulk overloads return before the
position is compared with `size()`: on the buffer 1,2,3 of capacity 8 and
`pos = begin() + 5`, a slot of the slab that is neither live nor `end()`,
`insert(pos, 666)` and `insert(pos, 1, 666)` throw `std::out_of_range`, but
`insert(pos, 0, 666)` and `insert(pos, first, first)` return normally, in both
variants, leaving the buffer as it was. -/
theorem C25_insert_nothing_skips_check :
    (CircularBuffer.insert ([1, 2, 3].foldl CircularBuffer.push_back (mk_sized 8))
        (([1, 2, 3].foldl CircularBuffer.push_back
          (mk_sized 8 : CircularBufferCommon Nat)).cbegin.plus 5) 666).toOption = none ∧
    (CircularBuffer.insert_n ([1, 2, 3].foldl CircularBuffer.push_back (mk_sized 8))
        (([1, 2, 3].foldl CircularBuffer.push_back
          (mk_sized 8 : CircularBufferCommon Nat)).cbegin.plus 5) 1 666).toOption = none ∧
    (CircularBuffer.insert_n ([1, 2, 3].foldl CircularBuffer.push_back (mk_sized 8))
        (([1, 2, 3].foldl CircularBuffer.push_back
          (mk_sized 8 : CircularBufferCommon Nat)).cbegin.plus 5) 0 666).toOption.map
        (fun r => r.2) =
      some ([1, 2, 3].foldl CircularBuffer.push_back (mk_sized 8)) ∧
    (CircularBuffer.insert_range ([1, 2, 3].foldl CircularBuffer.push_back (mk_sized 8))
        (([1, 2, 3].foldl CircularBuffer.push_back
          (mk_sized 8 : CircularBufferCommon Nat)).cbegin.plus 5) []).toOption.map
        (fun r => r.2) =
      some ([1, 2, 3].foldl CircularBuffer.push_back (mk_sized 8)) ∧
    (CircularBufferExt.insert_n ([1, 2, 3].foldl CircularBuffer.push_back (mk_sized 8))
        (([1, 2, 3].foldl CircularBuffer.push_back
          (mk_sized 8 : CircularBufferCommon Nat)).cbegin.plus 5) 0 666).map
        (fun x => x.toOption.map (fun r => r.2)) =
      some (some ([1, 2, 3].foldl CircularBuffer.push_back (mk_sized 8))) ∧
    (CircularBufferExt.insert_range ([1, 2, 3].foldl CircularBuffer.push_back (mk_sized 8))
        (([1, 2, 3].foldl CircularBuffer.push_back
          (mk_sized 8 : CircularBufferCommon Nat)).cbegin.plus 5) []).map
        (fun x => x.toOption.map (fun r => r.2)) =
      some (some ([1, 2, 3].foldl CircularBuffer.push_back (mk_sized 8))) := by
  decide

set_option maxRecDepth 100000 in
/-- C26 (code defect). The iterator returned by `erase(pos)` does not depend on
the element erased: the loop that shifts the later elements advances `index` to
`size() - 1`, and the function returns `begin() + index` after `data_end_` has
been moved back.  That iterator is `end()` of the buffer left by the call
whenever `size()` is in the range of `int`, so that `index` reaches
`operator+(int)` unchanged.  Erasing index 1 of 21,15,3,1,0,6,10,28 returns the
iterator at slot 7, which is `end()`, not the one at slot 1 holding 3. -/
theorem C26_erase_returns_end :
    (∀ (β : Type) (s : CircularBufferCommon β) (xs : List β) (i : Nat),
      WF s → s.contents = xs.map some → i < s.size → (s.size : Int) ≤ 2 ^ 31 →
      ∃ r, s.erase (s.cbegin.plus i) = Except.ok r ∧ r.1 = r.2.cend) ∧
    (∀ (β : Type) (s : CircularBufferCommon β) (i : Nat), WF s → i < s.size →
      ∃ r, s.erase (s.cbegin.plus i) = Except.ok r ∧
        r.1 = r.2.cbegin.plus (to_int ((s.size - 1 : Nat) : Int))) ∧
    ((mk_list [21, 15, 3, 1, 0, 6, 10, 28] : CircularBufferCommon Nat).erase
        ((mk_list [21, 15, 3, 1, 0, 6, 10, 28] : CircularBufferCommon Nat).cbegin.plus
          1)).toOption.map
        (fun r => (r.1.current_, r.2.cend.current_, r.2.deref r.1.current_,
          (r.2.cbegin.plus 1).current_, r.2.index 1)) =
      some (7, 7, none, 1, some 3) := by
  refine ⟨?_, fun β s i h hi => erase_returns_last i h hi, by decide⟩
  intro β s xs i h hc hi hint
  obtain ⟨r, h1, h2, -⟩ := erase_returns_end xs i h hc hi hint
  exact ⟨r, h1, h2⟩

set_option maxRecDepth 100000 in
/-- C27 (code defect). On a `CircularBufferExt` of capacity 0 the bulk inserts of
`n ≥ 1` elements do not return: the loop
`while (target_capacity < size() + n) target_capacity *= 2` starts from 0 and
doubling leaves 0, so after any number of rounds it has not ended.  The
single-value paths go through `expansion`, which reserves 1 first; the bulk
overloads do not. -/
theorem C27_ext_bulk_insert_capacity_zero :
    (∀ (β : Type) (s : CircularBufferCommon β) (n : Nat) (v : β) (il : List β),
      WF s → s.capacity = 0 → 1 ≤ n → n < 2 ^ 64 → 1 ≤ il.length → il.length < 2 ^ 64 →
      (∀ fuel : Nat,
        CircularBufferExt.grow_target ((s.size + n) % 2 ^ 64) fuel s.capacity = none) ∧
      CircularBufferExt.insert_n s s.cbegin n v = none ∧
      CircularBufferExt.insert_range s s.cbegin il = none) ∧
    CircularBufferExt.insert_n (mk_default : CircularBufferCommon Nat)
        (mk_default : CircularBufferCommon Nat).cbegin 2 666 = none ∧
    CircularBufferExt.insert_range (mk_default : CircularBufferCommon Nat)
        (mk_default : CircularBufferCommon Nat).cbegin [666, 667, 668] = none := by
  refine ⟨?_, by rfl, by rfl⟩
  intro β s n v il h hcap hn hn2 hl hl2
  obtain ⟨a, b⟩ := ext_insert_capacity_zero h hcap il hl hl2 n v hn hn2
  refine ⟨fun fuel => ?_, a, b⟩
  have hsz := size_of_capacity_zero h hcap
  have hmod : (s.size + n) % 2 ^ 64 = n := by rw [hsz]; omega
  rw [hmod, hcap]
  exact grow_target_zero n hn fuel

set_option maxRecDepth 100000 in
/-- C28. Starting from a default-constructed `CircularBufferExt`, of capacity 0,
after `k ≥ 1` calls of `push_back` and `push_front` in any mix (`k < 2 ^ 61`),
`size() == k` and `capacity()` is the smallest power of two that is at least
`k`; the 9 pushes of the test leave size 9 and capacity 16. -/
theorem C28_ext_push_capacity :
    (∀ (β : Type) (calls : List (PushCall β)), 1 ≤ calls.length →
      (calls.length : Int) < 2 ^ 61 →
      (calls.foldl CircularBufferExt.push mk_default).size = calls.length ∧
      ∃ m : Nat, (calls.foldl CircularBufferExt.push mk_default).capacity = 2 ^ m ∧
        calls.length ≤ 2 ^ m ∧ ∀ j : Nat, calls.length ≤ 2 ^ j → m ≤ j) ∧
    ((alternating_calls [0, 1, 3, 6, 10, 15, 21, 28, 36]).foldl CircularBufferExt.push
        mk_default).size = 9 ∧
    ((alternating_calls [0, 1, 3, 6, 10, 15, 21, 28, 36]).foldl CircularBufferExt.push
        mk_default).capacity = 16 := by
  refine ⟨?_, by decide, by decide⟩
  intro β calls h1 hb
  obtain ⟨r1, r2, r3, m, hm⟩ := ext_push_capacity_run calls (mk_default : CircularBufferCommon β)
    [] (by refine ⟨rfl, rfl, ?_, ?_, ?_, ?_, ?_, ?_⟩ <;> (dsimp only [mk_default]; omega))
    rfl (Or.inl ⟨rfl, rfl⟩)
    (by simp only [List.length_nil, Nat.cast_zero]; omega)
    (by simp only [List.length_nil]; omega)
  simp only [List.length_nil, Nat.zero_add] at r1 r2 r3
  refine ⟨r1, m, hm, by rw [← hm]; exact r2, ?_⟩
  intro j hj
  by_contra hlt
  have hle : 2 ^ (j + 1) ≤ 2 ^ m := Nat.pow_le_pow_right (by decide) (by omega)
  rw [pow_succ] at hle
  omega

set_option maxRecDepth 100000 in
/-- Witness for C28: three pushes, leaving size 3 and capacity 4. -/
theorem C28_ext_push_capacity_witness :
    ([PushCall.back 1, PushCall.front 2, PushCall.back 3].foldl CircularBufferExt.push
        (mk_default : CircularBufferCommon Nat)).size = 3 ∧
    ∃ m : Nat, ([PushCall.back 1, PushCall.front 2, PushCall.back 3].foldl
        CircularBufferExt.push (mk_default : CircularBufferCommon Nat)).capacity = 2 ^ m ∧
      3 ≤ 2 ^ m ∧ ∀ j : Nat, 3 ≤ 2 ^ j → m ≤ j :=
  C28_ext_push_capacity.1 Nat [PushCall.back 1, PushCall.front 2, PushCall.back 3]
    (by decide) (by decide)

/-- C29. Copy construction is content-preserving and capacity-tight: for every
source buffer `s`, of any capacity and layout, the copy `c` compares equal to
`s`, has the logical contents and the size of `s`, and `c.capacity()` is
`s.size()`.  The constructor takes `s` by const reference and only reads it. -/
theorem C29_copy_tight {α : Type} [DecidableEq α] (s : CircularBufferCommon α) (h : WF s) :
    op_eq (mk_copy s) s = some true ∧ (mk_copy s).contents = s.contents ∧
      (mk_copy s).size = s.size ∧ (mk_copy s).capacity = s.size := by
  obtain ⟨c1, c2, c3⟩ := mk_copy_spec h
  refine ⟨op_eq_of_contents c1 h c2, c2, ?_, capacity_of_end c1 _ c3⟩
  have := congrArg List.length c2
  simpa [contents_length] using this

set_option maxRecDepth 100000 in
/-- Witness for C29: the copy of the wrapped 8-element buffer reserved to capacity
12 has capacity 8. -/
theorem C29_copy_tight_witness :
    op_eq (mk_copy (((alternating_calls [0, 1, 3, 6, 10, 15, 21, 28]).foldl CircularBuffer.push
        (mk_sized 8)).reserve 12))
      (((alternating_calls [0, 1, 3, 6, 10, 15, 21, 28]).foldl CircularBuffer.push
        (mk_sized 8)).reserve 12) = some true ∧
    (mk_copy (((alternating_calls [0, 1, 3, 6, 10, 15, 21, 28]).foldl CircularBuffer.push
        (mk_sized 8)).reserve 12)).capacity = 8 :=
  ⟨(C29_copy_tight _ (by decide)).1,
   ((C29_copy_tight _ (by decide)).2.2.2).trans (by decide)⟩

set_option maxRecDepth 100000 in
/-- C30 (code defect). For `a = begin() + i` and `b = begin() + j`, `i, j ≤ size()`,
`a - b` is `i - j` except when the live range wraps with `a` before the wrap
point and `b` after it: the second return statement of `operator-` computes
`distance(container_begin_, b) - distance(a, container_end_)`, adding the slab
offset of `b` where it has to be subtracted.  On the wrapped buffer
21,15,3,1,0,6,10,28 `(begin() + 1) - (begin() + 6)` is -1, not -5, while
`(begin() + 6) - (begin() + 1)` is 5. -/
theorem C30_difference_across_wrap :
    (∀ (β : Type) (s : CircularBufferCommon β) (i j : Nat), WF s → i ≤ s.size → j ≤ s.size →
      (s.cbegin.plus i).difference (s.cbegin.plus j) =
        Except.ok ((i : Int) - j +
          if s.data_begin_ + i < s.container_end_ ∧ s.container_end_ ≤ s.data_begin_ + j
            then 2 * (s.data_begin_ + j - s.container_end_) else 0)) ∧
    (((alternating_calls [0, 1, 3, 6, 10, 15, 21, 28]).foldl CircularBuffer.push
        (mk_sized 8)).cbegin.plus 1).difference
      (((alternating_calls [0, 1, 3, 6, 10, 15, 21, 28]).foldl CircularBuffer.push
        (mk_sized 8)).cbegin.plus 6) = Except.ok (-1) ∧
    (((alternating_calls [0, 1, 3, 6, 10, 15, 21, 28]).foldl CircularBuffer.push
        (mk_sized 8)).cbegin.plus 6).difference
      (((alternating_calls [0, 1, 3, 6, 10, 15, 21, 28]).foldl CircularBuffer.push
        (mk_sized 8)).cbegin.plus 1) = Except.ok 5 := by
  refine ⟨?_, by rfl, by rfl⟩
  intro β s i j h hi hj
  exact difference_spec h i j hi hj

set_option maxRecDepth 100000 in
/-- C31 (code defect). After `a.swap(b)` with the default allocator the slab of `b`
has `a.size() + 1` slots while `b.capacity()` is the capacity `a` had, so the
allocation is shorter than `capacity() + 1` whenever `a` was not full; the slab
of `a` has `capacity() + 1` slots.  With `a` holding 9 at capacity 4 and `b`
holding 1,2: after the swap `b` has capacity 4 over an allocation of 2 slots,
and the second `push_back` on it writes outside the allocation. -/
theorem C31_swap_allocation_short :
    (∀ (β : Type) (a b : CircularBufferCommon β), WF a → WF b →
      (swap a b).1.slab.length = (swap a b).1.capacity + 1 ∧
      (swap a b).2.slab.length = a.size + 1 ∧ (swap a b).2.capacity = a.capacity) ∧
    (swap (CircularBuffer.push_back (mk_sized 4) (9 : Nat)) (mk_list [1, 2])).2.slab.length = 2 ∧
    (swap (CircularBuffer.push_back (mk_sized 4) (9 : Nat)) (mk_list [1, 2])).2.capacity = 4 ∧
    (CircularBuffer.push_back (CircularBuffer.push_back
      (swap (CircularBuffer.push_back (mk_sized 4) (9 : Nat)) (mk_list [1, 2])).2 7) 8).ub
        = true := by
  refine ⟨?_, by decide, by decide, by decide⟩
  intro β a b ha hb
  obtain ⟨s1, s2, s3, -⟩ := swap_allocation ha hb
  exact ⟨s1, s2, s3⟩

/-- C32. `clear()` on a well-formed buffer ends without leaving the allocation and
leaves `size() == 0` with `data_begin_ == data_end_ == container_begin_`, while
`capacity()`, `container_end_` and the length of the slab are unchanged. -/
theorem C32_clear {α : Type} (s : CircularBufferCommon α) (h : WF s) :
    s.clear.ub = false ∧ s.clear.size = 0 ∧ s.clear.data_begin_ = s.container_begin_ ∧
      s.clear.data_end_ = s.container_begin_ ∧ s.clear.capacity = s.capacity ∧
      s.clear.container_end_ = s.container_end_ ∧ s.clear.slab.length = s.slab.length := by
  obtain ⟨c1, c2, c3, c4, c5, c6, c7⟩ := clear_spec h
  exact ⟨c1.1, c6, c2, c3, c7, c4, c5⟩

set_option maxRecDepth 100000 in
/-- Witness for C32: `clear()` on the wrapped full buffer of capacity 8. -/
theorem C32_clear_witness :
    ((alternating_calls [0, 1, 3, 6, 10, 15, 21, 28]).foldl CircularBuffer.push
        (mk_sized 8)).clear.size = 0 ∧
    ((alternating_calls [0, 1, 3, 6, 10, 15, 21, 28]).foldl CircularBuffer.push
        (mk_sized 8)).clear.capacity = 8 :=
  ⟨(C32_clear _ (by decide)).2.1, ((C32_clear _ (by decide)).2.2.2.2.1).trans (by decide)⟩

/-- C33. `reserve(n)` is all-or-nothing: with `n > capacity()`, when the
construction of the element number `fault < size()` in the new slab throws, the
exception leaves the call and the buffer is exactly the one before the call;
when no construction throws the call is `reserve(n)`. -/
theorem C33_reserve_all_or_nothing {α : Type} (s : CircularBufferCommon α) (n fault : Nat)
    (h : WF s) (hn : s.capacity < n) (hf : fault < s.size) :
    s.reserve_fault n fault = (Except.error ElementException.thrown, s) ∧
      ∀ f : Nat, s.size ≤ f → s.reserve_fault n f = (Except.ok (), s.reserve n) :=
  ⟨reserve_fault_thrown h n fault hn hf, fun f hf2 => reserve_fault_unreached h n f hf2⟩

set_option maxRecDepth 100000 in
/-- Witness for C33: `reserve(10)` on the wrapped full buffer of capacity 8 with
the fourth construction throwing. -/
theorem C33_reserve_all_or_nothing_witness :
    ((alternating_calls [0, 1, 3, 6, 10, 15, 21, 28]).foldl CircularBuffer.push
        (mk_sized 8)).reserve_fault 10 3 =
      (Except.error ElementException.thrown,
        (alternating_calls [0, 1, 3, 6, 10, 15, 21, 28]).foldl CircularBuffer.push (mk_sized 8)) :=
  (C33_reserve_all_or_nothing _ 10 3 (by decide) (by decide) (by decide)).1

set_option maxRecDepth 100000 in
/-- C34 (code defect). `resize(n, v)` calls `reserve(n)` before it constructs the
copies of `v`, and its `catch` block does not undo that: when `n` exceeds the
capacity and the construction of a copy throws, `capacity()` is `n` afterwards.
The `catch` block also destroys `data_end_ + j` where the slot to destroy is
`data_end_`: on the buffer holding 4 in slot 3 of a slab of 5 slots,
`resize(4, v)` with the third construction throwing destroys the slot one past
the allocation.  On 1,2,3 of capacity 3, `resize(5, v)` with the second
construction throwing leaves size 3 and capacity 5. -/
theorem C34_resize_not_strong :
    (∀ (β : Type) (s : CircularBufferCommon β) (n : Nat) (v : β) (fault : Nat), WF s →
      s.capacity < n → (n : Int) + 1 < 2 ^ 63 → fault + s.size < n →
      (s.resize_fault n v fault).1 = Except.error ElementException.thrown ∧
      (s.resize_fault n v fault).2.capacity = n) ∧
    ((mk_list [1, 2, 3] : CircularBufferCommon Nat).capacity = 3 ∧
      ((mk_list [1, 2, 3] : CircularBufferCommon Nat).resize_fault 5 0 1).1 =
        Except.error ElementException.thrown ∧
      ((mk_list [1, 2, 3] : CircularBufferCommon Nat).resize_fault 5 0 1).2.size = 3 ∧
      ((mk_list [1, 2, 3] : CircularBufferCommon Nat).resize_fault 5 0 1).2.capacity = 5) ∧
    (WF (after_pop_front (after_pop_front (after_pop_front
        (mk_list [1, 2, 3, 4] : CircularBufferCommon Nat)))) ∧
      (after_pop_front (after_pop_front (after_pop_front
        (mk_list [1, 2, 3, 4] : CircularBufferCommon Nat)))).capacity = 4 ∧
      ((after_pop_front (after_pop_front (after_pop_front
        (mk_list [1, 2, 3, 4] : CircularBufferCommon Nat)))).resize_fault 4 0 2).1 =
        Except.error ElementException.thrown ∧
      ((after_pop_front (after_pop_front (after_pop_front
        (mk_list [1, 2, 3, 4] : CircularBufferCommon Nat)))).resize_fault 4 0 2).2.ub = true) := by
  refine ⟨?_, ⟨by decide, by rfl, by decide, by decide⟩, ⟨by decide, by decide, by rfl, by decide⟩⟩
  intro β s n v fault h hn hb hf
  exact resize_fault_capacity h n v fault hn hb hf

/-- C35. For a slab of `L ≥ 1` slots (`L < 2 ^ 63`) and cursors at offsets `b` and `e`
in `[0, L)`, `size()` is `(e - b) mod L`, `capacity()` is `L - 1`, and
`end() - begin()` is `size()`, whether or not the live range wraps. -/
theorem C35_size_wrap_distance {α : Type} (s : CircularBufferCommon α) (h : CursorsOK s) :
    (s.size : Int) = (s.data_end_ - s.data_begin_) % s.container_end_ ∧
      (s.capacity : Int) = s.container_end_ - 1 ∧
      s.cend.difference s.cbegin = Except.ok (s.size : Int) :=
  size_mod h

set_option maxRecDepth 100000 in
/-- Witness for C35: the wrapped full buffer of capacity 8, with `data_begin_` at
slot 5 and `data_end_` at slot 4 of 9. -/
theorem C35_size_wrap_distance_witness :
    (((alternating_calls [0, 1, 3, 6, 10, 15, 21, 28]).foldl CircularBuffer.push
        (mk_sized 8)).size : Int) = ((4 : Int) - 5) % 9 :=
  (C35_size_wrap_distance ((alternating_calls [0, 1, 3, 6, 10, 15, 21, 28]).foldl
    CircularBuffer.push (mk_sized 8)) (WF.cursors (by decide))).1

/-- C36. For an iterator at offset `p` in `[0, L)` of a slab of `L ≥ 1` slots and
`n ≥ 0`, `it + n` is at offset `(p + n) mod L`; on a slab of one slot the
iterator is returned as it is.  `++it` is `it + 1`, and for `n < 0`, `it + n` is
`it - (-n)`. -/
theorem C36_plus_modular (it : Iterator) (n : Int)
    (hL : it.container_begin_ < it.container_end_) (hp0 : it.container_begin_ ≤ it.current_)
    (hp1 : it.current_ < it.container_end_) :
    (0 ≤ n → (it.plus n).current_ = it.container_begin_ +
        (it.current_ - it.container_begin_ + n) % (it.container_end_ - it.container_begin_)) ∧
      (it.container_begin_ + 1 = it.container_end_ → it.plus n = it) ∧
      it.inc = it.plus 1 ∧ (n < 0 → it.plus n = it.minus (-n)) := by
  refine ⟨fun hn => plus_offset it n hL hp0 hp1 hn, fun h1 => ?_, inc_eq_plus_one it hp1,
    fun hn => plus_neg_eq_minus it n hn⟩
  unfold Iterator.plus
  rw [if_pos h1]

set_option maxRecDepth 100000 in
/-- Witness for C36: the iterator at offset 2 of a slab of 3 slots moved by 5. -/
theorem C36_plus_modular_witness :
    ((⟨2, 0, 3, 0, 0⟩ : Iterator).plus 5).current_ = 0 + ((2 : Int) - 0 + 5) % (3 - 0) :=
  (C36_plus_modular ⟨2, 0, 3, 0, 0⟩ 5 (by decide) (by decide) (by decide)).1 (by decide)

set_option maxRecDepth 100000 in
/-- C37 (code defect). For an iterator at offset `p` of a slab of `L > 1` slots and
`n ≥ 0`, `it - n` is at offset `(p - n) mod L` unless `n` exceeds `p` by a
multiple of `L`: then the last return statement of `operator-(int)` gives
`container_end_ - 0`, one past the slab.  On the empty buffer of capacity 2
(3 slots) `begin() - 3` is at `container_end_`, and `(begin() + 3) - 3` is not
at `begin()`. -/
theorem C37_minus_reaches_container_end :
    (∀ (it : Iterator) (n : Int), it.container_begin_ < it.container_end_ →
      it.container_begin_ ≤ it.current_ → it.current_ < it.container_end_ → 0 ≤ n →
      (it.minus n).current_ =
        if it.container_begin_ + 1 ≠ it.container_end_ ∧
            it.current_ - it.container_begin_ < n ∧
            (n - (it.current_ - it.container_begin_)) %
              (it.container_end_ - it.container_begin_) = 0
          then it.container_end_
          else it.container_begin_ +
            (it.current_ - it.container_begin_ - n) %
              (it.container_end_ - it.container_begin_)) ∧
    ((mk_sized 2 : CircularBufferCommon Nat).cbegin.minus 3).current_ =
      (mk_sized 2 : CircularBufferCommon Nat).container_end_ ∧
    ((mk_sized 2 : CircularBufferCommon Nat).cbegin.plus 3).current_ =
      (mk_sized 2 : CircularBufferCommon Nat).cbegin.current_ ∧
    (((mk_sized 2 : CircularBufferCommon Nat).cbegin.plus 3).minus 3).current_ ≠
      (mk_sized 2 : CircularBufferCommon Nat).cbegin.current_ := by
  refine ⟨?_, by decide, by decide, by decide⟩
  intro it n hL hp0 hp1 hn
  exact minus_offset it n hL hp0 hp1 hn

set_option maxRecDepth 100000 in
/-- C38 (code defect). The comparisons are computed from `operator-`, so they
inherit its wrong value for a left operand before the wrap point and a right
operand after it: on the wrapped buffer 21,15,3,1,0,6,10,28 with
`a = begin() + 3` and `b = begin() + 6`, `a - b` is 1, `a < b` and `a <= b` are
false and `a > b` and `a >= b` are true.  In every other layout the four
comparisons agree with the order of the indices. -/
theorem C38_ordering_across_wrap :
    (∀ (β : Type) (s : CircularBufferCommon β) (i j : Nat), WF s → i ≤ s.size → j ≤ s.size →
      ¬ (s.data_begin_ + i < s.container_end_ ∧ s.container_end_ ≤ s.data_begin_ + j) →
      (s.cbegin.plus i).less (s.cbegin.plus j) = Except.ok (decide (i < j)) ∧
      (s.cbegin.plus i).greater (s.cbegin.plus j) = Except.ok (decide (i > j)) ∧
      (s.cbegin.plus i).less_equal (s.cbegin.plus j) = Except.ok (decide (i ≤ j)) ∧
      (s.cbegin.plus i).greater_equal (s.cbegin.plus j) = Except.ok (decide (i ≥ j))) ∧
    ((((alternating_calls [0, 1, 3, 6, 10, 15, 21, 28]).foldl CircularBuffer.push
          (mk_sized 8)).cbegin.plus 3).less
        (((alternating_calls [0, 1, 3, 6, 10, 15, 21, 28]).foldl CircularBuffer.push
          (mk_sized 8)).cbegin.plus 6) = Except.ok false ∧
      (((alternating_calls [0, 1, 3, 6, 10, 15, 21, 28]).foldl CircularBuffer.push
          (mk_sized 8)).cbegin.plus 3).greater
        (((alternating_calls [0, 1, 3, 6, 10, 15, 21, 28]).foldl CircularBuffer.push
          (mk_sized 8)).cbegin.plus 6) = Except.ok true ∧
      (((alternating_calls [0, 1, 3, 6, 10, 15, 21, 28]).foldl CircularBuffer.push
          (mk_sized 8)).cbegin.plus 3).less_equal
        (((alternating_calls [0, 1, 3, 6, 10, 15, 21, 28]).foldl CircularBuffer.push
          (mk_sized 8)).cbegin.plus 6) = Except.ok false ∧
      (((alternating_calls [0, 1, 3, 6, 10, 15, 21, 28]).foldl CircularBuffer.push
          (mk_sized 8)).cbegin.plus 3).greater_equal
        (((alternating_calls [0, 1, 3, 6, 10, 15, 21, 28]).foldl CircularBuffer.push
          (mk_sized 8)).cbegin.plus 6) = Except.ok true) := by
  refine ⟨?_, ⟨by rfl, by rfl, by rfl, by rfl⟩⟩
  intro β s i j h hi hj hgood
  exact ordering_spec h i j hi hj hgood

set_option maxRecDepth 100000 in
/-- C40 (code defect). `erase(p, p)` throws `std::out_of_range` at `p == begin()` and
at `p == end()` of every buffer: `it_end = q2 - cbegin() - 1` wraps around in
`size_type` for `begin()`, and `it_begin >= size()` holds for `end()`.  Strictly
inside the live range the call returns and changes nothing, as on the wrapped
buffer 21,15,3,1,0,6,10,28 at index 5. -/
theorem C40_erase_empty_range_throws :
    (∀ (β : Type) (s : CircularBufferCommon β), WF s →
      s.erase_range s.cbegin s.cbegin = Except.error Exception.out_of_range ∧
      s.erase_range s.cend s.cend = Except.error Exception.out_of_range) ∧
    ((mk_list [21, 15, 3] : CircularBufferCommon Nat).erase_range
        (mk_list [21, 15, 3] : CircularBufferCommon Nat).cbegin
        (mk_list [21, 15, 3] : CircularBufferCommon Nat).cbegin).toOption = none ∧
    (((alternating_calls [0, 1, 3, 6, 10, 15, 21, 28]).foldl CircularBuffer.push
          (mk_sized 8)).erase_range
        (((alternating_calls [0, 1, 3, 6, 10, 15, 21, 28]).foldl CircularBuffer.push
          (mk_sized 8)).cbegin.plus 5)
        (((alternating_calls [0, 1, 3, 6, 10, 15, 21, 28]).foldl CircularBuffer.push
          (mk_sized 8)).cbegin.plus 5)).toOption.map (fun r => r.2) =
      some ((alternating_calls [0, 1, 3, 6, 10, 15, 21, 28]).foldl CircularBuffer.push
        (mk_sized 8)) := by
  refine ⟨?_, by decide, by decide⟩
  intro β s h
  exact erase_range_empty_throws h

end Claims

end CB
